import Mathlib

/-! # Object module of the 65816 assembler (`src/object.cc`)

A shallow embedding of `Object`, `Object::Segment` and the resolver, followed by
theorems about them.

Conventions of the embedding:

* `unsigned` is a `Nat` below `2^32`; every arithmetic result is reduced with `u32`.
* `long` is an `Int` in `[-2^63, 2^63)` (LP64); every arithmetic result is reduced
  with `wrapLong` (two's complement).  `x & 0xFF` is `x % 256` and `x >> 8` is
  `x / 256` (Euclidean division and remainder, which agree with the arithmetic
  shift and the mask on negative numbers).
* `std::string` is a `List Char`; `s[0]` of the empty string is the terminating
  NUL, which is never a sigil.
* `std::map` is an association list kept in ascending key order, `std::set` a list
  kept in ascending order, `std::list` and `std::vector` are lists.
* text written to `stderr` is returned as a list of `Diag` values.
* the IPS writer returns the records it writes, each with the arguments of its `PutL`,
  `PutMW` and `PutS` calls; the three IPS pseudo-address constants are a parameter.
-/

namespace Nescom

/-- The type `std::string`. -/
abbrev Str := List Char

/-- Reduction of an arithmetic result to `unsigned` (32 bits). -/
def u32 (n : Int) : Nat := (n % 4294967296).toNat

/-- Reduction of an arithmetic result to `long` (64 bits, two's complement). -/
def wrapLong (x : Int) : Int := (x + 9223372036854775808) % 18446744073709551616 - 9223372036854775808

/-! ## `std::map` and `std::set` -/

namespace StdMap

variable {κ : Type} {ν : Type}

/-- The call `m.find(k)`: the mapped value, or `none` for `m.end()`. -/
def find [DecidableEq κ] : List (κ × ν) → κ → Option ν
  | [], _ => none
  | (k', v') :: rest, k => if k = k' then some v' else find rest k

/-- The assignment `m[k] = v`: overwrite the entry of `k`, or insert it at its place in key order. -/
def set [DecidableEq κ] [LT κ] [DecidableRel (fun (a b : κ) => a < b)] :
    List (κ × ν) → κ → ν → List (κ × ν)
  | [], k, v => [(k, v)]
  | (k', v') :: rest, k, v =>
    if k = k' then (k, v) :: rest
    else if k < k' then (k, v) :: (k', v') :: rest
    else (k', v') :: set rest k v

/-- The call `m.erase(k)`. -/
def erase [DecidableEq κ] : List (κ × ν) → κ → List (κ × ν)
  | [], _ => []
  | (k', v') :: rest, k => if k = k' then erase rest k else (k', v') :: erase rest k

end StdMap

namespace StdSet

variable {κ : Type}

/-- The call `s.insert(k)`. -/
def insert [DecidableEq κ] [LT κ] [DecidableRel (fun (a b : κ) => a < b)] :
    List κ → κ → List κ
  | [], k => [k]
  | k' :: rest, k =>
    if k = k' then k' :: rest
    else if k < k' then k :: k' :: rest
    else k' :: insert rest k

/-- The call `s.erase(k)`. -/
def erase [DecidableEq κ] (s : List κ) (k : κ) : List κ := s.filter (fun x => decide (x ≠ k))

/-- The test `s.find(k) != s.end()`. -/
def contains [DecidableEq κ] (s : List κ) (k : κ) : Bool := decide (k ∈ s)

end StdSet

/-! ## Data model -/

/-- Modelled from the spec: the enumeration `SegmentSelection` of `object.hh`, "four fixed
segments: `CODE`, `DATA`, `ZERO`, `BSS`, with stable ordinal ids 0..3 used in the wire
format". -/
inductive SegmentSelection where
  | CODE
  | DATA
  | ZERO
  | BSS
  deriving DecidableEq, Repr

/-- Modelled from the spec: the value of each enumerator of `SegmentSelection`, which is
what `GetSegmentID` (`return s;`) returns; the enumerators are declared in `object.hh`, and
the spec gives them the "stable ordinal ids 0..3". -/
def GetSegmentID : SegmentSelection → Nat
  | .CODE => 0
  | .DATA => 1
  | .ZERO => 2
  | .BSS => 3

/-- Modelled from the spec: the `FORCE_*` character constants of `assemble.hh`, one
constructor per relocation kind of the spec's data model; `OTHER` is any `char`
that equals none of the seven constants (no `case` of a `switch` matches it). -/
inductive RelocKind where
  | LOBYTE
  | HIBYTE
  | ABSWORD
  | LONG
  | SEGBYTE
  | REL8
  | REL16
  | OTHER
  deriving DecidableEq, Repr

/-- Lines written to `stderr`. -/
inductive Diag where
  | unusedLabel (name : Str)
  | unresolvedShort (name : Str)
  | unresolvedNear (name : Str)
  | shortJumpOutOfRange (diff : Int)
  | nearJumpOutOfRange (diff : Int)
  | alreadyDefined (name : Str)
  | eepDiff (diff : Int)
  | writing32
  | ipsNotAllowed (addr : Nat)
  | ipsReservedExtern (addr : Nat)
  | ipsReservedGlobal (addr : Nat)
  | ipsTooBig (addr : Nat)
  | ipsHiByteExterns
  | ipsSegmentExterns
  | ipsLinkIgnored
  deriving DecidableEq, Repr

/-- The class `Object::Segment::Extern`. -/
structure Extern where
  pos : Nat
  type : RelocKind
  value : Int
  ref : Str
  level : Nat
  deriving DecidableEq, Repr

/-- The class `Object::Segment::Fixup`. -/
structure Fixup where
  pos : Nat
  type : RelocKind
  value : Int
  targetseg : SegmentSelection
  targetoffset : Nat
  deriving DecidableEq, Repr

/-- Modelled from the spec: one of the "five parallel lists of relocations/fixups"
of `relocdata.hh`; a fixup entry is `(target segment, data)` and a reloc entry is
`(data, symbol name)`, as `PutReloc` reads them. -/
structure RelocVar (α : Type) where
  Fixups : List (SegmentSelection × α)
  Relocs : List (α × Str)
  deriving DecidableEq, Repr

/-- Modelled from the spec: `AddFixup` of `relocdata.hh` appends an entry. -/
def RelocVar.AddFixup {α : Type} (r : RelocVar α) (seg : SegmentSelection) (d : α) : RelocVar α :=
  { r with Fixups := r.Fixups ++ [(seg, d)] }

/-- Modelled from the spec: `AddReloc` of `relocdata.hh` appends an entry. -/
def RelocVar.AddReloc {α : Type} (r : RelocVar α) (d : α) (name : Str) : RelocVar α :=
  { r with Relocs := r.Relocs ++ [(d, name)] }

/-- Modelled from the spec: the RelocTable `Relocdata` of `relocdata.hh`; `R16hi` and
`R24seg` carry the patch address together with the kind-specific extra. -/
structure Relocdata where
  R16lo : RelocVar Nat
  R16 : RelocVar Nat
  R24 : RelocVar Nat
  R16hi : RelocVar (Nat × Nat)
  R24seg : RelocVar (Nat × Nat)
  deriving DecidableEq, Repr

/-- The empty RelocTable. -/
def Relocdata.empty : Relocdata :=
  { R16lo := ⟨[], []⟩, R16 := ⟨[], []⟩, R24 := ⟨[], []⟩, R16hi := ⟨[], []⟩, R24seg := ⟨[], []⟩ }

/-- Modelled from the spec: the sparse byte store `DataArea` of `dataarea.hh`, a map
from address to byte. -/
structure DataArea where
  bytes : List (Nat × Nat)
  deriving DecidableEq, Repr

/-- Modelled from the spec: `WriteByte(addr, b)` stores `b` at `addr`. -/
def DataArea.WriteByte (d : DataArea) (addr : Nat) (b : Nat) : DataArea :=
  { bytes := StdMap.set d.bytes addr b }

/-- Modelled from the spec: `GetByte(addr)` returns the stored byte or 0 if unset. -/
def DataArea.GetByte (d : DataArea) (addr : Nat) : Nat :=
  (StdMap.find d.bytes addr).getD 0

/-- The type `LabelList`. -/
abbrev LabelList := List (Str × Nat)

/-- The type `LabelMap`. -/
abbrev LabelMap := List (Nat × LabelList)

/-- The class `Object::Segment`. -/
structure Segment where
  R : Relocdata
  Externs : List Extern
  Fixups : List Fixup
  Position : Nat
  Data : DataArea
  labels : LabelMap
  UnusedLabels : List Str
  deriving DecidableEq, Repr

/-- The constructor `Segment()`. -/
def Segment.new : Segment :=
  { R := Relocdata.empty, Externs := [], Fixups := [], Position := 0, Data := ⟨[]⟩,
    labels := [], UnusedLabels := [] }

/-- Modelled from the spec: the linkage wish of `object.hh`. -/
inductive LinkageWish where
  | LinkAnywhere
  | LinkInGroup (n : Nat)
  | LinkThisPage (n : Nat)
  deriving DecidableEq, Repr

/-- The class `Object`. -/
structure Object where
  code : Segment
  data : Segment
  zero : Segment
  bss : Segment
  CurScope : Nat
  CurSegment : SegmentSelection
  Linkage : LinkageWish
  deriving DecidableEq, Repr

/-- The constructor `Object::Object`. -/
def Object.new : Object :=
  { code := Segment.new, data := Segment.new, zero := Segment.new, bss := Segment.new,
    CurScope := 0, CurSegment := .CODE, Linkage := .LinkAnywhere }

/-- The segment named by a selector. -/
def Object.seg (obj : Object) : SegmentSelection → Segment
  | .CODE => obj.code
  | .DATA => obj.data
  | .ZERO => obj.zero
  | .BSS => obj.bss

/-- Replace the segment named by a selector. -/
def Object.setSeg (obj : Object) (sel : SegmentSelection) (s : Segment) : Object :=
  match sel with
  | .CODE => { obj with code := s }
  | .DATA => { obj with data := s }
  | .ZERO => { obj with zero := s }
  | .BSS => { obj with bss := s }

/-- The function `Object::GetSeg`. -/
def Object.GetSeg (obj : Object) : Segment := obj.seg obj.CurSegment

/-! ## Segment memory -/

/-- The function `Segment::AddByte`: `Data.WriteByte(Position++, byte)`. -/
def Segment.AddByte (seg : Segment) (byte : Nat) : Segment :=
  { seg with Data := seg.Data.WriteByte seg.Position byte, Position := u32 (seg.Position + 1) }

/-- The function `Segment::SetByte`. -/
def Segment.SetByte (seg : Segment) (offset : Nat) (byte : Nat) : Segment :=
  { seg with Data := seg.Data.WriteByte offset byte }

/-- The function `Segment::GetByte`. -/
def Segment.GetByte (seg : Segment) (offset : Nat) : Nat := seg.Data.GetByte offset

/-- The function `Segment::GetPos`. -/
def Segment.GetPos (seg : Segment) : Nat := seg.Position

/-- The function `Segment::SetPos`. -/
def Segment.SetPos (seg : Segment) (newpos : Nat) : Segment := { seg with Position := newpos }

/-! ## Labels -/

/-- The function `Segment::GetLabels(level)`, which is `labels[level]`: the list read. -/
def Segment.GetLabels (seg : Segment) (level : Nat) : LabelList :=
  (StdMap.find seg.labels level).getD []

/-- The function `Segment::ClearLabels`: the loop over `level_labels`, which erases each
name from `UnusedLabels` and warns about it when `MayWarn("unused-label")`. -/
def Segment.ClearLabels.loop (mayWarn : Bool) : LabelList → List Str → List Str × List Diag
  | [], unused => (unused, [])
  | (name, _) :: rest, unused =>
    if StdSet.contains unused name then
      let r := Segment.ClearLabels.loop mayWarn rest (StdSet.erase unused name)
      (r.1, (if mayWarn then [Diag.unusedLabel name] else []) ++ r.2)
    else Segment.ClearLabels.loop mayWarn rest unused

/-- The function `Segment::ClearLabels`. -/
def Segment.ClearLabels (MayWarn : String → Bool) (seg : Segment) (level : Nat) :
    Segment × List Diag :=
  let r := Segment.ClearLabels.loop (MayWarn "unused-label") (seg.GetLabels level) seg.UnusedLabels
  ({ seg with UnusedLabels := r.1, labels := StdMap.set seg.labels level [] }, r.2)

/-- The function `Segment::FindLabel(name, level, result)`: `some result`, or `none` for `false`. -/
def Segment.FindLabelAt (seg : Segment) (name : Str) (level : Nat) : Option Nat :=
  match StdMap.find seg.labels level with
  | none => none
  | some ll => StdMap.find ll name

/-- The function `Segment::FindLabel(name)`: the loop over all levels. -/
def Segment.FindLabel.loop (name : Str) : LabelMap → Bool
  | [] => false
  | (_, ll) :: rest => if (StdMap.find ll name).isSome then true else Segment.FindLabel.loop name rest

/-- The function `Segment::FindLabel(name)`. -/
def Segment.FindLabel (seg : Segment) (name : Str) : Bool :=
  Segment.FindLabel.loop name seg.labels

/-- The function `Segment::DefineLabel(level, name, value)`. -/
def Segment.DefineLabel (seg : Segment) (level : Nat) (name : Str) (value : Nat) : Segment :=
  { seg with
    UnusedLabels := StdSet.insert seg.UnusedLabels name,
    labels := StdMap.set seg.labels level (StdMap.set (seg.GetLabels level) name value) }

/-- The function `Segment::UndefineLabel`: the loop over all levels. -/
def Segment.UndefineLabel.loop (label : Str) : LabelMap → LabelMap
  | [] => []
  | (lvl, ll) :: rest => (lvl, StdMap.erase ll label) :: Segment.UndefineLabel.loop label rest

/-- The function `Segment::UndefineLabel`. -/
def Segment.UndefineLabel (seg : Segment) (label : Str) : Segment :=
  { seg with labels := Segment.UndefineLabel.loop label seg.labels }

/-- The function `Segment::MarkLabelUsed`. -/
def Segment.MarkLabelUsed (seg : Segment) (s : Str) : Segment :=
  { seg with UnusedLabels := StdSet.erase seg.UnusedLabels s }

/-- The function `Object::FindLabel(s)`. -/
def Object.FindLabel (obj : Object) (s : Str) : Bool :=
  obj.code.FindLabel s || obj.data.FindLabel s || obj.zero.FindLabel s || obj.bss.FindLabel s

/-- The function `Object::FindLabel(name, level, seg, result)`: `some (seg, result)`, or `none`
for `false`. -/
def Object.FindLabelAt (obj : Object) (name : Str) (level : Nat) : Option (SegmentSelection × Nat) :=
  match obj.code.FindLabelAt name level with
  | some r => some (.CODE, r)
  | none =>
    match obj.data.FindLabelAt name level with
    | some r => some (.DATA, r)
    | none =>
      match obj.zero.FindLabelAt name level with
      | some r => some (.ZERO, r)
      | none =>
        match obj.bss.FindLabelAt name level with
        | some r => some (.BSS, r)
        | none => none

/-! ## Resolver: extern to fixup -/

/-- The inner loop of `CheckExterns`, `for(unsigned scope=CurScope; scope-- > 0; )`: the first
hit of `obj.FindLabel(ref, scope, targetseg, targetaddr)`, from `CurScope-1` down to 0. -/
def Segment.CheckExterns.scan (obj : Object) (ref : Str) : Nat → Option (SegmentSelection × Nat)
  | 0 => none
  | scope + 1 =>
    match obj.FindLabelAt ref scope with
    | some r => some r
    | none => Segment.CheckExterns.scan obj ref scope

/-- The outer loop of `CheckExterns` over the extern list: the externs that stay (in order),
and the segment with the new fixups pushed back and the resolved names marked used. -/
def Segment.CheckExterns.loop (CurScope : Nat) (obj : Object) : List Extern → Segment → List Extern × Segment
  | [], seg => ([], seg)
  | i :: rest, seg =>
    if i.level < CurScope then
      let r := Segment.CheckExterns.loop CurScope obj rest seg
      (i :: r.1, r.2)
    else
      match Segment.CheckExterns.scan obj i.ref CurScope with
      | some (targetseg, targetaddr) =>
        let seg1 := seg.MarkLabelUsed i.ref
        let newref : Fixup := ⟨i.pos, i.type, i.value, targetseg, targetaddr⟩
        Segment.CheckExterns.loop CurScope obj rest { seg1 with Fixups := seg1.Fixups ++ [newref] }
      | none =>
        let r := Segment.CheckExterns.loop CurScope obj rest seg
        (i :: r.1, r.2)

/-- The function `Segment::CheckExterns`. -/
def Segment.CheckExterns (seg : Segment) (CurScope : Nat) (obj : Object) : Segment :=
  let r := Segment.CheckExterns.loop CurScope obj seg.Externs seg
  { r.2 with Externs := r.1 }

/-- The function `Segment::AddExtern`. -/
def Segment.AddExtern (seg : Segment) (kind : RelocKind) (ref : Str) (value : Int)
    (CurScope : Nat) : Segment :=
  { seg with Externs := seg.Externs ++ [⟨seg.GetPos, kind, value, ref, CurScope⟩] }

/-! ## Resolver: fixup application on segment close -/

/-- The body of the first loop of `CloseSegment`, for one remaining extern. -/
def Segment.CloseSegment.onExtern (seg : Segment) (ref : Extern) : Segment × List Diag :=
  let address := ref.pos
  let value := ref.value
  let name := ref.ref
  match ref.type with
  | .LOBYTE =>
    let s1 := { seg with R := { seg.R with R16lo := seg.R.R16lo.AddReloc address name } }
    (s1.SetByte address (value % 256).toNat, [])
  | .HIBYTE =>
    let s1 := { seg with R := { seg.R with R16hi := seg.R.R16hi.AddReloc (address, (value % 256).toNat) name } }
    (s1.SetByte address (value / 256 % 256).toNat, [])
  | .ABSWORD =>
    let s1 := { seg with R := { seg.R with R16 := seg.R.R16.AddReloc address name } }
    let s2 := s1.SetByte address (value % 256).toNat
    (s2.SetByte (u32 (address + 1)) (value / 256 % 256).toNat, [])
  | .LONG =>
    let s1 := { seg with R := { seg.R with R24 := seg.R.R24.AddReloc address name } }
    let s2 := s1.SetByte address (value % 256).toNat
    let s3 := s2.SetByte (u32 (address + 1)) (value / 256 % 256).toNat
    (s3.SetByte (u32 (address + 2)) (value / 65536 % 256).toNat, [])
  | .SEGBYTE =>
    let s1 := { seg with R := { seg.R with R24seg := seg.R.R24seg.AddReloc (address, (value % 65536).toNat) name } }
    (s1.SetByte address (value / 65536 % 256).toNat, [])
  | .REL8 => (seg, [Diag.unresolvedShort name])
  | .REL16 => (seg, [Diag.unresolvedNear name])
  | .OTHER => (seg, [])

/-- The body of the second loop of `CloseSegment`, for one fixup; `already_reprocessed` is the
global flag of the assembly driver. -/
def Segment.CloseSegment.onFixup (already_reprocessed : Bool) (seg : Segment) (ref : Fixup) :
    Segment × List Diag :=
  let address := ref.pos
  let sg := ref.targetseg
  let offs := ref.targetoffset
  let value := wrapLong (ref.value + offs)
  match ref.type with
  | .LOBYTE =>
    let s1 := { seg with R := { seg.R with R16lo := seg.R.R16lo.AddFixup sg address } }
    (s1.SetByte address (value % 256).toNat, [])
  | .HIBYTE =>
    let s1 := { seg with R := { seg.R with R16hi := seg.R.R16hi.AddFixup sg (address, (value % 256).toNat) } }
    (s1.SetByte address (value / 256 % 256).toNat, [])
  | .ABSWORD =>
    let s1 := { seg with R := { seg.R with R16 := seg.R.R16.AddFixup sg address } }
    let s2 := s1.SetByte address (value % 256).toNat
    (s2.SetByte (u32 (address + 1)) (value / 256 % 256).toNat, [])
  | .LONG =>
    let s1 := { seg with R := { seg.R with R24 := seg.R.R24.AddFixup sg address } }
    let s2 := s1.SetByte address (value % 256).toNat
    let s3 := s2.SetByte (u32 (address + 1)) (value / 256 % 256).toNat
    (s3.SetByte (u32 (address + 2)) (value / 65536 % 256).toNat, [])
  | .SEGBYTE =>
    let s1 := { seg with R := { seg.R with R24seg := seg.R.R24seg.AddFixup sg (address, (value % 65536).toNat) } }
    (s1.SetByte address (value / 65536 % 256).toNat, [])
  | .REL8 =>
    let diff := wrapLong (wrapLong (value - address) - 1)
    let threshold : Int := if !already_reprocessed then 20 else 0
    let err := if diff < -128 + threshold ∨ diff ≥ 128 - threshold
      then [Diag.shortJumpOutOfRange diff] else []
    (seg.SetByte address (diff % 256).toNat, err)
  | .REL16 =>
    let diff := wrapLong (wrapLong (value - address) - 2)
    let err := if diff < -32768 ∨ diff ≥ 32768 then [Diag.nearJumpOutOfRange diff] else []
    let s1 := seg.SetByte address (diff % 256).toNat
    (s1.SetByte (u32 (address + 1)) (diff / 256 % 256).toNat, err)
  | .OTHER => (seg, [])

/-- The first loop of `CloseSegment`, over `Externs`. -/
def Segment.CloseSegment.externs : List Extern → Segment → Segment × List Diag
  | [], seg => (seg, [])
  | e :: rest, seg =>
    let r1 := Segment.CloseSegment.onExtern seg e
    let r2 := Segment.CloseSegment.externs rest r1.1
    (r2.1, r1.2 ++ r2.2)

/-- The second loop of `CloseSegment`, over `Fixups`. -/
def Segment.CloseSegment.fixups (already_reprocessed : Bool) : List Fixup → Segment → Segment × List Diag
  | [], seg => (seg, [])
  | f :: rest, seg =>
    let r1 := Segment.CloseSegment.onFixup already_reprocessed seg f
    let r2 := Segment.CloseSegment.fixups already_reprocessed rest r1.1
    (r2.1, r1.2 ++ r2.2)

/-- The function `Segment::CloseSegment`. -/
def Segment.CloseSegment (already_reprocessed : Bool) (seg : Segment) : Segment × List Diag :=
  let r1 := Segment.CloseSegment.externs seg.Externs seg
  let r2 := Segment.CloseSegment.fixups already_reprocessed seg.Fixups r1.1
  (r2.1, r1.2 ++ r2.2)

/-! ## Object -/

/-- The function `Object::StartScope`. -/
def Object.StartScope (obj : Object) : Object := { obj with CurScope := u32 (obj.CurScope + 1) }

/-- The function `Object::EndScope`. -/
def Object.EndScope (MayWarn : String → Bool) (obj : Object) : Object × List Diag :=
  let o1 := { obj with code := obj.code.CheckExterns obj.CurScope obj }
  let o2 := { o1 with data := o1.data.CheckExterns o1.CurScope o1 }
  let o3 := { o2 with zero := o2.zero.CheckExterns o2.CurScope o2 }
  let o4 := { o3 with bss := o3.bss.CheckExterns o3.CurScope o3 }
  let r : Object × List Diag :=
    if o4.CurScope > 0 then
      if o4.CurScope > 1 then
        let c := o4.code.ClearLabels MayWarn (u32 (o4.CurScope - 1))
        let d := o4.data.ClearLabels MayWarn (u32 (o4.CurScope - 1))
        let z := o4.zero.ClearLabels MayWarn (u32 (o4.CurScope - 1))
        let b := o4.bss.ClearLabels MayWarn (u32 (o4.CurScope - 1))
        ({ o4 with code := c.1, data := d.1, zero := z.1, bss := b.1 }, c.2 ++ d.2 ++ z.2 ++ b.2)
      else (o4, [])
    else (o4, [])
  ({ r.1 with CurScope := u32 (r.1.CurScope - 1) }, r.2)

/-- The function `Object::AddExtern`. -/
def Object.AddExtern (obj : Object) (kind : RelocKind) (ref : Str) (value : Int) : Object :=
  obj.setSeg obj.CurSegment (obj.GetSeg.AddExtern kind ref value obj.CurScope)

/-- The function `Object::GetPos`. -/
def Object.GetPos (obj : Object) : Nat := obj.GetSeg.GetPos

/-- The loop `while(s[0] == '&' && CurScope > 0)` of `Object::DefineLabel`: the name and the
scope number it ends with. -/
def Object.DefineLabel.climb (CurScope : Nat) : Str → Nat → Str × Nat
  | '&' :: rest, scopenum =>
    if CurScope > 0 then Object.DefineLabel.climb CurScope rest (u32 (scopenum - 1))
    else ('&' :: rest, scopenum)
  | s, scopenum => (s, scopenum)

/-- The sigil handling of `Object::DefineLabel`: the name `s` and `scopenum` at the point of
the `FindLabel(s)` test. -/
def Object.DefineLabel.sigils (CurScope : Nat) (label : Str) : Str × Nat :=
  let scopenum := u32 (CurScope - 1)
  match label with
  | '+' :: rest => Object.DefineLabel.climb CurScope rest 0
  | s => Object.DefineLabel.climb CurScope s scopenum

/-- The function `Object::DefineLabel(label, value)`. -/
def Object.DefineLabel (obj : Object) (label : Str) (value : Nat) : Object × List Diag :=
  let r := Object.DefineLabel.sigils obj.CurScope label
  if obj.FindLabel r.1 then (obj, [Diag.alreadyDefined r.1])
  else (obj.setSeg obj.CurSegment (obj.GetSeg.DefineLabel r.2 r.1 value), [])

/-- The function `Object::DefineLabel(label)`. -/
def Object.DefineLabelHere (obj : Object) (label : Str) : Object × List Diag :=
  obj.DefineLabel label obj.GetPos

/-- The function `Object::SetPos`. -/
def Object.SetPos (obj : Object) (newpos : Nat) : Object :=
  obj.setSeg obj.CurSegment (obj.GetSeg.SetPos newpos)

/-- The function `Object::UndefineLabel`. -/
def Object.UndefineLabel (obj : Object) (label : Str) : Object :=
  { obj with
    code := obj.code.UndefineLabel label, data := obj.data.UndefineLabel label,
    zero := obj.zero.UndefineLabel label, bss := obj.bss.UndefineLabel label }

/-- The function `Object::CloseSegments`. -/
def Object.CloseSegments (already_reprocessed : Bool) (obj : Object) : Object × List Diag :=
  let c := obj.code.CloseSegment already_reprocessed
  let d := obj.data.CloseSegment already_reprocessed
  let z := obj.zero.CloseSegment already_reprocessed
  let b := obj.bss.CloseSegment already_reprocessed
  ({ obj with code := c.1, data := d.1, zero := z.1, bss := b.1 }, c.2 ++ d.2 ++ z.2 ++ b.2)

/-- The function `Object::GenerateByte`. -/
def Object.GenerateByte (obj : Object) (byte : Nat) : Object :=
  obj.setSeg obj.CurSegment (obj.GetSeg.AddByte byte)

/-- Modelled from the spec: the segment selection of `object.hh`, "set `CurSegment`". -/
def Object.SelectSegment (obj : Object) (sel : SegmentSelection) : Object :=
  { obj with CurSegment := sel }

/-! ## The consumer API as a command language -/

/-- One call of the front end. -/
inductive Op where
  | GenerateByte (byte : Nat)
  | SetPos (newpos : Nat)
  | DefineLabel (label : Str)
  | DefineLabelAt (label : Str) (value : Nat)
  | UndefineLabel (label : Str)
  | AddExtern (kind : RelocKind) (ref : Str) (value : Int)
  | StartScope
  | EndScope
  | SelectSegment (sel : SegmentSelection)
  | CloseSegments
  deriving DecidableEq, Repr

/-- The effect of one call on the Object. -/
def Op.apply (MayWarn : String → Bool) (already_reprocessed : Bool) (obj : Object) :
    Op → Object × List Diag
  | .GenerateByte b => (obj.GenerateByte b, [])
  | .SetPos p => (obj.SetPos p, [])
  | .DefineLabel l => obj.DefineLabelHere l
  | .DefineLabelAt l v => obj.DefineLabel l v
  | .UndefineLabel l => (obj.UndefineLabel l, [])
  | .AddExtern k r v => (obj.AddExtern k r v, [])
  | .StartScope => (obj.StartScope, [])
  | .EndScope => obj.EndScope MayWarn
  | .SelectSegment s => (obj.SelectSegment s, [])
  | .CloseSegments => obj.CloseSegments already_reprocessed

/-- A sequence of calls, in order. -/
def Op.run (MayWarn : String → Bool) (already_reprocessed : Bool) :
    List Op → Object → Object × List Diag
  | [], obj => (obj, [])
  | op :: rest, obj =>
    let r1 := Op.apply MayWarn already_reprocessed obj op
    let r2 := Op.run MayWarn already_reprocessed rest r1.1
    (r2.1, r1.2 ++ r2.2)

/-! ## Auxiliary definitions and scenario inputs -/

/-- The target that `CheckExterns` binds an extern to, if any: none for an extern that is
skipped ("not its time yet"), else the result of the scope scan. -/
def Segment.CheckExterns.target (CurScope : Nat) (obj : Object) (e : Extern) :
    Option (SegmentSelection × Nat) :=
  if e.level < CurScope then none else Segment.CheckExterns.scan obj e.ref CurScope

/-- The fixup made from an extern and the target it is bound to. -/
def Fixup.ofExtern (e : Extern) (t : SegmentSelection × Nat) : Fixup :=
  ⟨e.pos, e.type, e.value, t.1, t.2⟩

/-- Every warning category is enabled. -/
def warnAll : String → Bool := fun _ => true

/-- Scenario S2 up to the point before `EndScope`: a scope is opened, an ABSWORD reference
to `L` is recorded at CODE 0, five bytes are generated and `L` is defined at CODE 5. -/
def scenarioS2Open : Object :=
  (Op.run warnAll false
    [.StartScope, .AddExtern .ABSWORD ['L'] 0, .GenerateByte 0, .GenerateByte 0,
     .GenerateByte 0, .GenerateByte 0, .GenerateByte 0, .DefineLabel ['L']] Object.new).1

/-- A reference to `L` recorded in the outer scope (level 1), with `L` defined at level 0,
at the point where an inner scope (`CurScope = 2`) is about to close. -/
def outerExternOpen : Object :=
  (Op.run warnAll false
    [.StartScope, .DefineLabel ['L'], .AddExtern .ABSWORD ['L'] 0, .StartScope] Object.new).1

/-- The patch range of an extern: the addresses `CloseSegment` writes for it. -/
def Extern.patched (e : Extern) : List Nat :=
  match e.type with
  | .LOBYTE => [e.pos]
  | .HIBYTE => [e.pos]
  | .ABSWORD => [e.pos, u32 (e.pos + 1)]
  | .LONG => [e.pos, u32 (e.pos + 1), u32 (e.pos + 2)]
  | .SEGBYTE => [e.pos]
  | .REL8 => []
  | .REL16 => []
  | .OTHER => []

/-- The patch range of a fixup: the addresses `CloseSegment` writes for it. -/
def Fixup.patched (f : Fixup) : List Nat :=
  match f.type with
  | .LOBYTE => [f.pos]
  | .HIBYTE => [f.pos]
  | .ABSWORD => [f.pos, u32 (f.pos + 1)]
  | .LONG => [f.pos, u32 (f.pos + 1), u32 (f.pos + 2)]
  | .SEGBYTE => [f.pos]
  | .REL8 => [f.pos]
  | .REL16 => [f.pos, u32 (f.pos + 1)]
  | .OTHER => []

/-- The state of scenario S2 after `EndScope`, before `CloseSegments`: its CODE segment. -/
def scenarioS2Code : Segment := (scenarioS2Open.EndScope warnAll).1.code

/-- The fixup of scenario S2. -/
def scenarioS2Fixup : Fixup := ⟨0, .ABSWORD, 0, .CODE, 5⟩

/-- The bytes that `CloseSegment` patches for an unresolved extern of address `a` and value
`v`, as a predicate on the segment after the patch: `v` masked per kind. -/
def Extern.patchedWith (e : Extern) (seg : Segment) : Prop :=
  (e.type = .LOBYTE → seg.GetByte e.pos = (e.value % 256).toNat) ∧
  (e.type = .HIBYTE → seg.GetByte e.pos = (e.value / 256 % 256).toNat) ∧
  (e.type = .ABSWORD →
    seg.GetByte e.pos = (e.value % 256).toNat ∧
    seg.GetByte (u32 (e.pos + 1)) = (e.value / 256 % 256).toNat) ∧
  (e.type = .LONG →
    seg.GetByte e.pos = (e.value % 256).toNat ∧
    seg.GetByte (u32 (e.pos + 1)) = (e.value / 256 % 256).toNat ∧
    seg.GetByte (u32 (e.pos + 2)) = (e.value / 65536 % 256).toNat) ∧
  (e.type = .SEGBYTE → seg.GetByte e.pos = (e.value / 65536 % 256).toNat)

/-- An unresolved LONG extern `ext` at address 0 with value `0x123456`, as in scenario S3. -/
def scenarioS3Extern : Extern := ⟨0, .LONG, 1193046, ['e', 'x', 't'], 0⟩

/-- A segment whose only pending record is the extern of scenario S3, after three bytes. -/
def scenarioS3Code : Segment :=
  (Op.run warnAll false
    [.AddExtern .LONG ['e', 'x', 't'] 1193046, .GenerateByte 0, .GenerateByte 0,
     .GenerateByte 0] Object.new).1.code

/-- A backward short jump: the branch operand at address 10 refers to offset 5. -/
def backwardJump : Fixup := ⟨10, .REL8, 0, .CODE, 5⟩

/-- The test that a relocation kind is one of the PC-relative kinds. -/
def RelocKind.isRelative : RelocKind → Bool
  | .REL8 => true
  | .REL16 => true
  | _ => false

/-- A segment with an unresolved short-relative extern, an unresolved near-relative extern
and a resolved short jump. -/
def relativeOnly : Segment :=
  { Segment.new with
    Externs := [⟨0, .REL8, 0, ['a'], 0⟩, ⟨2, .REL16, 0, ['b'], 0⟩],
    Fixups := [backwardJump] }

/-- The label argument with one leading `+` removed. -/
def stripPlus : Str → Str
  | '+' :: rest => rest
  | s => s

/-- The sigil-stripped name of a label argument, following the spec's words ("strip the `+`",
"strip the `&`", "multiple `&` stack"): one leading `+` removed, then every leading `&`. -/
def stripSigils (label : Str) : Str := (stripPlus label).dropWhile (fun c => c == '&')

/-- The scope number the spec gives a label with `k` leading `&` sigils:
`max(CurScope-1-k, 0)`. -/
def specAmpersandScope (CurScope k : Nat) : Nat := CurScope - 1 - k

/-- An Object outside any scope (`CurScope = 0`) in which `foo` is defined at level 0:
a scope was opened, `foo` defined and the scope closed. -/
def fooDefinedTopLevel : Object :=
  (Op.run warnAll false [.StartScope, .DefineLabel ['f', 'o', 'o'], .EndScope] Object.new).1

/-- An Object inside one scope (`CurScope = 1`) in which `foo` is defined at level 0. -/
def fooDefinedInScope : Object :=
  (Op.run warnAll false [.StartScope, .DefineLabel ['f', 'o', 'o']] Object.new).1

/-- Label uniqueness: each label name is present in at most one (segment, scope level)
pair. -/
def Object.UniqueLabels (obj : Object) : Prop :=
  ∀ (name : Str) (s1 s2 : SegmentSelection) (l1 l2 v1 v2 : Nat),
    (obj.seg s1).FindLabelAt name l1 = some v1 →
    (obj.seg s2).FindLabelAt name l2 = some v2 → s1 = s2 ∧ l1 = l2

/-- The call `GenerateByte` on each element of a byte sequence, in order. -/
def Object.GenerateBytes (obj : Object) (bs : List Nat) : Object :=
  bs.foldl Object.GenerateByte obj

/-- Balanced scope brackets: starting at nesting depth `d`, no `EndScope` of the sequence
closes a scope that the sequence (or the `d` enclosing levels) did not open, and the depth
is 0 at the end.  Calls other than `StartScope` and `EndScope` do not count. -/
def Op.balanced : Nat → List Op → Bool
  | d, [] => d == 0
  | d, .StartScope :: rest => Op.balanced (d + 1) rest
  | 0, .EndScope :: _ => false
  | d + 1, .EndScope :: rest => Op.balanced d rest
  | d, _ :: rest => Op.balanced d rest

/-- The test that a call is `UndefineLabel`. -/
def Op.isUndefine : Op → Bool
  | .UndefineLabel _ => true
  | _ => false

/-- A label name is present in exactly one (segment, level) place of the Object. -/
def Object.OnlyAt (obj : Object) (x : Str) (s0 : SegmentSelection) (L0 : Nat) : Prop :=
  (∃ v, (obj.seg s0).FindLabelAt x L0 = some v) ∧
  ∀ sel L, (sel ≠ s0 ∨ L ≠ L0) → (obj.seg sel).FindLabelAt x L = none

/-- Two scopes are open in a fresh Object. -/
def twoScopesOpen : Object := (Op.run warnAll false [.StartScope, .StartScope] Object.new).1

/-! ## Data area geometry -/

/-- Modelled from the spec: `GetBase()` of `dataarea.hh`, "the minimum written address"
(0 for an empty area). -/
def DataArea.GetBase (d : DataArea) : Nat :=
  match d.bytes with
  | [] => 0
  | (a, _) :: rest => u32 (rest.foldl (fun m e => min m e.1) a)

/-- Modelled from the spec: the maximum written address (0 for an empty area). -/
def DataArea.GetTop (d : DataArea) : Nat :=
  match d.bytes with
  | [] => 0
  | (a, _) :: rest => u32 (rest.foldl (fun m e => max m e.1) a)

/-- Modelled from the spec: `GetSize()` of `dataarea.hh`, "`(max_addr - base + 1)`"
(0 for an empty area). -/
def DataArea.GetSize (d : DataArea) : Nat :=
  match d.bytes with
  | [] => 0
  | _ :: _ => u32 ((d.GetTop : Int) - d.GetBase + 1)

/-- Modelled from the spec: `GetContent()` of `dataarea.hh`, the "dense byte vector of
length `size`, filled from `base`; unset bytes are 0". -/
def DataArea.GetContent (d : DataArea) : List Nat :=
  (List.range d.GetSize).map (fun i => d.GetByte (d.GetBase + i))

/-- The function `Segment::GetBase`. -/
def Segment.GetBase (seg : Segment) : Nat := seg.Data.GetBase

/-- The function `Segment::GetSize`. -/
def Segment.GetSize (seg : Segment) : Nat := seg.Data.GetSize

/-- The function `Segment::GetContent()`. -/
def Segment.GetContent (seg : Segment) : List Nat := seg.Data.GetContent

/-! ## Output primitives: the bytes written to the file, in order -/

/-- The function `PutC`: one byte (`unsigned char`). -/
def PutC (c : Nat) : List Nat := [c % 256]

/-- The bytes of the characters of a `std::string`. -/
def strBytes (s : Str) : List Nat := s.map (fun c => c.toNat % 256)

/-- The call `PutS(s.c_str(), s.size()+1, fp)`: the characters and the terminating NUL. -/
def PutCStr (s : Str) : List Nat := strBytes s ++ [0]

/-- The function `PutW`: 16-bit lsb-first (the argument is an `unsigned short`). -/
def PutW (w : Nat) : List Nat := PutC (w % 65536 % 256) ++ PutC (w % 65536 / 256)

/-- The function `PutD`: 32-bit lsb-first (the argument is an `unsigned int`). -/
def PutD (w : Nat) : List Nat :=
  PutW (w % 4294967296 % 65536) ++ PutW (w % 4294967296 / 65536)

/-- The function `PutWD`: 16 or 32-bit lsb-first. -/
def PutWD (w : Nat) (Use32 : Bool) : List Nat := if Use32 then PutD w else PutW w

/-- The function `PutCustomHeader(fp, type, param1, param2)`. -/
def PutCustomHeader (type param1 param2 : Nat) : List Nat :=
  PutC 7 ++ PutC type ++ PutC param1 ++ PutD param2

/-- The function `PutCustomHeader(fp, type, s)`. -/
def PutCustomHeaderStr (type : Nat) (s : Str) : List Nat :=
  PutC (s.length + 3) ++ PutC type ++ PutCStr s

/-! ## Undefined symbols -/

/-- The struct `Unresolved`. -/
structure Unresolved where
  str2num : List (Str × Nat)
  num2str : List Str
  deriving DecidableEq, Repr

/-- The constructor `Unresolved()`. -/
def Unresolved.new : Unresolved := { str2num := [], num2str := [] }

/-- The function `Unresolved::size` (an `unsigned`). -/
def Unresolved.size (u : Unresolved) : Nat := u32 u.num2str.length

/-- The function `Unresolved::Add`. -/
def Unresolved.Add (u : Unresolved) (name : Str) : Unresolved :=
  if (StdMap.find u.str2num name).isSome then u
  else
    { str2num := StdMap.set u.str2num name (u32 u.num2str.length),
      num2str := u.num2str ++ [name] }

/-- The function `Unresolved::Put`. -/
def Unresolved.Put (u : Unresolved) (use32 : Bool) : List Nat :=
  PutWD u.size use32 ++ (u.num2str.take u.size).flatMap PutCStr

/-- The function `Unresolved::Find`: `str2num.find(s)->second`, or `none` when `find` returns
`end()` (the dereference is undefined). -/
def Unresolved.Find (u : Unresolved) (s : Str) : Option Nat := StdMap.find u.str2num s

/-- The function `BuildReloc`: the five `WalkList(type, Reloc) syms.Add(i->second)` loops. -/
def BuildReloc (seg : Segment) (syms : Unresolved) : Unresolved :=
  let s1 := seg.R.R16lo.Relocs.foldl (fun u i => u.Add i.2) syms
  let s2 := seg.R.R16.Relocs.foldl (fun u i => u.Add i.2) s1
  let s3 := seg.R.R24.Relocs.foldl (fun u i => u.Add i.2) s2
  let s4 := seg.R.R16hi.Relocs.foldl (fun u i => u.Add i.2) s3
  seg.R.R24seg.Relocs.foldl (fun u i => u.Add i.2) s4

/-! ## Relocation encoding -/

/-- The type `RelocMap`: address to payload bytes. -/
abbrev RelocMap := List (Nat × List Nat)

/-- A `WalkList(type, Fixup)` loop of `PutReloc`: `relocs[address] = result` for every entry;
`addr` reads the address of the entry's data and `result` builds the payload. -/
def PutReloc.walkFixups {α : Type} (addr : α → Nat) (result : SegmentSelection → α → List Nat) :
    List (SegmentSelection × α) → RelocMap → RelocMap
  | [], m => m
  | (s, d) :: rest, m =>
    PutReloc.walkFixups addr result rest (StdMap.set m (addr d) (result s d))

/-- A `WalkList(type, Reloc)` loop of `PutReloc`: `n = syms.Find(name)` and
`relocs[address] = result` for every entry; `none` when a name is not in `syms`. -/
def PutReloc.walkRelocs {α : Type} (syms : Unresolved) (addr : α → Nat)
    (result : Nat → α → List Nat) : List (α × Str) → RelocMap → Option RelocMap
  | [], m => some m
  | (d, name) :: rest, m =>
    match syms.Find name with
    | none => none
    | some n => PutReloc.walkRelocs syms addr result rest (StdMap.set m (addr d) (result n d))

/-- The first half of `PutReloc`: the five loops over the fixup lists. -/
def PutReloc.fixupTable (seg : Segment) : RelocMap :=
  let m1 := PutReloc.walkFixups (fun a => a)
    (fun s _ => [(0x20 ||| GetSegmentID s) % 256]) seg.R.R16lo.Fixups []
  let m2 := PutReloc.walkFixups (fun a => a)
    (fun s _ => [(0x80 ||| GetSegmentID s) % 256]) seg.R.R16.Fixups m1
  let m3 := PutReloc.walkFixups (fun a => a)
    (fun s _ => [(0xC0 ||| GetSegmentID s) % 256]) seg.R.R24.Fixups m2
  let m4 := PutReloc.walkFixups (fun d => d.1)
    (fun s d => [(0x40 ||| GetSegmentID s) % 256, d.2 % 256]) seg.R.R16hi.Fixups m3
  PutReloc.walkFixups (fun d => d.1)
    (fun s d => [(0xA0 ||| GetSegmentID s) % 256, d.2 % 256, d.2 / 256 % 256])
    seg.R.R24seg.Fixups m4

/-- The address-sorted table `relocs` of `PutReloc` after all ten loops. -/
def PutReloc.table (seg : Segment) (syms : Unresolved) : Option RelocMap :=
  (PutReloc.walkRelocs syms (fun a => a)
    (fun n _ => [0x20, n % 256, n / 256 % 256]) seg.R.R16lo.Relocs
    (PutReloc.fixupTable seg)).bind fun m6 =>
  (PutReloc.walkRelocs syms (fun a => a)
    (fun n _ => [0x80, n % 256, n / 256 % 256]) seg.R.R16.Relocs m6).bind fun m7 =>
  (PutReloc.walkRelocs syms (fun a => a)
    (fun n _ => [0xC0, n % 256, n / 256 % 256]) seg.R.R24.Relocs m7).bind fun m8 =>
  (PutReloc.walkRelocs syms (fun d => d.1)
    (fun n d => [0x40, n % 256, n / 256 % 256, d.2 % 256]) seg.R.R16hi.Relocs m8).bind fun m9 =>
  PutReloc.walkRelocs syms (fun d => d.1)
    (fun n d => [0xA0, n % 256, n / 256 % 256, d.2 % 256, d.2 / 256 % 256])
    seg.R.R24seg.Relocs m9

/-- Conversion of an arithmetic result to `int` (32 bits, two's complement). -/
def wrapInt (x : Int) : Int := (x + 2147483648) % 4294967296 - 2147483648

/-- The loop `while(diff > 254) { PutC(255, fp); diff -= 254; }`: the bytes written and the
final `diff`; the first argument bounds the number of iterations. -/
def PutReloc.extend : Nat → Int → List Nat × Int
  | 0, diff => ([], diff)
  | fuel + 1, diff =>
    if diff > 254 then
      let r := PutReloc.extend fuel (wrapInt (diff - 254))
      (PutC 255 ++ r.1, r.2)
    else ([], diff)

/-- The emission loop of `PutReloc` over the sorted table, from the previous address `addr`. -/
def PutReloc.emit : Int → RelocMap → List Nat × List Diag
  | _, [] => ([], [])
  | addr, (key, payload) :: rest =>
    let new_addr := wrapInt key
    let diff := wrapInt (new_addr - addr)
    let err := if diff ≤ 0 then [Diag.eepDiff diff] else []
    let ext := PutReloc.extend diff.toNat diff
    let r := PutReloc.emit new_addr rest
    (ext.1 ++ PutC (ext.2 % 256).toNat ++ payload ++ r.1, err ++ r.2)

/-- The function `PutReloc`: the relocation stream of one segment and the diagnostics, or
`none` when a symbol name is not in `syms`. -/
def PutReloc (seg : Segment) (syms : Unresolved) : Option (List Nat × List Diag) :=
  (PutReloc.table seg syms).map fun relocs =>
    let r := PutReloc.emit (-1) relocs
    (r.1 ++ PutC 0, r.2)

/-! ## Label export and the O65 writer -/

/-- The function `PutLabels`. -/
def PutLabels (seg : Segment) (segtype : SegmentSelection) (use32 : Bool) : List Nat :=
  let segid := GetSegmentID segtype
  let count := seg.labels.foldl (fun c i => u32 (c + i.2.length)) 0
  PutWD count use32 ++
    seg.labels.flatMap (fun i =>
      i.2.flatMap (fun j => PutCStr j.1 ++ PutC segid ++ PutWD j.2 use32))

/-- The symbol table `externs` that `WriteO65` builds first. -/
def Object.WriteO65.externs (obj : Object) : Unresolved :=
  BuildReloc obj.bss (BuildReloc obj.zero (BuildReloc obj.data (BuildReloc obj.code
    Unresolved.new)))

/-- The test of `WriteO65` "whether 32bitness is needed". -/
def Object.WriteO65.use32 (obj : Object) : Bool :=
  decide (obj.code.GetBase > 0xFFFF ∨ obj.code.GetSize > 0xFFFF
    ∨ obj.data.GetBase > 0xFFFF ∨ obj.data.GetSize > 0xFFFF
    ∨ obj.bss.GetBase > 0xFFFF ∨ obj.bss.GetSize > 0xFFFF
    ∨ obj.zero.GetBase > 0xFFFF ∨ obj.zero.GetSize > 0xFFFF
    ∨ (Object.WriteO65.externs obj).size > 0xFFFF)

/-- The part of `WriteO65` up to the stack size: magic, mode word and segment geometry. -/
def Object.WriteO65.header (obj : Object) : List Nat :=
  let use32 := Object.WriteO65.use32 obj
  let Mode : Nat := if use32 then (0x8000 ||| 0x1000) ||| 0x2000 else 0x8000 ||| 0x1000
  [1, 0, 0x6F, 0x36, 0x35, 0] ++ PutW Mode
    ++ PutWD obj.code.GetBase use32 ++ PutWD obj.code.GetSize use32
    ++ PutWD obj.data.GetBase use32 ++ PutWD obj.data.GetSize use32
    ++ PutWD obj.bss.GetBase use32 ++ PutWD obj.bss.GetSize use32
    ++ PutWD obj.zero.GetBase use32 ++ PutWD obj.zero.GetSize use32
    ++ PutWD 0 use32

/-- The custom headers of `WriteO65`, with the terminating zero; `VERSION` is the macro of
the build. -/
def Object.WriteO65.custom (VERSION : Str) (obj : Object) : List Nat :=
  (match obj.Linkage with
    | .LinkInGroup n => PutCustomHeader 10 1 n
    | .LinkThisPage n => PutCustomHeader 10 2 n
    | .LinkAnywhere => [])
    ++ PutCustomHeaderStr 2 (['s', 'n', 'e', 's', 'c', 'o', 'm', ' '] ++ VERSION)
    ++ PutC 0

/-- The function `Object::WriteO65`: the bytes written and the diagnostics, or `none` when
`PutReloc` looks up a name that is not in the symbol table. -/
def Object.WriteO65 (MayWarn : String → Bool) (VERSION : Str) (obj : Object) :
    Option (List Nat × List Diag) :=
  let externs := Object.WriteO65.externs obj
  let use32 := Object.WriteO65.use32 obj
  let warn := if use32 = true ∧ MayWarn "use32" = true then [Diag.writing32] else []
  match PutReloc obj.code externs, PutReloc obj.data externs with
  | some c, some d =>
    some (Object.WriteO65.header obj ++ Object.WriteO65.custom VERSION obj
        ++ obj.code.GetContent ++ obj.data.GetContent
        ++ externs.Put use32
        ++ c.1 ++ d.1
        ++ PutLabels obj.code .CODE use32 ++ PutLabels obj.data .DATA use32
        ++ PutLabels obj.zero .ZERO use32 ++ PutLabels obj.bss .BSS use32,
      warn ++ c.2 ++ d.2)
  | _, _ => none

/-! ## Auxiliary definitions for the O65 writer -/

/-- The symbol names of the five reloc lists of a segment, in the order `BuildReloc` walks
them. -/
def Segment.relocNames (seg : Segment) : List Str :=
  seg.R.R16lo.Relocs.map (fun i => i.2) ++ seg.R.R16.Relocs.map (fun i => i.2)
    ++ seg.R.R24.Relocs.map (fun i => i.2) ++ seg.R.R16hi.Relocs.map (fun i => i.2)
    ++ seg.R.R24seg.Relocs.map (fun i => i.2)

/-- The symbol names of all four segments, in the order `WriteO65` walks them. -/
def Object.relocNames (obj : Object) : List Str :=
  obj.code.relocNames ++ obj.data.relocNames ++ obj.zero.relocNames ++ obj.bss.relocNames

/-- The two maps of the symbol table are mutually inverse and no name is listed twice. -/
def Unresolved.Inv (u : Unresolved) : Prop :=
  u.num2str.Nodup ∧
  ∀ name i, StdMap.find u.str2num name = some i ↔ u.num2str[i]? = some name

/-- The position of the first occurrence of a name in a list (the length when absent). -/
def firstIndex (a : Str) : List Str → Nat
  | [] => 0
  | b :: l => if a = b then 0 else firstIndex a l + 1

/-- The wire byte of a relocation kind (0 for the kinds that are never encoded). -/
def RelocKind.kindByte : RelocKind → Nat
  | .LOBYTE => 0x20
  | .HIBYTE => 0x40
  | .ABSWORD => 0x80
  | .LONG => 0xC0
  | .SEGBYTE => 0xA0
  | _ => 0

/-- One fixup entry of a RelocTable: kind, patch address, kind-specific extra bytes and
target segment. -/
structure FixupRecord where
  kind : RelocKind
  addr : Nat
  extras : List Nat
  target : SegmentSelection
  deriving DecidableEq, Repr

/-- One unresolved reloc entry of a RelocTable: kind, patch address, kind-specific extra
bytes and symbol name. -/
structure RelocRecord where
  kind : RelocKind
  addr : Nat
  extras : List Nat
  name : Str
  deriving DecidableEq, Repr

/-- The fixup entries of a segment's RelocTable, in the order `PutReloc` walks the lists. -/
def Segment.fixupRecords (seg : Segment) : List FixupRecord :=
  seg.R.R16lo.Fixups.map (fun i => ⟨.LOBYTE, i.2, [], i.1⟩)
    ++ seg.R.R16.Fixups.map (fun i => ⟨.ABSWORD, i.2, [], i.1⟩)
    ++ seg.R.R24.Fixups.map (fun i => ⟨.LONG, i.2, [], i.1⟩)
    ++ seg.R.R16hi.Fixups.map (fun i => ⟨.HIBYTE, i.2.1, [i.2.2 % 256], i.1⟩)
    ++ seg.R.R24seg.Fixups.map
        (fun i => ⟨.SEGBYTE, i.2.1, [i.2.2 % 256, i.2.2 / 256 % 256], i.1⟩)

/-- The reloc entries of a segment's RelocTable, in the order `PutReloc` walks the lists. -/
def Segment.relocRecords (seg : Segment) : List RelocRecord :=
  seg.R.R16lo.Relocs.map (fun i => ⟨.LOBYTE, i.1, [], i.2⟩)
    ++ seg.R.R16.Relocs.map (fun i => ⟨.ABSWORD, i.1, [], i.2⟩)
    ++ seg.R.R24.Relocs.map (fun i => ⟨.LONG, i.1, [], i.2⟩)
    ++ seg.R.R16hi.Relocs.map (fun i => ⟨.HIBYTE, i.1.1, [i.1.2 % 256], i.2⟩)
    ++ seg.R.R24seg.Relocs.map
        (fun i => ⟨.SEGBYTE, i.1.1, [i.1.2 % 256, i.1.2 / 256 % 256], i.2⟩)

/-- The payload of a fixup entry: the kind byte with the segment id, then the extras. -/
def FixupRecord.payload (r : FixupRecord) : List Nat :=
  (r.kind.kindByte ||| GetSegmentID r.target) % 256 :: r.extras

/-- The payload of a reloc entry with symbol index `n`: the kind byte, the two low bytes of
the index, then the extras. -/
def RelocRecord.payload (n : Nat) (r : RelocRecord) : List Nat :=
  r.kind.kindByte :: n % 256 :: n / 256 % 256 :: r.extras

/-- Successive assignments `m[k] = v` for a list of entries. -/
def StdMap.setAll (m : RelocMap) (es : List (Nat × List Nat)) : RelocMap :=
  es.foldl (fun m e => StdMap.set m e.1 e.2) m

/-- The address-keyed entry set of a segment: every fixup entry, then every reloc entry,
assigned in this order to an address-sorted map. -/
def Segment.relocTable (seg : Segment) (syms : Unresolved) : RelocMap :=
  StdMap.setAll []
    (seg.fixupRecords.map (fun r => (r.addr, r.payload))
      ++ seg.relocRecords.map (fun r => (r.addr, r.payload ((syms.Find r.name).getD 0))))

/-- The width condition in the spec's words: the base or the size of at least one of the
code, data, bss, zero segments exceeds `0xFFFF`, or the number of names in the symbol table
(`externs.size()`) exceeds `0xFFFF`. -/
def Object.exceeds16 (obj : Object) : Prop :=
  0xFFFF < obj.code.GetBase ∨ 0xFFFF < obj.code.GetSize
    ∨ 0xFFFF < obj.data.GetBase ∨ 0xFFFF < obj.data.GetSize
    ∨ 0xFFFF < obj.bss.GetBase ∨ 0xFFFF < obj.bss.GetSize
    ∨ 0xFFFF < obj.zero.GetBase ∨ 0xFFFF < obj.zero.GetSize
    ∨ 0xFFFF < (Object.WriteO65.externs obj).size

/-- The nine geometry values of the O65 header, in file order. -/
def Object.geometry (obj : Object) : List Nat :=
  [obj.code.GetBase, obj.code.GetSize, obj.data.GetBase, obj.data.GetSize,
   obj.bss.GetBase, obj.bss.GetSize, obj.zero.GetBase, obj.zero.GetSize, 0]

/-- The build's version string used in the scenarios. -/
def scenarioVersion : Str := ['1', '.', '0']

/-- The number that a byte sequence denotes, least significant byte first. -/
def leValue : List Nat → Nat
  | [] => 0
  | b :: rest => b + 256 * leValue rest

/-- Reading `k` little-endian integers of `width` bytes each. -/
def parseFields (width : Nat) : Nat → List Nat → List Nat
  | 0, _ => []
  | k + 1, bytes => leValue (bytes.take width) :: parseFields width k (bytes.drop width)

/-- The header parser of the claim: after the 6-byte magic, a little-endian mode word, then
nine integers of the width that the mode word's `0x2000` bit indicates. -/
def parseO65Header (out : List Nat) : Nat × List Nat :=
  let mode := leValue ((out.drop 6).take 2)
  (mode, parseFields (if mode / 0x2000 % 2 = 1 then 4 else 2) 9 (out.drop 8))

/-- The addresses of all fixup and reloc entries of a segment's RelocTable. -/
def Segment.relocAddresses (seg : Segment) : List Nat :=
  seg.fixupRecords.map (fun r => r.addr) ++ seg.relocRecords.map (fun r => r.addr)

/-- The differences of successive addresses, starting from the previous address `prev`. -/
def differences : Int → List Nat → List Int
  | _, [] => []
  | prev, a :: rest => ((a : Int) - prev) :: differences a rest

/-- One entry of a relocation stream as a decoder sees it: the address, the number of
extension bytes 255, the final delta byte and the payload. -/
structure StreamEntry where
  addr : Nat
  ext : Nat
  last : Nat
  payload : List Nat
  deriving DecidableEq, Repr

/-- The bytes of a stream entry. -/
def StreamEntry.bytes (e : StreamEntry) : List Nat :=
  List.replicate e.ext 255 ++ [e.last] ++ e.payload

/-- The decoded delta of a stream entry: each byte 255 counts 254, the final byte its value. -/
def StreamEntry.delta (e : StreamEntry) : Int := 254 * (e.ext : Int) + e.last

/-- The stream entries of an address-sorted table walked from the previous address `prev`:
for the distance `d` the extension count is `(d-1)/254` and the final byte the rest. -/
def streamEntries : Int → RelocMap → List StreamEntry
  | _, [] => []
  | prev, (a, p) :: rest =>
    ⟨a, ((a - prev - 1) / 254).toNat, (a - prev - 254 * ((a - prev - 1) / 254)).toNat, p⟩
      :: streamEntries a rest

/-- A RelocTable whose only entry is a LOBYTE fixup at address `0x7FFFFFFF`. -/
def topAddressOnly : Segment :=
  { Segment.new with R := { Relocdata.empty with R16lo := ⟨[(.CODE, 2147483647)], []⟩ } }

/-- A RelocTable with LOBYTE fixups at the addresses 0, 1000 and 1001. -/
def threeFixups : Segment :=
  { Segment.new with
    R := { Relocdata.empty with R16lo := ⟨[(.DATA, 1000), (.CODE, 0), (.BSS, 1001)], []⟩ } }

/-- A RelocTable in which a LOBYTE fixup and an unresolved LONG reloc share the address 4;
the symbol table holds the name of the reloc. -/
def sharedAddress : Segment :=
  { Segment.new with
    R := { Relocdata.empty with
      R16lo := ⟨[(.DATA, 4), (.DATA, 9)], []⟩, R24 := ⟨[], [(4, ['e', 'x', 't'])]⟩ } }

/-- The symbol table with the one name `ext`. -/
def extOnly : Unresolved := Unresolved.new.Add ['e', 'x', 't']

/-- The names of the pending externs of one kind, in list order. -/
def Segment.namesOfKind (seg : Segment) (k : RelocKind) : List Str :=
  seg.Externs.filterMap (fun e => if e.type = k then some e.ref else none)

/-- The names of the pending externs of the five absolute kinds, in the order in which
`BuildReloc` meets them after `CloseSegment`: LOBYTE, ABSWORD, LONG, HIBYTE, SEGBYTE. -/
def Segment.pendingNames (seg : Segment) : List Str :=
  seg.namesOfKind .LOBYTE ++ seg.namesOfKind .ABSWORD ++ seg.namesOfKind .LONG
    ++ seg.namesOfKind .HIBYTE ++ seg.namesOfKind .SEGBYTE

/-- The names of the pending externs of the absolute kinds of all four segments, in the
order code, data, zero, bss. -/
def Object.pendingNames (obj : Object) : List Str :=
  obj.code.pendingNames ++ obj.data.pendingNames ++ obj.zero.pendingNames
    ++ obj.bss.pendingNames

/-- An Object whose only pending record is an unresolved short-relative extern `far`. -/
def relativeExternOnly : Object :=
  (Op.run warnAll false [.AddExtern .REL8 ['f', 'a', 'r'] 0, .GenerateByte 0] Object.new).1

/-- An Object with the unresolved externs `b`, `a`, `b` (LONG, LONG, LOBYTE). -/
def threeExterns : Object :=
  (Op.run warnAll false
    [.AddExtern .LONG ['b'] 0, .AddExtern .LONG ['a'] 0, .AddExtern .LOBYTE ['b'] 0,
     .GenerateByte 0] Object.new).1

/-- The name of the `i`-th symbol of `manySymbols`: `i + 1` letters `a`. -/
def symbolName (i : Nat) : Str := List.replicate (i + 1) 'a'

/-- An Object whose code segment holds `n` unresolved LONG relocs, the `i`-th at address
`3 * i` for the symbol `symbolName i`. -/
def manySymbols (n : Nat) : Object :=
  { Object.new with
    code := { Segment.new with
      R := { Relocdata.empty with
        R24 := ⟨[], (List.range n).map (fun i => (3 * i, symbolName i))⟩ } } }

/-- The Object of scenario S3: `AddExtern(LONG, "ext", 0)` at CODE 0, three padding bytes,
`CloseSegments`. -/
def scenarioS3Object : Object :=
  (Op.run warnAll false
    [.AddExtern .LONG ['e', 'x', 't'] 0, .GenerateByte 0, .GenerateByte 0, .GenerateByte 0,
     .CloseSegments] Object.new).1

/-- An Object whose code segment holds two bytes, at `0xFFFF` and `0x10000`, and the label
`e` (scope level 0) at the second one. -/
def labelAtTop : Object :=
  (Op.run warnAll false
    [.StartScope, .SetPos 0xFFFF, .GenerateByte 1, .DefineLabel ['e'], .GenerateByte 2,
     .CloseSegments]
    Object.new).1

/-- The number of bytes that follow the type byte `t` of a relocation entry, in the spec's
wire format: a type byte with segment id 0 (the low five bits) is an unresolved reloc and
carries the 16-bit symbol index; kind `0x40` carries one extra byte and kind `0xA0` two. -/
def relocTail (t : Nat) : Nat :=
  (if t % 32 = 0 then 2 else 0) + (if t / 32 = 2 then 1 else if t / 32 = 5 then 2 else 0)

/-- A reader of a relocation stream in the spec's wire format, from the address `addr`:
a byte 0 ends the stream, a byte 255 adds 254 to the address, any other byte adds its value
and is followed by one entry. The result is the address-keyed table and the unread bytes;
`none` when the bytes run out. -/
def readReloc.go : Nat → Int → List Nat → Option (RelocMap × List Nat)
  | 0, _, _ => none
  | _ + 1, _, [] => none
  | fuel + 1, addr, b :: rest =>
    if b = 0 then some ([], rest)
    else if b = 255 then readReloc.go fuel (addr + 254) rest
    else
      match rest with
      | [] => none
      | t :: rest2 =>
        if rest2.length < relocTail t then none
        else
          (readReloc.go fuel (addr + b) (rest2.drop (relocTail t))).map fun r =>
            (((addr + b).toNat, t :: rest2.take (relocTail t)) :: r.1, r.2)

/-- A reader of a relocation stream that starts, as `PutReloc` does, from the address -1. -/
def readReloc (bytes : List Nat) : Option (RelocMap × List Nat) :=
  readReloc.go bytes.length (-1) bytes

/-- A RelocTable with one unresolved SEGBYTE reloc at address 0, extra `0x2001`. -/
def collidingReloc : Segment :=
  { Segment.new with
    R := { Relocdata.empty with R24seg := ⟨[], [((0, 0x2001), ['e', 'x', 't'])]⟩ } }

/-- A RelocTable with a SEGBYTE fixup at address 0 (extra 0) and a LOBYTE fixup at
address 1, both with the code segment as target. -/
def collidingFixups : Segment :=
  { Segment.new with
    R := { Relocdata.empty with
      R24seg := ⟨[(.CODE, (0, 0))], []⟩, R16lo := ⟨[(.CODE, 1)], []⟩ } }

/-- The number of kind-specific extra bytes of a relocation kind. -/
def RelocKind.extraBytes : RelocKind → Nat
  | .HIBYTE => 1
  | .SEGBYTE => 2
  | _ => 0

/-! ## Reset -/

/-- The function `Segment::ClearMost`: `*this = Segment()`. -/
def Segment.ClearMost (_seg : Segment) : Segment := Segment.new

/-- The function `Object::ClearMost`. -/
def Object.ClearMost (obj : Object) : Object :=
  { obj with
    CurScope := 0, CurSegment := .CODE,
    code := obj.code.ClearMost, data := obj.data.ClearMost,
    zero := obj.zero.ClearMost, bss := obj.bss.ClearMost }

/-- An Object in use: one byte and a label in the data segment, one scope open, and the
linkage wish set to group 1. -/
def linkedObject : Object :=
  { (Op.run warnAll false
      [.StartScope, .SelectSegment .DATA, .GenerateByte 7, .DefineLabel ['x']] Object.new).1 with
    Linkage := .LinkInGroup 1 }

/-- Two scopes are open, the data segment holds the label `x` at level 1 and the code segment
an ABSWORD reference to `x` recorded at level 2, just before the inner scope closes. -/
def crossSegmentReference : Object :=
  (Op.run warnAll false
    [.StartScope, .StartScope, .SelectSegment .DATA, .DefineLabel ['x'],
     .SelectSegment .CODE, .AddExtern .ABSWORD ['x'] 0, .GenerateByte 0, .GenerateByte 0]
    Object.new).1

/-- As `crossSegmentReference`, with both the label and the reference in the code segment. -/
def sameSegmentReference : Object :=
  (Op.run warnAll false
    [.StartScope, .StartScope, .DefineLabel ['x'],
     .AddExtern .ABSWORD ['x'] 0, .GenerateByte 0, .GenerateByte 0]
    Object.new).1

/-- A RelocTable whose only entry is an unresolved LONG reloc at address `0x7FFFFFFF`. -/
def topRelocOnly : Segment :=
  { Segment.new with
    R := { Relocdata.empty with R24 := ⟨[], [(2147483647, ['e', 'x', 't'])]⟩ } }

/-! ## IPS writer -/

/-- Modelled from the spec: `GetContent(addr, len)` of `dataarea.hh`, the "dense byte vector
for the window `[addr, addr+len)`". -/
def DataArea.GetContentAt (d : DataArea) (a l : Nat) : List Nat :=
  (List.range l).map (fun i => d.GetByte (a + i))

/-- The number of contiguously set bytes from the address `a` on, among at most `fuel`. -/
def DataArea.runLength (d : DataArea) : Nat → Nat → Nat
  | 0, _ => 0
  | fuel + 1, a =>
    if (StdMap.find d.bytes a).isSome then DataArea.runLength d fuel (a + 1) + 1 else 0

/-- Modelled from the spec: `FindNextBlob(from, &len)` of `dataarea.hh`, which "returns the
first address `≥ from` where a run of contiguously-set bytes begins; sets `len` to the run
length; returns `len=0` when no more runs exist". The result is `(address, len)`. -/
def DataArea.FindNextBlob (d : DataArea) (pos : Nat) : Nat × Nat :=
  match (d.bytes.map (fun e => e.1)).filter (fun a => decide (pos ≤ a)) with
  | [] => (pos, 0)
  | a :: rest =>
    let start := rest.foldl min a
    (start, u32 (d.runLength d.bytes.length start))

/-- The function `Segment::FindNextBlob`. -/
def Segment.FindNextBlob (seg : Segment) (pos : Nat) : Nat × Nat := seg.Data.FindNextBlob pos

/-- The function `Segment::GetContent(a, l)`. -/
def Segment.GetContentAt (seg : Segment) (a l : Nat) : List Nat := seg.Data.GetContentAt a l

/-- The function `PutMW`: 16-bit msb-first (the argument is an `unsigned short`). -/
def PutMW (w : Nat) : List Nat := PutC (w % 65536 / 256) ++ PutC (w % 65536 % 256)

/-- The function `PutL`: 24-bit msb-first (the argument is an `unsigned int`). -/
def PutL (w : Nat) : List Nat :=
  PutC (w % 4294967296 / 65536 % 256) ++ PutC (w % 4294967296 / 256 % 256)
    ++ PutC (w % 4294967296 % 256)

/-- Modelled from the spec: the three IPS pseudo-address constants `IPS_EOF_MARKER`,
`IPS_ADDRESS_EXTERN` and `IPS_ADDRESS_GLOBAL`, whose definitions are not in `object.cc`.
The IPS writer takes them as a parameter. -/
structure IPSAddresses where
  IPS_EOF_MARKER : Nat
  IPS_ADDRESS_EXTERN : Nat
  IPS_ADDRESS_GLOBAL : Nat
  deriving DecidableEq, Repr

/-- Modelled from the spec: the values that section 4.9 gives, "`IPS_ADDRESS_GLOBAL`
(= `0x454F46`", "`IPS_ADDRESS_EXTERN` (= `0x454F45`)", "`IPS_EOF_MARKER` (`0x454F46`)". -/
def IPSAddresses.ofSpec : IPSAddresses :=
  { IPS_EOF_MARKER := 0x454F46, IPS_ADDRESS_EXTERN := 0x454F45, IPS_ADDRESS_GLOBAL := 0x454F46 }

/-- One IPS record as `IPSwriteSeg` writes it: the arguments of `PutL` and `PutMW` and the
bytes given to `PutS`. -/
structure IPSRecord where
  address : Nat
  length : Nat
  data : List Nat
  deriving DecidableEq, Repr

/-- The bytes of one record: `PutL(address); PutMW(length); PutS(data)`. -/
def IPSRecord.bytes (r : IPSRecord) : List Nat := PutL r.address ++ PutMW r.length ++ r.data

/-- The function `BuildGlobalPatch`. -/
def BuildGlobalPatch (K : IPSAddresses) (varname : Str) (addr : Nat) : Nat × List Nat :=
  (K.IPS_ADDRESS_GLOBAL,
    strBytes varname ++ [0, addr % 256, addr / 256 % 256, addr / 65536 % 64])

/-- The function `BuildExternPatch`. -/
def BuildExternPatch (K : IPSAddresses) (addr : Nat) (varname : Str) (size : Nat) :
    Nat × List Nat :=
  (K.IPS_ADDRESS_EXTERN,
    strBytes varname ++ [0, addr % 256, addr / 256 % 256, addr / 65536 % 64, size % 256])

/-- The list `patches` of `IPSwriteSeg`: one entry per label, then one per LOBYTE, ABSWORD
and LONG reloc. -/
def IPSwriteSeg.patches (K : IPSAddresses) (seg : Segment) : List (Nat × List Nat) :=
  seg.labels.flatMap (fun i => i.2.map (fun j => BuildGlobalPatch K j.1 j.2))
    ++ seg.R.R16lo.Relocs.map (fun i => BuildExternPatch K i.1 i.2 1)
    ++ seg.R.R16.Relocs.map (fun i => BuildExternPatch K i.1 i.2 2)
    ++ seg.R.R24.Relocs.map (fun i => BuildExternPatch K i.1 i.2 3)

/-- The first part of `IPSwriteSeg`, up to the loop that writes `patches`: the records
written and the two errors about the kinds that IPS does not support. -/
def IPSwriteSeg.symbols (K : IPSAddresses) (seg : Segment) : List IPSRecord × List Diag :=
  ((IPSwriteSeg.patches K seg).map (fun i => ⟨i.1, i.2.length, i.2⟩),
    (if seg.R.R16hi.Relocs ≠ [] then [Diag.ipsHiByteExterns] else [])
      ++ (if seg.R.R24seg.Relocs ≠ [] then [Diag.ipsSegmentExterns] else []))

/-- One pass of the chunk loop of `IPSwriteSeg`: the values of `addr` and `count`, the error
written by the `if` chain, and the record written. -/
structure IPSChunk where
  addr : Nat
  count : Nat
  errors : List Diag
  record : IPSRecord
  deriving DecidableEq, Repr

/-- The `if` chain of the chunk loop of `IPSwriteSeg`: the error written for `addr`. -/
def IPSwriteSeg.check (K : IPSAddresses) (addr : Nat) : List Diag :=
  if addr = K.IPS_EOF_MARKER then [Diag.ipsNotAllowed addr]
  else if addr = K.IPS_ADDRESS_EXTERN then [Diag.ipsReservedExtern addr]
  else if addr = K.IPS_ADDRESS_GLOBAL then [Diag.ipsReservedGlobal addr]
  else if addr > 0xFFFFFF then [Diag.ipsTooBig addr]
  else []

/-- One pass of the chunk loop of `IPSwriteSeg` for the values `addr` and `count`: the `if`
chain, then `PutL(addr & 0x3FFFFF)`, `PutMW(count)` and `PutS` of `GetContent(addr, count)`. -/
def IPSwriteSeg.pass (K : IPSAddresses) (seg : Segment) (addr count : Nat) : IPSChunk :=
  ⟨addr, count, IPSwriteSeg.check K addr,
    ⟨addr % 4194304, count, seg.GetContentAt addr count⟩⟩

/-- The chunk loop of `IPSwriteSeg`, `for(unsigned left = size; left > 0; )`: the passes made
and the value of `addr` after the loop. Every pass takes at least one byte off `left`, so
`left` passes are enough fuel. -/
def IPSwriteSeg.chunks (K : IPSAddresses) (seg : Segment) : Nat → Nat → Nat → List IPSChunk × Nat
  | 0, addr, _ => ([], addr)
  | fuel + 1, addr, left =>
    if left > 0 then
      let count := if 20000 > left then left else 20000
      let r := IPSwriteSeg.chunks K seg fuel (u32 (addr + count)) (left - count)
      (IPSwriteSeg.pass K seg addr count :: r.1, r.2)
    else ([], addr)

/-- The blob loop of `IPSwriteSeg`, `for(;;)`, run for at most `fuel` blobs: the passes of
the chunk loops so far, and whether `FindNextBlob` has reported the size 0, which ends the
loop. -/
def IPSwriteSeg.blobs (K : IPSAddresses) (seg : Segment) : Nat → Nat → List IPSChunk × Bool
  | 0, _ => ([], false)
  | fuel + 1, addr =>
    let b := seg.FindNextBlob addr
    if b.2 = 0 then ([], true)
    else
      let c := IPSwriteSeg.chunks K seg b.2 b.1 b.2
      let r := IPSwriteSeg.blobs K seg fuel c.2
      (c.1 ++ r.1, r.2)

/-- The payload part of `IPSwriteSeg`: the blob loop from address 0, or `none` if it does
not end. Every pass with a blob moves `addr` past at least one stored byte, so one pass per
stored byte and one more are enough fuel. -/
def IPSwriteSeg.payload (K : IPSAddresses) (seg : Segment) : Option (List IPSChunk) :=
  let r := IPSwriteSeg.blobs K seg (seg.Data.bytes.length + 1) 0
  if r.2 then some r.1 else none

/-- The function `IPSwriteSeg`: the records written to `fp` and the lines written to
`stderr`. -/
def IPSwriteSeg (K : IPSAddresses) (seg : Segment) : Option (List IPSRecord × List Diag) :=
  (IPSwriteSeg.payload K seg).map fun cs =>
    ((IPSwriteSeg.symbols K seg).1 ++ cs.map (fun c => c.record),
      (IPSwriteSeg.symbols K seg).2 ++ cs.flatMap (fun c => c.errors))

/-- The function `Object::WriteIPS`: the bytes written to `fp` and the lines written to
`stderr`. -/
def Object.WriteIPS (K : IPSAddresses) (obj : Object) : Option (List Nat × List Diag) :=
  let warn := if obj.Linkage ≠ .LinkAnywhere then [Diag.ipsLinkIgnored] else []
  (IPSwriteSeg K obj.code).bind fun c =>
  (IPSwriteSeg K obj.data).bind fun d =>
  (IPSwriteSeg K obj.bss).bind fun b =>
  (IPSwriteSeg K obj.zero).map fun z =>
    ([0x50, 0x41, 0x54, 0x43, 0x48]
      ++ c.1.flatMap IPSRecord.bytes ++ d.1.flatMap IPSRecord.bytes
      ++ b.1.flatMap IPSRecord.bytes ++ z.1.flatMap IPSRecord.bytes
      ++ [0x45, 0x4F, 0x46],
      warn ++ c.2 ++ d.2 ++ b.2 ++ z.2)

/-- The Object of scenario S5: byte `0x42` at address `0x100`, byte `0x43` at `0x200`. -/
def scenarioS5Object : Object :=
  (Op.run warnAll false
    [.SetPos 0x100, .GenerateByte 0x42, .SetPos 0x200, .GenerateByte 0x43] Object.new).1

/-- The number that a byte sequence denotes, most significant byte first. -/
def beValue (bs : List Nat) : Nat := bs.foldl (fun v b => 256 * v + b) 0

/-- A segment whose only byte lies at the address `0x1000000`. -/
def farByte : Segment := Segment.new.SetByte 0x1000000 0x99

/-- A segment with one byte at the address that section 4.9 gives for `IPS_EOF_MARKER`. -/
def markerByte : Segment := Segment.new.SetByte 0x454F46 0x99

/-- The record of a label in the spec's words: pseudo-address `IPS_ADDRESS_GLOBAL`, length
`|name| + 4`, then `name \0 addr_lo addr_mid (addr_hi & 0x3F)`. -/
def IPSwriteSeg.labelRecord (K : IPSAddresses) (j : Str × Nat) : IPSRecord :=
  ⟨K.IPS_ADDRESS_GLOBAL, j.1.length + 4,
    strBytes j.1 ++ [0, j.2 % 256, j.2 / 256 % 256, j.2 / 65536 % 64]⟩

/-- The record of an unresolved reloc in the spec's words: pseudo-address
`IPS_ADDRESS_EXTERN`, length `|name| + 5`, then
`name \0 addr_lo addr_mid (addr_hi & 0x3F) size`. -/
def IPSwriteSeg.externRecord (K : IPSAddresses) (size : Nat) (i : Nat × Str) : IPSRecord :=
  ⟨K.IPS_ADDRESS_EXTERN, i.2.length + 5,
    strBytes i.2 ++ [0, i.1 % 256, i.1 / 256 % 256, i.1 / 65536 % 64, size]⟩

/-- An Object with the global label `e` at CODE 1, an unresolved LONG reference to `ext` at
CODE 1 and an unresolved HIBYTE reference to `hi` at CODE 4, after `CloseSegments`. -/
def ipsSymbolsObject : Object :=
  (Op.run warnAll false
    [.GenerateByte 1, .DefineLabel ['+', 'e'], .AddExtern .LONG ['e', 'x', 't'] 0,
     .GenerateByte 0, .GenerateByte 0, .GenerateByte 0,
     .AddExtern .HIBYTE ['h', 'i'] 0, .GenerateByte 0, .CloseSegments] Object.new).1

/-- A name of `n` letters `a`. -/
def longName (n : Nat) : Str := List.replicate n 'a'

/-- A segment whose only content is a label, at level 0 and address 0, with a name of `n`
characters. -/
def longLabel (n : Nat) : Segment :=
  { Segment.new with labels := [(0, [(longName n, 0)])] }

theorem StdMap.find_set_self {κ ν : Type} [DecidableEq κ] [LT κ]
    [DecidableRel (fun (a b : κ) => a < b)] (m : List (κ × ν)) (k : κ) (v : ν) :
    StdMap.find (StdMap.set m k v) k = some v := by
  induction m with
  | nil => simp [StdMap.set, StdMap.find]
  | cons hd tl ih =>
    obtain ⟨k', v'⟩ := hd
    by_cases h1 : k = k'
    · simp [StdMap.set, StdMap.find, h1]
    · by_cases h2 : k < k'
      · simp [StdMap.set, StdMap.find, h1, h2]
      · simp [StdMap.set, StdMap.find, h1, h2, ih]

theorem StdMap.find_set_ne {κ ν : Type} [DecidableEq κ] [LT κ]
    [DecidableRel (fun (a b : κ) => a < b)] (m : List (κ × ν)) (k j : κ) (v : ν) (h : j ≠ k) :
    StdMap.find (StdMap.set m k v) j = StdMap.find m j := by
  induction m with
  | nil => simp [StdMap.set, StdMap.find, h]
  | cons hd tl ih =>
    obtain ⟨k', v'⟩ := hd
    by_cases h1 : k = k'
    · subst h1
      simp [StdMap.set, StdMap.find, h]
    · by_cases h2 : k < k'
      · simp [StdMap.set, StdMap.find, h1, h2, h]
      · simp [StdMap.set, StdMap.find, h1, h2, ih]

theorem StdMap.find_erase_self {κ ν : Type} [DecidableEq κ] (m : List (κ × ν)) (k : κ) :
    StdMap.find (StdMap.erase m k) k = none := by
  induction m with
  | nil => simp [StdMap.erase, StdMap.find]
  | cons hd tl ih =>
    obtain ⟨k', v'⟩ := hd
    by_cases h1 : k = k'
    · simp [StdMap.erase, h1] at ih ⊢
      exact ih
    · simp [StdMap.erase, StdMap.find, h1, ih]

theorem StdMap.find_erase_ne {κ ν : Type} [DecidableEq κ] (m : List (κ × ν)) (k j : κ)
    (h : j ≠ k) : StdMap.find (StdMap.erase m k) j = StdMap.find m j := by
  induction m with
  | nil => simp [StdMap.erase, StdMap.find]
  | cons hd tl ih =>
    obtain ⟨k', v'⟩ := hd
    by_cases h1 : k = k'
    · subst h1
      simp [StdMap.erase, StdMap.find, h, ih]
    · simp [StdMap.erase, StdMap.find, h1, ih]

/-! ## The resolver -/

theorem Object.FindLabelAt_eq_none_iff (obj : Object) (name : Str) (L : Nat) :
    obj.FindLabelAt name L = none ↔ ∀ s, (obj.seg s).FindLabelAt name L = none := by
  constructor
  · intro h s
    unfold Object.FindLabelAt at h
    cases hc : obj.code.FindLabelAt name L <;> simp only [hc] at h
    · cases hd : obj.data.FindLabelAt name L <;> simp only [hd] at h
      · cases hz : obj.zero.FindLabelAt name L <;> simp only [hz] at h
        · cases hb : obj.bss.FindLabelAt name L <;> simp only [hb] at h
          · cases s <;> simp only [Object.seg] <;> assumption
          · exact absurd h (by simp)
        · exact absurd h (by simp)
      · exact absurd h (by simp)
    · exact absurd h (by simp)
  · intro h
    have hc := h .CODE
    have hd := h .DATA
    have hz := h .ZERO
    have hb := h .BSS
    simp only [Object.seg] at hc hd hz hb
    simp [Object.FindLabelAt, hc, hd, hz, hb]

theorem Object.FindLabelAt_eq_some (obj : Object) (name : Str) (L : Nat)
    (ts : SegmentSelection) (off : Nat) (h : obj.FindLabelAt name L = some (ts, off)) :
    (obj.seg ts).FindLabelAt name L = some off ∧
      ∀ s, GetSegmentID s < GetSegmentID ts → (obj.seg s).FindLabelAt name L = none := by
  unfold Object.FindLabelAt at h
  split at h
  · rename_i r hr
    simp at h
    obtain ⟨rfl, rfl⟩ := h
    refine ⟨hr, ?_⟩
    intro s hs
    cases s <;> simp [GetSegmentID] at hs
  · rename_i hc
    split at h
    · rename_i r hr
      simp at h
      obtain ⟨rfl, rfl⟩ := h
      refine ⟨hr, ?_⟩
      intro s hs
      cases s <;> simp [GetSegmentID] at hs
      exact hc
    · rename_i hd
      split at h
      · rename_i r hr
        simp at h
        obtain ⟨rfl, rfl⟩ := h
        refine ⟨hr, ?_⟩
        intro s hs
        cases s <;> simp [GetSegmentID] at hs
        · exact hc
        · exact hd
      · rename_i hz
        split at h
        · rename_i r hr
          simp at h
          obtain ⟨rfl, rfl⟩ := h
          refine ⟨hr, ?_⟩
          intro s hs
          cases s <;> simp [GetSegmentID] at hs
          · exact hc
          · exact hd
          · exact hz
        · simp at h

theorem Segment.CheckExterns.scan_eq_none_iff (obj : Object) (ref : Str) (n : Nat) :
    Segment.CheckExterns.scan obj ref n = none ↔ ∀ L, L < n → obj.FindLabelAt ref L = none := by
  induction n with
  | zero => simp [Segment.CheckExterns.scan]
  | succ n ih =>
    unfold Segment.CheckExterns.scan
    cases hf : obj.FindLabelAt ref n with
    | some r =>
      simp only [false_iff, reduceCtorEq]
      intro h
      have := h n (Nat.lt_succ_self n)
      simp [hf] at this
    | none =>
      simp only [ih]
      constructor
      · intro h L hL
        rcases Nat.lt_succ_iff_lt_or_eq.mp hL with h1 | h1
        · exact h L h1
        · subst h1; exact hf
      · intro h L hL
        exact h L (Nat.lt_succ_of_lt hL)

theorem Segment.CheckExterns.scan_eq_some (obj : Object) (ref : Str) (n : Nat)
    (r : SegmentSelection × Nat) (h : Segment.CheckExterns.scan obj ref n = some r) :
    ∃ L, L < n ∧ obj.FindLabelAt ref L = some r ∧
      ∀ L', L < L' → L' < n → obj.FindLabelAt ref L' = none := by
  induction n with
  | zero => simp [Segment.CheckExterns.scan] at h
  | succ n ih =>
    unfold Segment.CheckExterns.scan at h
    cases hf : obj.FindLabelAt ref n with
    | some r' =>
      simp [hf] at h
      subst h
      exact ⟨n, Nat.lt_succ_self n, hf, fun L' h1 h2 => absurd h2 (by omega)⟩
    | none =>
      simp [hf] at h
      obtain ⟨L, hL, hfound, hnone⟩ := ih h
      refine ⟨L, Nat.lt_succ_of_lt hL, hfound, ?_⟩
      intro L' h1 h2
      rcases Nat.lt_succ_iff_lt_or_eq.mp h2 with h3 | h3
      · exact hnone L' h1 h3
      · subst h3; exact hf

theorem Segment.CheckExterns.target_eq_none_iff (CurScope : Nat) (obj : Object) (e : Extern) :
    Segment.CheckExterns.target CurScope obj e = none ↔
      (e.level < CurScope ∨
        ∀ s L, L < CurScope → (obj.seg s).FindLabelAt e.ref L = none) := by
  unfold Segment.CheckExterns.target
  by_cases hl : e.level < CurScope
  · simp [hl]
  · simp only [hl, if_false, false_or, Segment.CheckExterns.scan_eq_none_iff,
      Object.FindLabelAt_eq_none_iff]
    constructor
    · intro h s L hL
      exact h L hL s
    · intro h L hL s
      exact h s L hL

theorem Segment.CheckExterns.target_eq_some (CurScope : Nat) (obj : Object) (e : Extern)
    (ts : SegmentSelection) (off : Nat)
    (h : Segment.CheckExterns.target CurScope obj e = some (ts, off)) :
    CurScope ≤ e.level ∧ ∃ L, L < CurScope ∧ (obj.seg ts).FindLabelAt e.ref L = some off ∧
      (∀ s, GetSegmentID s < GetSegmentID ts → (obj.seg s).FindLabelAt e.ref L = none) ∧
      (∀ s L', L < L' → L' < CurScope → (obj.seg s).FindLabelAt e.ref L' = none) := by
  unfold Segment.CheckExterns.target at h
  by_cases hl : e.level < CurScope
  · simp [hl] at h
  · simp only [hl, if_false] at h
    obtain ⟨L, hL, hfound, hnone⟩ := Segment.CheckExterns.scan_eq_some obj e.ref CurScope _ h
    obtain ⟨h1, h2⟩ := Object.FindLabelAt_eq_some obj e.ref L ts off hfound
    refine ⟨Nat.le_of_not_lt hl, L, hL, h1, h2, ?_⟩
    intro s L' h3 h4
    exact (Object.FindLabelAt_eq_none_iff obj e.ref L').mp (hnone L' h3 h4) s

theorem Segment.CheckExterns.loop_fst (CurScope : Nat) (obj : Object) (es : List Extern)
    (seg : Segment) :
    (Segment.CheckExterns.loop CurScope obj es seg).1 =
      es.filter (fun e => (Segment.CheckExterns.target CurScope obj e).isNone) := by
  induction es generalizing seg with
  | nil => simp [Segment.CheckExterns.loop]
  | cons e rest ih =>
    unfold Segment.CheckExterns.loop
    by_cases hl : e.level < CurScope
    · simp [hl, ih, Segment.CheckExterns.target]
    · cases hs : Segment.CheckExterns.scan obj e.ref CurScope with
      | none => simp [hl, hs, ih, Segment.CheckExterns.target]
      | some t =>
        obtain ⟨a, b⟩ := t
        simp [hl, hs, ih, Segment.CheckExterns.target]

theorem Segment.CheckExterns.loop_Fixups (CurScope : Nat) (obj : Object) (es : List Extern)
    (seg : Segment) :
    (Segment.CheckExterns.loop CurScope obj es seg).2.Fixups =
      seg.Fixups ++ es.filterMap (fun e =>
        (Segment.CheckExterns.target CurScope obj e).map (Fixup.ofExtern e)) := by
  induction es generalizing seg with
  | nil => simp [Segment.CheckExterns.loop]
  | cons e rest ih =>
    unfold Segment.CheckExterns.loop
    by_cases hl : e.level < CurScope
    · simp [hl, ih, Segment.CheckExterns.target]
    · cases hs : Segment.CheckExterns.scan obj e.ref CurScope with
      | none => simp [hl, hs, ih, Segment.CheckExterns.target]
      | some t =>
        obtain ⟨a, b⟩ := t
        simp [hl, hs, ih, Segment.CheckExterns.target, Segment.MarkLabelUsed, Fixup.ofExtern]

theorem Segment.CheckExterns.loop_frame (CurScope : Nat) (obj : Object) (es : List Extern)
    (seg : Segment) :
    (Segment.CheckExterns.loop CurScope obj es seg).2.labels = seg.labels ∧
    (Segment.CheckExterns.loop CurScope obj es seg).2.Data = seg.Data ∧
    (Segment.CheckExterns.loop CurScope obj es seg).2.Position = seg.Position ∧
    (Segment.CheckExterns.loop CurScope obj es seg).2.R = seg.R := by
  induction es generalizing seg with
  | nil => simp [Segment.CheckExterns.loop]
  | cons e rest ih =>
    unfold Segment.CheckExterns.loop
    by_cases hl : e.level < CurScope
    · simp [hl, ih]
    · cases hs : Segment.CheckExterns.scan obj e.ref CurScope with
      | none => simp [hl, hs, ih]
      | some t =>
        obtain ⟨a, b⟩ := t
        simp [hl, hs, ih, Segment.MarkLabelUsed]

theorem Segment.CheckExterns_Externs (seg : Segment) (CurScope : Nat) (obj : Object) :
    (seg.CheckExterns CurScope obj).Externs =
      seg.Externs.filter (fun e => (Segment.CheckExterns.target CurScope obj e).isNone) := by
  simp [Segment.CheckExterns, Segment.CheckExterns.loop_fst]

theorem Segment.CheckExterns_Fixups (seg : Segment) (CurScope : Nat) (obj : Object) :
    (seg.CheckExterns CurScope obj).Fixups =
      seg.Fixups ++ seg.Externs.filterMap (fun e =>
        (Segment.CheckExterns.target CurScope obj e).map (Fixup.ofExtern e)) := by
  simp [Segment.CheckExterns, Segment.CheckExterns.loop_Fixups]

theorem Segment.CheckExterns_labels (seg : Segment) (CurScope : Nat) (obj : Object) :
    (seg.CheckExterns CurScope obj).labels = seg.labels := by
  simp [Segment.CheckExterns, (Segment.CheckExterns.loop_frame CurScope obj seg.Externs seg).1]

/-- C1. `CheckExterns(cur_scope, obj)` partitions the extern list by a binding `target`:
an extern has no target exactly when its level is below `CurScope` or no segment of `obj`
holds a label of its name at a level below `CurScope`; a target `(ts, off)` is the label of
that name at the greatest level `L < CurScope` holding one, in the first segment (in the
order CODE, DATA, ZERO, BSS) that holds it at `L`; the externs without target stay in the
extern list, and each extern with a target becomes a fixup with that target. -/
theorem Segment.CheckExterns_binds (seg : Segment) (CurScope : Nat) (obj : Object) :
    ∃ target : Extern → Option (SegmentSelection × Nat),
      (∀ e, target e = none ↔
        (e.level < CurScope ∨
          ∀ s L, L < CurScope → (obj.seg s).FindLabelAt e.ref L = none)) ∧
      (∀ e ts off, target e = some (ts, off) →
        ∃ L, L < CurScope ∧ (obj.seg ts).FindLabelAt e.ref L = some off ∧
          (∀ s, GetSegmentID s < GetSegmentID ts → (obj.seg s).FindLabelAt e.ref L = none) ∧
          (∀ s L', L < L' → L' < CurScope → (obj.seg s).FindLabelAt e.ref L' = none)) ∧
      (seg.CheckExterns CurScope obj).Externs =
        seg.Externs.filter (fun e => (target e).isNone) ∧
      (seg.CheckExterns CurScope obj).Fixups =
        seg.Fixups ++ seg.Externs.filterMap (fun e =>
          (target e).map (fun t => (⟨e.pos, e.type, e.value, t.1, t.2⟩ : Fixup))) := by
  refine ⟨Segment.CheckExterns.target CurScope obj, ?_, ?_, ?_, ?_⟩
  · intro e
    exact Segment.CheckExterns.target_eq_none_iff CurScope obj e
  · intro e ts off h
    exact (Segment.CheckExterns.target_eq_some CurScope obj e ts off h).2
  · exact Segment.CheckExterns_Externs seg CurScope obj
  · exact Segment.CheckExterns_Fixups seg CurScope obj

theorem Object.FindLabelAt_congr (o1 o2 : Object) (name : Str) (L : Nat)
    (hc : o1.code.labels = o2.code.labels) (hd : o1.data.labels = o2.data.labels)
    (hz : o1.zero.labels = o2.zero.labels) (hb : o1.bss.labels = o2.bss.labels) :
    o1.FindLabelAt name L = o2.FindLabelAt name L := by
  simp [Object.FindLabelAt, Segment.FindLabelAt, hc, hd, hz, hb]

theorem Segment.CheckExterns.scan_congr (o1 o2 : Object) (ref : Str) (n : Nat)
    (hc : o1.code.labels = o2.code.labels) (hd : o1.data.labels = o2.data.labels)
    (hz : o1.zero.labels = o2.zero.labels) (hb : o1.bss.labels = o2.bss.labels) :
    Segment.CheckExterns.scan o1 ref n = Segment.CheckExterns.scan o2 ref n := by
  induction n with
  | zero => simp [Segment.CheckExterns.scan]
  | succ n ih =>
    simp [Segment.CheckExterns.scan, ih, Object.FindLabelAt_congr o1 o2 ref n hc hd hz hb]

theorem Segment.CheckExterns.target_congr (CurScope : Nat) (o1 o2 : Object)
    (hc : o1.code.labels = o2.code.labels) (hd : o1.data.labels = o2.data.labels)
    (hz : o1.zero.labels = o2.zero.labels) (hb : o1.bss.labels = o2.bss.labels) :
    Segment.CheckExterns.target CurScope o1 = Segment.CheckExterns.target CurScope o2 := by
  funext e
  simp [Segment.CheckExterns.target, Segment.CheckExterns.scan_congr o1 o2 e.ref CurScope hc hd hz hb]

theorem Segment.ClearLabels_Externs (MayWarn : String → Bool) (seg : Segment) (level : Nat) :
    (seg.ClearLabels MayWarn level).1.Externs = seg.Externs ∧
    (seg.ClearLabels MayWarn level).1.Fixups = seg.Fixups := by
  simp [Segment.ClearLabels]

theorem Object.EndScope_Externs (MayWarn : String → Bool) (obj : Object)
    (sel : SegmentSelection) :
    ((obj.EndScope MayWarn).1.seg sel).Externs =
      (obj.seg sel).Externs.filter
        (fun e => (Segment.CheckExterns.target obj.CurScope obj e).isNone) := by
  have t1 := Segment.CheckExterns.target_congr obj.CurScope
    { obj with code := obj.code.CheckExterns obj.CurScope obj } obj
    (Segment.CheckExterns_labels _ _ _) rfl rfl rfl
  have t2 := Segment.CheckExterns.target_congr obj.CurScope
    { obj with code := obj.code.CheckExterns obj.CurScope obj,
               data := obj.data.CheckExterns obj.CurScope
                 { obj with code := obj.code.CheckExterns obj.CurScope obj } } obj
    (Segment.CheckExterns_labels _ _ _) (Segment.CheckExterns_labels _ _ _) rfl rfl
  have t3 := Segment.CheckExterns.target_congr obj.CurScope
    { obj with code := obj.code.CheckExterns obj.CurScope obj,
               data := obj.data.CheckExterns obj.CurScope
                 { obj with code := obj.code.CheckExterns obj.CurScope obj },
               zero := obj.zero.CheckExterns obj.CurScope
                 { obj with code := obj.code.CheckExterns obj.CurScope obj,
                            data := obj.data.CheckExterns obj.CurScope
                              { obj with code := obj.code.CheckExterns obj.CurScope obj } } } obj
    (Segment.CheckExterns_labels _ _ _) (Segment.CheckExterns_labels _ _ _)
    (Segment.CheckExterns_labels _ _ _) rfl
  unfold Object.EndScope
  by_cases h0 : obj.CurScope > 0 <;> by_cases h1 : obj.CurScope > 1 <;>
    cases sel <;>
    simp [h0, h1, Object.seg, Segment.ClearLabels_Externs, Segment.CheckExterns_Externs, t1, t2, t3]

theorem Object.EndScope_Fixups (MayWarn : String → Bool) (obj : Object)
    (sel : SegmentSelection) :
    ((obj.EndScope MayWarn).1.seg sel).Fixups =
      (obj.seg sel).Fixups ++ (obj.seg sel).Externs.filterMap (fun e =>
        (Segment.CheckExterns.target obj.CurScope obj e).map (Fixup.ofExtern e)) := by
  have t1 := Segment.CheckExterns.target_congr obj.CurScope
    { obj with code := obj.code.CheckExterns obj.CurScope obj } obj
    (Segment.CheckExterns_labels _ _ _) rfl rfl rfl
  have t2 := Segment.CheckExterns.target_congr obj.CurScope
    { obj with code := obj.code.CheckExterns obj.CurScope obj,
               data := obj.data.CheckExterns obj.CurScope
                 { obj with code := obj.code.CheckExterns obj.CurScope obj } } obj
    (Segment.CheckExterns_labels _ _ _) (Segment.CheckExterns_labels _ _ _) rfl rfl
  have t3 := Segment.CheckExterns.target_congr obj.CurScope
    { obj with code := obj.code.CheckExterns obj.CurScope obj,
               data := obj.data.CheckExterns obj.CurScope
                 { obj with code := obj.code.CheckExterns obj.CurScope obj },
               zero := obj.zero.CheckExterns obj.CurScope
                 { obj with code := obj.code.CheckExterns obj.CurScope obj,
                            data := obj.data.CheckExterns obj.CurScope
                              { obj with code := obj.code.CheckExterns obj.CurScope obj } } } obj
    (Segment.CheckExterns_labels _ _ _) (Segment.CheckExterns_labels _ _ _)
    (Segment.CheckExterns_labels _ _ _) rfl
  unfold Object.EndScope
  by_cases h0 : obj.CurScope > 0 <;> by_cases h1 : obj.CurScope > 1 <;>
    cases sel <;>
    simp [h0, h1, Object.seg, Segment.ClearLabels_Externs, Segment.CheckExterns_Fixups, t1, t2, t3]

/-- C2 (as amended). Resolver soundness of `EndScope`: if a label named `S` exists in some
segment at a level strictly below `CurScope`, then every pending extern named `S` whose
recorded level is at least `CurScope` is, after `EndScope`, no longer in its segment's extern
list, and that segment has a fixup with the extern's patch address, kind and added value
whose target is the definition of `S` at the greatest level below `CurScope`, in the first
segment (CODE, DATA, ZERO, BSS) holding it at that level. -/
theorem Object.EndScope_resolves (MayWarn : String → Bool) (obj : Object) (S : Str)
    (sel : SegmentSelection) (e : Extern)
    (hvis : ∃ s L v, L < obj.CurScope ∧ (obj.seg s).FindLabelAt S L = some v)
    (he : e ∈ (obj.seg sel).Externs) (hname : e.ref = S) (hlevel : obj.CurScope ≤ e.level) :
    e ∉ ((obj.EndScope MayWarn).1.seg sel).Externs ∧
    ∃ f, f ∈ ((obj.EndScope MayWarn).1.seg sel).Fixups ∧
      f.pos = e.pos ∧ f.type = e.type ∧ f.value = e.value ∧
      ∃ L, L < obj.CurScope ∧ (obj.seg f.targetseg).FindLabelAt S L = some f.targetoffset ∧
        (∀ s, GetSegmentID s < GetSegmentID f.targetseg →
          (obj.seg s).FindLabelAt S L = none) ∧
        (∀ s L', L < L' → L' < obj.CurScope → (obj.seg s).FindLabelAt S L' = none) := by
  subst hname
  cases ht : Segment.CheckExterns.target obj.CurScope obj e with
  | none =>
    rcases (Segment.CheckExterns.target_eq_none_iff obj.CurScope obj e).mp ht with h | h
    · exact absurd hlevel (Nat.not_le_of_lt h)
    · obtain ⟨s, L, v, hL, hv⟩ := hvis
      rw [h s L hL] at hv
      exact absurd hv (by simp)
  | some t =>
    obtain ⟨ts, off⟩ := t
    constructor
    · rw [Object.EndScope_Externs]
      simp [ht]
    · refine ⟨Fixup.ofExtern e (ts, off), ?_, rfl, rfl, rfl, ?_⟩
      · rw [Object.EndScope_Fixups]
        apply List.mem_append_right
        rw [List.mem_filterMap]
        exact ⟨e, he, by simp [ht]⟩
      · exact (Segment.CheckExterns.target_eq_some obj.CurScope obj e ts off ht).2

/-- C2, witness: scenario S2 at the moment its scope closes. -/
theorem Object.EndScope_resolves_witness :
    (⟨0, .ABSWORD, 0, ['L'], 1⟩ : Extern) ∉
        ((scenarioS2Open.EndScope warnAll).1.seg .CODE).Externs ∧
    ∃ f, f ∈ ((scenarioS2Open.EndScope warnAll).1.seg .CODE).Fixups ∧
      f.pos = 0 ∧ f.type = .ABSWORD ∧ f.value = 0 ∧
      ∃ L, L < scenarioS2Open.CurScope ∧
        (scenarioS2Open.seg f.targetseg).FindLabelAt ['L'] L = some f.targetoffset ∧
        (∀ s, GetSegmentID s < GetSegmentID f.targetseg →
          (scenarioS2Open.seg s).FindLabelAt ['L'] L = none) ∧
        (∀ s L', L < L' → L' < scenarioS2Open.CurScope →
          (scenarioS2Open.seg s).FindLabelAt ['L'] L' = none) :=
  Object.EndScope_resolves warnAll scenarioS2Open ['L'] .CODE ⟨0, .ABSWORD, 0, ['L'], 1⟩
    ⟨.CODE, 0, 5, by decide, by decide⟩ (by decide) rfl (by decide)

/-- C2, counterexample: with `L` defined at level 0 and a reference to `L` recorded at
level 1, the `EndScope` that closes an inner scope (`CurScope = 2`) leaves the reference in
the extern list and makes no fixup, although `L` is visible at a level below `CurScope`. -/
theorem Object.EndScope_keeps_outer_extern :
    outerExternOpen.CurScope = 2 ∧
    (outerExternOpen.seg .CODE).FindLabelAt ['L'] 0 = some 0 ∧
    (⟨0, .ABSWORD, 0, ['L'], 1⟩ : Extern) ∈ (outerExternOpen.seg .CODE).Externs ∧
    (⟨0, .ABSWORD, 0, ['L'], 1⟩ : Extern) ∈
      ((outerExternOpen.EndScope warnAll).1.seg .CODE).Externs ∧
    ((outerExternOpen.EndScope warnAll).1.seg .CODE).Fixups = [] := by
  decide

/-! ## Segment close -/

theorem Segment.GetByte_SetByte (seg : Segment) (a b x : Nat) :
    (seg.SetByte a b).GetByte x = if x = a then b else seg.GetByte x := by
  by_cases h : x = a
  · subst h
    simp [Segment.GetByte, Segment.SetByte, DataArea.GetByte, DataArea.WriteByte,
      StdMap.find_set_self]
  · simp [Segment.GetByte, Segment.SetByte, DataArea.GetByte, DataArea.WriteByte,
      StdMap.find_set_ne _ _ _ _ h, h]

theorem Segment.GetByte_R (seg : Segment) (r : Relocdata) (x : Nat) :
    Segment.GetByte { seg with R := r } x = seg.GetByte x := rfl

theorem wrapLong_mod_256 (x : Int) : wrapLong x % 256 = x % 256 := by
  unfold wrapLong; omega

theorem wrapLong_div_256_mod (x : Int) : wrapLong x / 256 % 256 = x / 256 % 256 := by
  unfold wrapLong; omega

theorem wrapLong_div_65536_mod (x : Int) : wrapLong x / 65536 % 256 = x / 65536 % 256 := by
  unfold wrapLong; omega

theorem wrapLong_mod_65536 (x : Int) : wrapLong x % 65536 = x % 65536 := by
  unfold wrapLong; omega

theorem u32_succ_ne (a : Nat) : u32 ((a : Int) + 1) ≠ a := by
  unfold u32; omega

theorem u32_succ2_ne (a : Nat) : u32 ((a : Int) + 2) ≠ a := by
  unfold u32; omega

theorem u32_succ_ne_succ2 (a : Nat) : u32 ((a : Int) + 1) ≠ u32 ((a : Int) + 2) := by
  unfold u32; omega

theorem Segment.CloseSegment.fixup_GetByte_frame (ar : Bool) (seg : Segment) (f : Fixup)
    (x : Nat) (h : x ∉ f.patched) :
    (Segment.CloseSegment.onFixup ar seg f).1.GetByte x = seg.GetByte x := by
  unfold Fixup.patched at h
  unfold Segment.CloseSegment.onFixup
  cases hk : f.type <;> simp only [hk] at h <;> simp at h <;>
    simp [Segment.GetByte_SetByte, Segment.GetByte_R, h]

theorem Segment.CloseSegment.fixups_GetByte_frame (ar : Bool) (fs : List Fixup)
    (seg : Segment) (x : Nat) (h : ∀ g ∈ fs, x ∉ g.patched) :
    (Segment.CloseSegment.fixups ar fs seg).1.GetByte x = seg.GetByte x := by
  induction fs generalizing seg with
  | nil => simp [Segment.CloseSegment.fixups]
  | cons g rest ih =>
    simp only [Segment.CloseSegment.fixups]
    rw [ih _ (fun g' hg' => h g' (List.mem_cons_of_mem _ hg'))]
    exact Segment.CloseSegment.fixup_GetByte_frame ar seg g x (h g (List.mem_cons_self _ _))

theorem Segment.CloseSegment.fixups_append (ar : Bool) (pre post : List Fixup) (seg : Segment) :
    (Segment.CloseSegment.fixups ar (pre ++ post) seg).1 =
      (Segment.CloseSegment.fixups ar post (Segment.CloseSegment.fixups ar pre seg).1).1 := by
  induction pre generalizing seg with
  | nil => simp [Segment.CloseSegment.fixups]
  | cons g rest ih => simp [Segment.CloseSegment.fixups, ih]

theorem Segment.CloseSegment_after (ar : Bool) (seg : Segment) (pre post : List Fixup)
    (f : Fixup) (hf : seg.Fixups = pre ++ f :: post) (x : Nat)
    (hpost : ∀ g ∈ post, x ∉ g.patched) :
    (seg.CloseSegment ar).1.GetByte x =
      (Segment.CloseSegment.onFixup ar (Segment.CloseSegment.fixups ar pre
        (Segment.CloseSegment.externs seg.Externs seg).1).1 f).1.GetByte x := by
  simp only [Segment.CloseSegment, hf, Segment.CloseSegment.fixups_append]
  simp only [Segment.CloseSegment.fixups]
  exact Segment.CloseSegment.fixups_GetByte_frame ar post _ x hpost

theorem Segment.CloseSegment_after_mem (ar : Bool) (seg : Segment) (pre post : List Fixup)
    (f : Fixup) (hf : seg.Fixups = pre ++ f :: post)
    (hothers : ∀ g ∈ pre ++ post, ∀ x ∈ g.patched, x ∉ f.patched)
    (x : Nat) (hx : x ∈ f.patched) :
    (seg.CloseSegment ar).1.GetByte x =
      (Segment.CloseSegment.onFixup ar (Segment.CloseSegment.fixups ar pre
        (Segment.CloseSegment.externs seg.Externs seg).1).1 f).1.GetByte x := by
  apply Segment.CloseSegment_after ar seg pre post f hf x
  intro g hg hxg
  exact hothers g (List.mem_append_right _ hg) x hxg hx

theorem Segment.ClearLabels.loop_fst_indep (w1 w2 : Bool) (ll : LabelList) (unused : List Str) :
    (Segment.ClearLabels.loop w1 ll unused).1 = (Segment.ClearLabels.loop w2 ll unused).1 := by
  induction ll generalizing unused with
  | nil => simp [Segment.ClearLabels.loop]
  | cons hd tl ih =>
    obtain ⟨name, v⟩ := hd
    unfold Segment.ClearLabels.loop
    by_cases h : StdSet.contains unused name = true
    · simp only [h, if_true]
      exact ih _
    · simp only [h]
      exact ih _

theorem Segment.ClearLabels_fst_indep (mw1 mw2 : String → Bool) (seg : Segment) (level : Nat) :
    (seg.ClearLabels mw1 level).1 = (seg.ClearLabels mw2 level).1 := by
  simp [Segment.ClearLabels,
    Segment.ClearLabels.loop_fst_indep (mw1 "unused-label") (mw2 "unused-label")]

theorem Object.EndScope_fst_indep (mw1 mw2 : String → Bool) (obj : Object) :
    (obj.EndScope mw1).1 = (obj.EndScope mw2).1 := by
  unfold Object.EndScope
  by_cases h0 : obj.CurScope > 0 <;> by_cases h1 : obj.CurScope > 1 <;>
    simp [h0, h1, Segment.ClearLabels_fst_indep mw1 mw2]

theorem Op.run_fst_indep (mw1 mw2 : String → Bool) (ar : Bool) (ops : List Op) (obj : Object) :
    (Op.run mw1 ar ops obj).1 = (Op.run mw2 ar ops obj).1 := by
  induction ops generalizing obj with
  | nil => simp [Op.run]
  | cons op rest ih =>
    have h : (Op.apply mw1 ar obj op).1 = (Op.apply mw2 ar obj op).1 := by
      cases op <;> simp [Op.apply, Object.EndScope_fst_indep mw1 mw2]
    simp only [Op.run, h]
    exact ih _

/-- C3. Fixup application of `CloseSegment`: for a fixup whose patch range overlaps the patch
range of no other extern or fixup of the segment, with `value' = value + target offset`, the
segment's bytes after `CloseSegment` are: LOBYTE `value' & 0xFF` at `a`; HIBYTE
`(value' >> 8) & 0xFF` at `a`; ABSWORD the two little-endian bytes of `value'` at `a`, `a+1`;
LONG the three little-endian bytes at `a`, `a+1`, `a+2`; SEGBYTE `(value' >> 16) & 0xFF` at `a`
(addresses are `unsigned`).  And scenario S2 yields exactly one fixup, at address 0 with
target (CODE, 5), registered as one ABSWORD fixup entry, and the CODE bytes 0 and 1 are
`05 00`. -/
theorem Segment.CloseSegment_applies_fixups :
    (∀ (ar : Bool) (seg : Segment) (pre post : List Fixup) (f : Fixup),
      seg.Fixups = pre ++ f :: post →
      (∀ e ∈ seg.Externs, ∀ x ∈ e.patched, x ∉ f.patched) →
      (∀ g ∈ pre ++ post, ∀ x ∈ g.patched, x ∉ f.patched) →
      (f.type = .LOBYTE →
        (seg.CloseSegment ar).1.GetByte f.pos = ((f.value + f.targetoffset) % 256).toNat) ∧
      (f.type = .HIBYTE →
        (seg.CloseSegment ar).1.GetByte f.pos =
          ((f.value + f.targetoffset) / 256 % 256).toNat) ∧
      (f.type = .ABSWORD →
        (seg.CloseSegment ar).1.GetByte f.pos = ((f.value + f.targetoffset) % 256).toNat ∧
        (seg.CloseSegment ar).1.GetByte (u32 (f.pos + 1)) =
          ((f.value + f.targetoffset) / 256 % 256).toNat) ∧
      (f.type = .LONG →
        (seg.CloseSegment ar).1.GetByte f.pos = ((f.value + f.targetoffset) % 256).toNat ∧
        (seg.CloseSegment ar).1.GetByte (u32 (f.pos + 1)) =
          ((f.value + f.targetoffset) / 256 % 256).toNat ∧
        (seg.CloseSegment ar).1.GetByte (u32 (f.pos + 2)) =
          ((f.value + f.targetoffset) / 65536 % 256).toNat) ∧
      (f.type = .SEGBYTE →
        (seg.CloseSegment ar).1.GetByte f.pos =
          ((f.value + f.targetoffset) / 65536 % 256).toNat)) ∧
    (∀ (MayWarn : String → Bool) (ar : Bool),
      (Op.run MayWarn ar
        [.StartScope, .AddExtern .ABSWORD ['L'] 0, .GenerateByte 0, .GenerateByte 0,
         .GenerateByte 0, .GenerateByte 0, .GenerateByte 0, .DefineLabel ['L'],
         .EndScope, .CloseSegments] Object.new).1.code.Fixups = [⟨0, .ABSWORD, 0, .CODE, 5⟩] ∧
      (Op.run MayWarn ar
        [.StartScope, .AddExtern .ABSWORD ['L'] 0, .GenerateByte 0, .GenerateByte 0,
         .GenerateByte 0, .GenerateByte 0, .GenerateByte 0, .DefineLabel ['L'],
         .EndScope, .CloseSegments] Object.new).1.code.R =
        { Relocdata.empty with R16 := ⟨[(.CODE, 0)], []⟩ } ∧
      (Op.run MayWarn ar
        [.StartScope, .AddExtern .ABSWORD ['L'] 0, .GenerateByte 0, .GenerateByte 0,
         .GenerateByte 0, .GenerateByte 0, .GenerateByte 0, .DefineLabel ['L'],
         .EndScope, .CloseSegments] Object.new).1.code.GetByte 0 = 5 ∧
      (Op.run MayWarn ar
        [.StartScope, .AddExtern .ABSWORD ['L'] 0, .GenerateByte 0, .GenerateByte 0,
         .GenerateByte 0, .GenerateByte 0, .GenerateByte 0, .DefineLabel ['L'],
         .EndScope, .CloseSegments] Object.new).1.code.GetByte 1 = 0) := by
  constructor
  · intro ar seg pre post f hf _ hothers
    have key := Segment.CloseSegment_after_mem ar seg pre post f hf hothers
    refine ⟨?_, ?_, ?_, ?_, ?_⟩
    · intro hk
      rw [key f.pos (by simp [Fixup.patched, hk])]
      simp [Segment.CloseSegment.onFixup, hk, Segment.GetByte_SetByte, wrapLong_mod_256]
    · intro hk
      rw [key f.pos (by simp [Fixup.patched, hk])]
      simp [Segment.CloseSegment.onFixup, hk, Segment.GetByte_SetByte, wrapLong_div_256_mod]
    · intro hk
      rw [key f.pos (by simp [Fixup.patched, hk]),
        key (u32 (f.pos + 1)) (by simp [Fixup.patched, hk])]
      simp [Segment.CloseSegment.onFixup, hk, Segment.GetByte_SetByte, wrapLong_mod_256,
        wrapLong_div_256_mod, (u32_succ_ne f.pos).symm]
    · intro hk
      rw [key f.pos (by simp [Fixup.patched, hk]),
        key (u32 (f.pos + 1)) (by simp [Fixup.patched, hk]),
        key (u32 (f.pos + 2)) (by simp [Fixup.patched, hk])]
      simp [Segment.CloseSegment.onFixup, hk, Segment.GetByte_SetByte, wrapLong_mod_256,
        wrapLong_div_256_mod, wrapLong_div_65536_mod, (u32_succ_ne f.pos).symm,
        (u32_succ2_ne f.pos).symm, u32_succ_ne_succ2 f.pos]
    · intro hk
      rw [key f.pos (by simp [Fixup.patched, hk])]
      simp [Segment.CloseSegment.onFixup, hk, Segment.GetByte_SetByte, wrapLong_div_65536_mod]
  · intro MayWarn ar
    rw [Op.run_fst_indep MayWarn warnAll]
    cases ar <;> decide

/-- C3, witness: the fixup of scenario S2 in its CODE segment. -/
theorem Segment.CloseSegment_applies_fixups_witness :
    (scenarioS2Code.Fixups = [] ++ scenarioS2Fixup :: [] ∧
     (∀ e ∈ scenarioS2Code.Externs, ∀ x ∈ e.patched, x ∉ scenarioS2Fixup.patched) ∧
     (∀ g ∈ ([] : List Fixup) ++ [], ∀ x ∈ g.patched, x ∉ scenarioS2Fixup.patched) ∧
     scenarioS2Fixup.type = .ABSWORD) ∧
    ((scenarioS2Code.CloseSegment false).1.GetByte scenarioS2Fixup.pos =
        ((scenarioS2Fixup.value + scenarioS2Fixup.targetoffset) % 256).toNat ∧
      (scenarioS2Code.CloseSegment false).1.GetByte (u32 (scenarioS2Fixup.pos + 1)) =
        ((scenarioS2Fixup.value + scenarioS2Fixup.targetoffset) / 256 % 256).toNat) :=
  ⟨⟨by decide, by decide, by decide, by decide⟩,
   (Segment.CloseSegment_applies_fixups.1 false scenarioS2Code [] [] scenarioS2Fixup
      (by decide) (by decide) (by decide)).2.2.1 (by decide)⟩

theorem Segment.CloseSegment.extern_Relocs (seg : Segment) (e : Extern) :
    (Segment.CloseSegment.onExtern seg e).1.R.R16lo.Relocs =
      seg.R.R16lo.Relocs ++ (if e.type = .LOBYTE then [(e.pos, e.ref)] else []) ∧
    (Segment.CloseSegment.onExtern seg e).1.R.R16hi.Relocs =
      seg.R.R16hi.Relocs ++
        (if e.type = .HIBYTE then [((e.pos, (e.value % 256).toNat), e.ref)] else []) ∧
    (Segment.CloseSegment.onExtern seg e).1.R.R16.Relocs =
      seg.R.R16.Relocs ++ (if e.type = .ABSWORD then [(e.pos, e.ref)] else []) ∧
    (Segment.CloseSegment.onExtern seg e).1.R.R24.Relocs =
      seg.R.R24.Relocs ++ (if e.type = .LONG then [(e.pos, e.ref)] else []) ∧
    (Segment.CloseSegment.onExtern seg e).1.R.R24seg.Relocs =
      seg.R.R24seg.Relocs ++
        (if e.type = .SEGBYTE then [((e.pos, (e.value % 65536).toNat), e.ref)] else []) := by
  unfold Segment.CloseSegment.onExtern
  cases hk : e.type <;> simp [Segment.SetByte, RelocVar.AddReloc]

theorem Segment.CloseSegment.externs_Relocs (es : List Extern) (seg : Segment) :
    (Segment.CloseSegment.externs es seg).1.R.R16lo.Relocs =
      seg.R.R16lo.Relocs ++ es.filterMap (fun e =>
        if e.type = .LOBYTE then some (e.pos, e.ref) else none) ∧
    (Segment.CloseSegment.externs es seg).1.R.R16hi.Relocs =
      seg.R.R16hi.Relocs ++ es.filterMap (fun e =>
        if e.type = .HIBYTE then some ((e.pos, (e.value % 256).toNat), e.ref) else none) ∧
    (Segment.CloseSegment.externs es seg).1.R.R16.Relocs =
      seg.R.R16.Relocs ++ es.filterMap (fun e =>
        if e.type = .ABSWORD then some (e.pos, e.ref) else none) ∧
    (Segment.CloseSegment.externs es seg).1.R.R24.Relocs =
      seg.R.R24.Relocs ++ es.filterMap (fun e =>
        if e.type = .LONG then some (e.pos, e.ref) else none) ∧
    (Segment.CloseSegment.externs es seg).1.R.R24seg.Relocs =
      seg.R.R24seg.Relocs ++ es.filterMap (fun e =>
        if e.type = .SEGBYTE then some ((e.pos, (e.value % 65536).toNat), e.ref) else none) := by
  induction es generalizing seg with
  | nil => simp [Segment.CloseSegment.externs]
  | cons e rest ih =>
    obtain ⟨h1, h2, h3, h4, h5⟩ := ih (Segment.CloseSegment.onExtern seg e).1
    obtain ⟨g1, g2, g3, g4, g5⟩ := Segment.CloseSegment.extern_Relocs seg e
    simp only [Segment.CloseSegment.externs, h1, h2, h3, h4, h5, g1, g2, g3, g4, g5]
    cases hk : e.type <;> simp [List.filterMap_cons, hk]

theorem Segment.CloseSegment.fixup_Relocs (ar : Bool) (seg : Segment) (f : Fixup) :
    (Segment.CloseSegment.onFixup ar seg f).1.R.R16lo.Relocs = seg.R.R16lo.Relocs ∧
    (Segment.CloseSegment.onFixup ar seg f).1.R.R16hi.Relocs = seg.R.R16hi.Relocs ∧
    (Segment.CloseSegment.onFixup ar seg f).1.R.R16.Relocs = seg.R.R16.Relocs ∧
    (Segment.CloseSegment.onFixup ar seg f).1.R.R24.Relocs = seg.R.R24.Relocs ∧
    (Segment.CloseSegment.onFixup ar seg f).1.R.R24seg.Relocs = seg.R.R24seg.Relocs := by
  unfold Segment.CloseSegment.onFixup
  cases hk : f.type <;> simp [Segment.SetByte, RelocVar.AddFixup]

theorem Segment.CloseSegment.fixups_Relocs (ar : Bool) (fs : List Fixup) (seg : Segment) :
    (Segment.CloseSegment.fixups ar fs seg).1.R.R16lo.Relocs = seg.R.R16lo.Relocs ∧
    (Segment.CloseSegment.fixups ar fs seg).1.R.R16hi.Relocs = seg.R.R16hi.Relocs ∧
    (Segment.CloseSegment.fixups ar fs seg).1.R.R16.Relocs = seg.R.R16.Relocs ∧
    (Segment.CloseSegment.fixups ar fs seg).1.R.R24.Relocs = seg.R.R24.Relocs ∧
    (Segment.CloseSegment.fixups ar fs seg).1.R.R24seg.Relocs = seg.R.R24seg.Relocs := by
  induction fs generalizing seg with
  | nil => simp [Segment.CloseSegment.fixups]
  | cons f rest ih =>
    obtain ⟨h1, h2, h3, h4, h5⟩ := ih (Segment.CloseSegment.onFixup ar seg f).1
    obtain ⟨g1, g2, g3, g4, g5⟩ := Segment.CloseSegment.fixup_Relocs ar seg f
    simp only [Segment.CloseSegment.fixups, h1, h2, h3, h4, h5, g1, g2, g3, g4, g5]
    simp

theorem Segment.CloseSegment.extern_GetByte_frame (seg : Segment) (e : Extern)
    (x : Nat) (h : x ∉ e.patched) :
    (Segment.CloseSegment.onExtern seg e).1.GetByte x = seg.GetByte x := by
  unfold Extern.patched at h
  unfold Segment.CloseSegment.onExtern
  cases hk : e.type <;> simp only [hk] at h <;> simp at h <;>
    simp [Segment.GetByte_SetByte, Segment.GetByte_R, h]

theorem Segment.CloseSegment.externs_GetByte_frame (es : List Extern)
    (seg : Segment) (x : Nat) (h : ∀ g ∈ es, x ∉ g.patched) :
    (Segment.CloseSegment.externs es seg).1.GetByte x = seg.GetByte x := by
  induction es generalizing seg with
  | nil => simp [Segment.CloseSegment.externs]
  | cons g rest ih =>
    simp only [Segment.CloseSegment.externs]
    rw [ih _ (fun g' hg' => h g' (List.mem_cons_of_mem _ hg'))]
    exact Segment.CloseSegment.extern_GetByte_frame seg g x (h g (List.mem_cons_self _ _))

theorem Segment.CloseSegment.externs_append (pre post : List Extern) (seg : Segment) :
    (Segment.CloseSegment.externs (pre ++ post) seg).1 =
      (Segment.CloseSegment.externs post (Segment.CloseSegment.externs pre seg).1).1 := by
  induction pre generalizing seg with
  | nil => simp [Segment.CloseSegment.externs]
  | cons g rest ih => simp [Segment.CloseSegment.externs, ih]

theorem Segment.CloseSegment_after_extern (ar : Bool) (seg : Segment) (pre post : List Extern)
    (e : Extern) (he : seg.Externs = pre ++ e :: post) (x : Nat)
    (hpost : ∀ g ∈ post, x ∉ g.patched) (hfix : ∀ f ∈ seg.Fixups, x ∉ f.patched) :
    (seg.CloseSegment ar).1.GetByte x =
      (Segment.CloseSegment.onExtern (Segment.CloseSegment.externs pre seg).1 e).1.GetByte x := by
  simp only [Segment.CloseSegment]
  rw [Segment.CloseSegment.fixups_GetByte_frame ar seg.Fixups _ x hfix, he,
    Segment.CloseSegment.externs_append]
  simp only [Segment.CloseSegment.externs]
  exact Segment.CloseSegment.externs_GetByte_frame post _ x hpost

theorem Segment.CloseSegment.extern_bytes (seg : Segment) (e : Extern) :
    e.patchedWith (Segment.CloseSegment.onExtern seg e).1 := by
  unfold Extern.patchedWith Segment.CloseSegment.onExtern
  refine ⟨?_, ?_, ?_, ?_, ?_⟩ <;> intro hk <;>
    simp [hk, Segment.GetByte_SetByte, (u32_succ_ne e.pos).symm,
      (u32_succ2_ne e.pos).symm, u32_succ_ne_succ2 e.pos]

/-- C4. Unresolved externs at `CloseSegment`.  (1) Each reloc list of the RelocTable ends up
as its old content followed by exactly one entry per remaining extern of the matching kind,
in order: `(a, n)` on R16lo for LOBYTE, on R16 for ABSWORD and on R24 for LONG,
`((a, v & 0xFF), n)` on R16hi for HIBYTE and `((a, v & 0xFFFF), n)` on R24seg for SEGBYTE.
(2) The loop body for an extern patches the bytes at `a` with `v` masked per kind.
(3) These are the bytes after `CloseSegment` whenever no later patch (of a later extern or of
a fixup) overlaps the extern's patch range. -/
theorem Segment.CloseSegment_relocates_externs :
    (∀ (ar : Bool) (seg : Segment),
      (seg.CloseSegment ar).1.R.R16lo.Relocs =
        seg.R.R16lo.Relocs ++ seg.Externs.filterMap (fun e =>
          if e.type = .LOBYTE then some (e.pos, e.ref) else none) ∧
      (seg.CloseSegment ar).1.R.R16hi.Relocs =
        seg.R.R16hi.Relocs ++ seg.Externs.filterMap (fun e =>
          if e.type = .HIBYTE then some ((e.pos, (e.value % 256).toNat), e.ref) else none) ∧
      (seg.CloseSegment ar).1.R.R16.Relocs =
        seg.R.R16.Relocs ++ seg.Externs.filterMap (fun e =>
          if e.type = .ABSWORD then some (e.pos, e.ref) else none) ∧
      (seg.CloseSegment ar).1.R.R24.Relocs =
        seg.R.R24.Relocs ++ seg.Externs.filterMap (fun e =>
          if e.type = .LONG then some (e.pos, e.ref) else none) ∧
      (seg.CloseSegment ar).1.R.R24seg.Relocs =
        seg.R.R24seg.Relocs ++ seg.Externs.filterMap (fun e =>
          if e.type = .SEGBYTE then some ((e.pos, (e.value % 65536).toNat), e.ref)
          else none)) ∧
    (∀ (seg : Segment) (e : Extern),
      e.patchedWith (Segment.CloseSegment.onExtern seg e).1) ∧
    (∀ (ar : Bool) (seg : Segment) (pre post : List Extern) (e : Extern),
      seg.Externs = pre ++ e :: post →
      (∀ g ∈ post, ∀ x ∈ g.patched, x ∉ e.patched) →
      (∀ f ∈ seg.Fixups, ∀ x ∈ f.patched, x ∉ e.patched) →
      e.patchedWith (seg.CloseSegment ar).1) := by
  refine ⟨?_, Segment.CloseSegment.extern_bytes, ?_⟩
  · intro ar seg
    obtain ⟨h1, h2, h3, h4, h5⟩ := Segment.CloseSegment.externs_Relocs seg.Externs seg
    obtain ⟨g1, g2, g3, g4, g5⟩ := Segment.CloseSegment.fixups_Relocs ar seg.Fixups
      (Segment.CloseSegment.externs seg.Externs seg).1
    simp only [Segment.CloseSegment, g1, g2, g3, g4, g5, h1, h2, h3, h4, h5]
    simp
  · intro ar seg pre post e he hpost hfix
    have key : ∀ x ∈ e.patched, (seg.CloseSegment ar).1.GetByte x =
        (Segment.CloseSegment.onExtern (Segment.CloseSegment.externs pre seg).1 e).1.GetByte x := by
      intro x hx
      exact Segment.CloseSegment_after_extern ar seg pre post e he x
        (fun g hg hxg => hpost g hg x hxg hx) (fun f hf hxf => hfix f hf x hxf hx)
    obtain ⟨b1, b2, b3, b4, b5⟩ :=
      Segment.CloseSegment.extern_bytes (Segment.CloseSegment.externs pre seg).1 e
    refine ⟨?_, ?_, ?_, ?_, ?_⟩ <;> intro hk
    · rw [key e.pos (by simp [Extern.patched, hk])]
      exact b1 hk
    · rw [key e.pos (by simp [Extern.patched, hk])]
      exact b2 hk
    · rw [key e.pos (by simp [Extern.patched, hk]),
        key (u32 (e.pos + 1)) (by simp [Extern.patched, hk])]
      exact b3 hk
    · rw [key e.pos (by simp [Extern.patched, hk]),
        key (u32 (e.pos + 1)) (by simp [Extern.patched, hk]),
        key (u32 (e.pos + 2)) (by simp [Extern.patched, hk])]
      exact b4 hk
    · rw [key e.pos (by simp [Extern.patched, hk])]
      exact b5 hk

/-- C4, witness: the LONG extern of scenario S3 (value `0x123456`) in its CODE segment. -/
theorem Segment.CloseSegment_relocates_externs_witness :
    (scenarioS3Code.Externs = [] ++ scenarioS3Extern :: [] ∧
     (∀ g ∈ ([] : List Extern), ∀ x ∈ g.patched, x ∉ scenarioS3Extern.patched) ∧
     (∀ f ∈ scenarioS3Code.Fixups, ∀ x ∈ f.patched, x ∉ scenarioS3Extern.patched)) ∧
    scenarioS3Extern.patchedWith (scenarioS3Code.CloseSegment false).1 :=
  ⟨⟨by decide, by decide, by decide⟩,
   Segment.CloseSegment_relocates_externs.2.2 false scenarioS3Code [] [] scenarioS3Extern
     (by decide) (by decide) (by decide)⟩

theorem Segment.CloseSegment.extern_relative (seg : Segment) (e : Extern)
    (h : e.type.isRelative = true) :
    (Segment.CloseSegment.onExtern seg e).1 = seg := by
  unfold Segment.CloseSegment.onExtern
  cases hk : e.type <;> simp [hk, RelocKind.isRelative] at h ⊢

theorem Segment.CloseSegment.extern_R_congr (s1 s2 : Segment) (e : Extern) (h : s1.R = s2.R) :
    (Segment.CloseSegment.onExtern s1 e).1.R = (Segment.CloseSegment.onExtern s2 e).1.R := by
  unfold Segment.CloseSegment.onExtern
  cases hk : e.type <;> simp [Segment.SetByte, h]

theorem Segment.CloseSegment.externs_R_filter (es : List Extern) (s1 s2 : Segment)
    (h : s1.R = s2.R) :
    (Segment.CloseSegment.externs es s1).1.R =
      (Segment.CloseSegment.externs (es.filter (fun e => !e.type.isRelative)) s2).1.R := by
  induction es generalizing s1 s2 with
  | nil => simpa [Segment.CloseSegment.externs] using h
  | cons e rest ih =>
    by_cases hr : e.type.isRelative = true
    · simp only [Segment.CloseSegment.externs, List.filter_cons, hr, Bool.not_true,
        Bool.false_eq_true, if_false, Segment.CloseSegment.extern_relative s1 e hr]
      exact ih s1 s2 h
    · simp only [Bool.not_eq_true] at hr
      simp only [Segment.CloseSegment.externs, List.filter_cons, hr, Bool.not_false, if_true]
      exact ih _ _ (Segment.CloseSegment.extern_R_congr s1 s2 e h)

theorem Segment.CloseSegment.fixup_relative (ar : Bool) (seg : Segment) (f : Fixup)
    (h : f.type.isRelative = true) :
    (Segment.CloseSegment.onFixup ar seg f).1.R = seg.R := by
  unfold Segment.CloseSegment.onFixup
  cases hk : f.type <;> simp [hk, RelocKind.isRelative, Segment.SetByte] at h ⊢

theorem Segment.CloseSegment.fixup_R_congr (ar : Bool) (s1 s2 : Segment) (f : Fixup)
    (h : s1.R = s2.R) :
    (Segment.CloseSegment.onFixup ar s1 f).1.R = (Segment.CloseSegment.onFixup ar s2 f).1.R := by
  unfold Segment.CloseSegment.onFixup
  cases hk : f.type <;> simp [Segment.SetByte, h]

theorem Segment.CloseSegment.fixups_R_filter (ar : Bool) (fs : List Fixup) (s1 s2 : Segment)
    (h : s1.R = s2.R) :
    (Segment.CloseSegment.fixups ar fs s1).1.R =
      (Segment.CloseSegment.fixups ar (fs.filter (fun f => !f.type.isRelative)) s2).1.R := by
  induction fs generalizing s1 s2 with
  | nil => simpa [Segment.CloseSegment.fixups] using h
  | cons f rest ih =>
    by_cases hr : f.type.isRelative = true
    · simp only [Segment.CloseSegment.fixups, List.filter_cons, hr, Bool.not_true,
        Bool.false_eq_true, if_false]
      exact ih _ s2 ((Segment.CloseSegment.fixup_relative ar s1 f hr).trans h)
    · simp only [Bool.not_eq_true] at hr
      simp only [Segment.CloseSegment.fixups, List.filter_cons, hr, Bool.not_false, if_true]
      exact ih _ _ (Segment.CloseSegment.fixup_R_congr ar s1 s2 f h)

theorem Segment.CloseSegment.externs_diag_mem (es : List Extern) (seg : Segment) (e : Extern)
    (he : e ∈ es) (d : Diag) (hd : ∀ s, d ∈ (Segment.CloseSegment.onExtern s e).2) :
    d ∈ (Segment.CloseSegment.externs es seg).2 := by
  induction es generalizing seg with
  | nil => simp at he
  | cons g rest ih =>
    simp only [Segment.CloseSegment.externs, List.mem_append]
    rcases List.mem_cons.mp he with h | h
    · subst h
      exact Or.inl (hd seg)
    · exact Or.inr (ih _ h)

/-- C6. Relative kinds are never relocations.  The RelocTable after `CloseSegment` is the one
obtained when every REL8 and REL16 extern and fixup is left out (they add no entry to any of
the lists); the loop body leaves the RelocTable unchanged for a REL8 or REL16 fixup; for an
unresolved REL8 (REL16) extern the loop body leaves the whole segment, and so every byte of
its data, unchanged and reports "Unresolved short (near) relative"; and that error is among
the diagnostics of `CloseSegment`. -/
theorem Segment.CloseSegment_relative_not_relocated :
    (∀ (ar : Bool) (seg : Segment),
      (seg.CloseSegment ar).1.R =
        (Segment.CloseSegment ar
          { seg with
            Externs := seg.Externs.filter (fun e => !e.type.isRelative),
            Fixups := seg.Fixups.filter (fun f => !f.type.isRelative) }).1.R) ∧
    (∀ (ar : Bool) (seg : Segment) (f : Fixup), f.type = .REL8 ∨ f.type = .REL16 →
      (Segment.CloseSegment.onFixup ar seg f).1.R = seg.R) ∧
    (∀ (seg : Segment) (e : Extern), e.type = .REL8 →
      Segment.CloseSegment.onExtern seg e = (seg, [Diag.unresolvedShort e.ref])) ∧
    (∀ (seg : Segment) (e : Extern), e.type = .REL16 →
      Segment.CloseSegment.onExtern seg e = (seg, [Diag.unresolvedNear e.ref])) ∧
    (∀ (ar : Bool) (seg : Segment) (e : Extern), e ∈ seg.Externs →
      (e.type = .REL8 → Diag.unresolvedShort e.ref ∈ (seg.CloseSegment ar).2) ∧
      (e.type = .REL16 → Diag.unresolvedNear e.ref ∈ (seg.CloseSegment ar).2)) := by
  refine ⟨?_, ?_, ?_, ?_, ?_⟩
  · intro ar seg
    simp only [Segment.CloseSegment]
    apply Segment.CloseSegment.fixups_R_filter
    exact Segment.CloseSegment.externs_R_filter seg.Externs seg _ rfl
  · intro ar seg f hf
    apply Segment.CloseSegment.fixup_relative
    rcases hf with h | h <;> simp [h, RelocKind.isRelative]
  · intro seg e hk
    simp [Segment.CloseSegment.onExtern, hk]
  · intro seg e hk
    simp [Segment.CloseSegment.onExtern, hk]
  · intro ar seg e he
    constructor
    · intro hk
      simp only [Segment.CloseSegment, List.mem_append]
      refine Or.inl (Segment.CloseSegment.externs_diag_mem seg.Externs seg e he _ ?_)
      intro s
      simp [Segment.CloseSegment.onExtern, hk]
    · intro hk
      simp only [Segment.CloseSegment, List.mem_append]
      refine Or.inl (Segment.CloseSegment.externs_diag_mem seg.Externs seg e he _ ?_)
      intro s
      simp [Segment.CloseSegment.onExtern, hk]

/-- C6, witness: a segment whose pending records are all relative. -/
theorem Segment.CloseSegment_relative_not_relocated_witness :
    ((⟨0, .REL8, 0, ['a'], 0⟩ : Extern) ∈ relativeOnly.Externs ∧
     (⟨0, .REL8, 0, ['a'], 0⟩ : Extern).type = .REL8 ∧
     (backwardJump.type = .REL8 ∨ backwardJump.type = .REL16)) ∧
    Diag.unresolvedShort ['a'] ∈ (relativeOnly.CloseSegment true).2 ∧
    Segment.CloseSegment.onExtern relativeOnly ⟨0, .REL8, 0, ['a'], 0⟩ =
      (relativeOnly, [Diag.unresolvedShort ['a']]) ∧
    (Segment.CloseSegment.onFixup true relativeOnly backwardJump).1.R = relativeOnly.R :=
  ⟨⟨by decide, by decide, by decide⟩,
   (Segment.CloseSegment_relative_not_relocated.2.2.2.2 true relativeOnly
      ⟨0, .REL8, 0, ['a'], 0⟩ (by decide)).1 rfl,
   Segment.CloseSegment_relative_not_relocated.2.2.1 relativeOnly ⟨0, .REL8, 0, ['a'], 0⟩ rfl,
   Segment.CloseSegment_relative_not_relocated.2.1 true relativeOnly backwardJump
     (by decide)⟩

/-! ## Label definition -/

/-- C7, the code at the failing input: in a fresh Object after one `StartScope`
(`CurScope = 1`), `DefineLabel("&p")` stores `p` in the current segment at scope number
4294967295, the wrap-around of `0 - 1`, and not at `max(CurScope-1-1, 0) = 0`. -/
theorem Object.DefineLabel_ampersand_wraps :
    Object.DefineLabel.sigils 1 ['&', 'p'] = (['p'], 4294967295) ∧
    specAmpersandScope 1 1 = 0 ∧
    (Op.run warnAll false [.StartScope, .DefineLabel ['&', 'p']] Object.new).1.code.labels =
      [(4294967295, [(['p'], 0)])] ∧
    (Op.run warnAll false [.StartScope, .DefineLabel ['&', 'p']]
      Object.new).1.code.FindLabelAt ['p'] 0 = none := by
  decide

/-- C8, counterexample: in scenario S4 `DefineLabel("&p")` does not store `p` at scope level 1;
no segment holds `p` at level 1, and CODE holds it at level 0. -/
theorem Object.DefineLabel_scenarioS4_p_not_at_1 :
    (∀ sel, ((Op.run warnAll false
      [.StartScope, .StartScope, .DefineLabel ['+', 'g'], .DefineLabel ['&', 'p']]
      Object.new).1.seg sel).FindLabelAt ['p'] 1 = none) ∧
    (Op.run warnAll false
      [.StartScope, .StartScope, .DefineLabel ['+', 'g'], .DefineLabel ['&', 'p']]
      Object.new).1.code.FindLabelAt ['p'] 0 = some 0 := by
  constructor
  · intro sel
    cases sel <;> decide
  · decide

/-- C8 (as amended). Scenario S4: starting from a freshly constructed Object, after
`StartScope(); StartScope()`, `DefineLabel("+g")` stores `g` at scope level 0 in the current
segment (CODE), `DefineLabel("&p")` stores `p` at scope level 0 (one level above the default
level `CurScope-1 = 1`), and `DefineLabel("x")` stores `x` at scope level 1; nothing else is
defined. -/
theorem Object.DefineLabel_scenarioS4 (MayWarn : String → Bool) (ar : Bool) :
    (Op.run MayWarn ar [.StartScope, .StartScope, .DefineLabel ['+', 'g']]
      Object.new).1.code.labels = [(0, [(['g'], 0)])] ∧
    (Op.run MayWarn ar
      [.StartScope, .StartScope, .DefineLabel ['+', 'g'], .DefineLabel ['&', 'p']]
      Object.new).1.code.labels = [(0, [(['g'], 0), (['p'], 0)])] ∧
    (Op.run MayWarn ar
      [.StartScope, .StartScope, .DefineLabel ['+', 'g'], .DefineLabel ['&', 'p'],
       .DefineLabel ['x']] Object.new).1 =
      { Object.new with
        CurScope := 2,
        code := { Segment.new with
          labels := [(0, [(['g'], 0), (['p'], 0)]), (1, [(['x'], 0)])],
          UnusedLabels := [['g'], ['p'], ['x']] } } := by
  rw [Op.run_fst_indep MayWarn warnAll, Op.run_fst_indep MayWarn warnAll,
    Op.run_fst_indep MayWarn warnAll]
  cases ar <;> decide

theorem Object.DefineLabel.climb_fst_pos (c : Nat) (hc : 0 < c) (s : Str) (n : Nat) :
    (Object.DefineLabel.climb c s n).1 = s.dropWhile (fun ch => ch == '&') := by
  induction s generalizing n with
  | nil => simp [Object.DefineLabel.climb]
  | cons ch rest ih =>
    by_cases h : ch = '&'
    · subst h
      simp [Object.DefineLabel.climb, hc, ih, List.dropWhile_cons]
    · rw [Object.DefineLabel.climb]
      · simp [List.dropWhile_cons, h]
      · intro rest' heq
        simp at heq
        exact h heq.1

theorem Object.DefineLabel.climb_zero (s : Str) (n : Nat) :
    Object.DefineLabel.climb 0 s n = (s, n) := by
  cases s with
  | nil => simp [Object.DefineLabel.climb]
  | cons ch rest =>
    by_cases h : ch = '&'
    · subst h
      simp [Object.DefineLabel.climb]
    · rw [Object.DefineLabel.climb]
      intro rest' heq
      simp at heq
      exact h heq.1

theorem Object.DefineLabel.sigils_eq_climb (c : Nat) (label : Str) :
    Object.DefineLabel.sigils c label =
      Object.DefineLabel.climb c (stripPlus label)
        (match label with
          | '+' :: _ => 0
          | _ => u32 (c - 1)) := by
  cases label with
  | nil => simp [Object.DefineLabel.sigils, stripPlus]
  | cons ch rest =>
    by_cases h : ch = '+'
    · subst h
      simp [Object.DefineLabel.sigils, stripPlus]
    · have e1 : stripPlus (ch :: rest) = ch :: rest := by
        rw [stripPlus]
        intro rest' heq
        simp at heq
        exact h heq.1
      rw [e1, Object.DefineLabel.sigils]
      · split
        · rename_i heq
          simp at heq
          exact absurd heq.1 h
        · rfl
      · intro rest' heq
        simp at heq
        exact h heq.1

theorem Object.DefineLabel.sigils_fst (c : Nat) (label : Str)
    (h : 0 < c ∨ stripSigils label = stripPlus label) :
    (Object.DefineLabel.sigils c label).1 = stripSigils label := by
  rw [Object.DefineLabel.sigils_eq_climb]
  rcases Nat.eq_zero_or_pos c with h0 | hpos
  · subst h0
    rcases h with h | h
    · exact absurd h (Nat.lt_irrefl 0)
    · rw [Object.DefineLabel.climb_zero, h]
  · rw [Object.DefineLabel.climb_fst_pos c hpos]
    rfl

theorem Segment.FindLabel.loop_false (name : Str) (m : LabelMap)
    (h : Segment.FindLabel.loop name m = false) (L : Nat) (ll : LabelList)
    (hL : StdMap.find m L = some ll) : StdMap.find ll name = none := by
  induction m with
  | nil => simp [StdMap.find] at hL
  | cons hd tl ih =>
    obtain ⟨lvl, l0⟩ := hd
    unfold Segment.FindLabel.loop at h
    cases hf : StdMap.find l0 name with
    | some v => simp [hf] at h
    | none =>
      simp only [hf, Option.isSome_none, Bool.false_eq_true, if_false] at h
      unfold StdMap.find at hL
      by_cases hl : L = lvl
      · simp only [hl, if_true, Option.some.injEq] at hL
        subst hL
        exact hf
      · simp only [hl, if_false] at hL
        exact ih h hL

theorem Segment.FindLabelAt_of_FindLabel_false (seg : Segment) (name : Str)
    (h : seg.FindLabel name = false) (L : Nat) : seg.FindLabelAt name L = none := by
  unfold Segment.FindLabelAt
  cases hf : StdMap.find seg.labels L with
  | none => rfl
  | some ll => exact Segment.FindLabel.loop_false name seg.labels h L ll hf

theorem Object.FindLabelAt_none_of_FindLabel_false (obj : Object) (name : Str)
    (h : obj.FindLabel name = false) (sel : SegmentSelection) (L : Nat) :
    (obj.seg sel).FindLabelAt name L = none := by
  simp only [Object.FindLabel, Bool.or_eq_false_iff] at h
  obtain ⟨⟨⟨hc, hd⟩, hz⟩, hb⟩ := h
  cases sel
  · exact Segment.FindLabelAt_of_FindLabel_false _ name hc L
  · exact Segment.FindLabelAt_of_FindLabel_false _ name hd L
  · exact Segment.FindLabelAt_of_FindLabel_false _ name hz L
  · exact Segment.FindLabelAt_of_FindLabel_false _ name hb L

theorem Object.FindLabel_of_FindLabelAt (obj : Object) (name : Str) (sel : SegmentSelection)
    (L v : Nat) (h : (obj.seg sel).FindLabelAt name L = some v) : obj.FindLabel name = true := by
  by_contra hc
  simp only [Bool.not_eq_true] at hc
  rw [Object.FindLabelAt_none_of_FindLabel_false obj name hc sel L] at h
  exact absurd h (by simp)

/-- C9 (as amended). Redefinition is dropped atomically: for every Object state and every
label argument such that `CurScope > 0` or the label carries no `&` sigil, if the
sigil-stripped name (one leading `+` removed, then every leading `&`) already exists in any of
the four segments at any scope level, then `DefineLabel(label, value)` and `DefineLabel(label)`
leave the whole Object state unchanged and report "already defined" for that name. -/
theorem Object.DefineLabel_redefinition_dropped (obj : Object) (label : Str) (value : Nat)
    (hscope : 0 < obj.CurScope ∨ stripSigils label = stripPlus label)
    (hex : ∃ sel L v, (obj.seg sel).FindLabelAt (stripSigils label) L = some v) :
    obj.DefineLabel label value = (obj, [Diag.alreadyDefined (stripSigils label)]) ∧
    obj.DefineLabelHere label = (obj, [Diag.alreadyDefined (stripSigils label)]) := by
  obtain ⟨sel, L, v, hv⟩ := hex
  have hfound := Object.FindLabel_of_FindLabelAt obj _ sel L v hv
  have hname := Object.DefineLabel.sigils_fst obj.CurScope label hscope
  constructor
  · simp [Object.DefineLabel, hname, hfound]
  · simp [Object.DefineLabelHere, Object.DefineLabel, hname, hfound]

/-- C9, witness: inside one scope with `foo` defined, `DefineLabel("&foo")` is dropped. -/
theorem Object.DefineLabel_redefinition_dropped_witness :
    ((0 < fooDefinedInScope.CurScope ∨
        stripSigils ['&', 'f', 'o', 'o'] = stripPlus ['&', 'f', 'o', 'o']) ∧
     (∃ sel L v, (fooDefinedInScope.seg sel).FindLabelAt
        (stripSigils ['&', 'f', 'o', 'o']) L = some v)) ∧
    (fooDefinedInScope.DefineLabel ['&', 'f', 'o', 'o'] 7 =
        (fooDefinedInScope, [Diag.alreadyDefined (stripSigils ['&', 'f', 'o', 'o'])]) ∧
     fooDefinedInScope.DefineLabelHere ['&', 'f', 'o', 'o'] =
        (fooDefinedInScope, [Diag.alreadyDefined (stripSigils ['&', 'f', 'o', 'o'])])) :=
  ⟨⟨Or.inl (by decide), ⟨.CODE, 0, 0, by decide⟩⟩,
   Object.DefineLabel_redefinition_dropped fooDefinedInScope ['&', 'f', 'o', 'o'] 7
     (Or.inl (by decide)) ⟨.CODE, 0, 0, by decide⟩⟩

/-- C9, counterexample: outside any scope (`CurScope = 0`) with `foo` defined in CODE at
level 0, `DefineLabel("&foo")`, whose sigil-stripped name is `foo`, reports no error and
changes the Object: it stores a label named `&foo` at scope number 4294967295. -/
theorem Object.DefineLabel_ampersand_outside_scope :
    fooDefinedTopLevel.CurScope = 0 ∧
    stripSigils ['&', 'f', 'o', 'o'] = ['f', 'o', 'o'] ∧
    (fooDefinedTopLevel.seg .CODE).FindLabelAt ['f', 'o', 'o'] 0 = some 0 ∧
    (fooDefinedTopLevel.DefineLabel ['&', 'f', 'o', 'o'] 7).2 = [] ∧
    (fooDefinedTopLevel.DefineLabel ['&', 'f', 'o', 'o'] 7).1 ≠ fooDefinedTopLevel ∧
    (fooDefinedTopLevel.DefineLabel ['&', 'f', 'o', 'o'] 7).1.code.FindLabelAt
      ['&', 'f', 'o', 'o'] 4294967295 = some 7 := by
  decide

/-! ## Label uniqueness -/

theorem Object.UniqueLabels_of_subset (o o' : Object) (h : o.UniqueLabels)
    (hsub : ∀ sel name L v, (o'.seg sel).FindLabelAt name L = some v →
      ∃ v', (o.seg sel).FindLabelAt name L = some v') : o'.UniqueLabels := by
  intro name s1 s2 l1 l2 v1 v2 h1 h2
  obtain ⟨w1, hw1⟩ := hsub s1 name l1 v1 h1
  obtain ⟨w2, hw2⟩ := hsub s2 name l2 v2 h2
  exact h name s1 s2 l1 l2 w1 w2 hw1 hw2

theorem Object.UniqueLabels_of_labels_eq (o o' : Object) (h : o.UniqueLabels)
    (heq : ∀ sel, (o'.seg sel).labels = (o.seg sel).labels) : o'.UniqueLabels := by
  apply Object.UniqueLabels_of_subset o o' h
  intro sel name L v hv
  refine ⟨v, ?_⟩
  simpa [Segment.FindLabelAt, heq sel] using hv

theorem Object.seg_setSeg (obj : Object) (sel sel' : SegmentSelection) (s : Segment) :
    (obj.setSeg sel s).seg sel' = if sel' = sel then s else obj.seg sel' := by
  cases sel <;> cases sel' <;> simp [Object.setSeg, Object.seg]

theorem Object.setSeg_labels_eq (obj : Object) (sel : SegmentSelection) (s : Segment)
    (h : s.labels = (obj.seg sel).labels) (sel' : SegmentSelection) :
    ((obj.setSeg sel s).seg sel').labels = (obj.seg sel').labels := by
  rw [Object.seg_setSeg]
  by_cases he : sel' = sel
  · simp [he, h]
  · simp [he]

theorem Segment.FindLabelAt_DefineLabel (seg : Segment) (level : Nat) (s : Str) (value : Nat)
    (name : Str) (L : Nat) :
    (seg.DefineLabel level s value).FindLabelAt name L =
      if L = level then (if name = s then some value else seg.FindLabelAt name L)
      else seg.FindLabelAt name L := by
  unfold Segment.DefineLabel Segment.FindLabelAt Segment.GetLabels
  by_cases hL : L = level
  · subst hL
    simp only [StdMap.find_set_self, if_true]
    by_cases hn : name = s
    · subst hn
      simp [StdMap.find_set_self]
    · simp only [StdMap.find_set_ne _ _ _ _ hn, hn, if_false]
      cases StdMap.find seg.labels L <;> simp [StdMap.find]
  · simp only [StdMap.find_set_ne _ _ _ _ hL, hL, if_false]

theorem Segment.FindLabelAt_ClearLabels (MayWarn : String → Bool) (seg : Segment)
    (level : Nat) (name : Str) (L : Nat) :
    (seg.ClearLabels MayWarn level).1.FindLabelAt name L =
      if L = level then none else seg.FindLabelAt name L := by
  unfold Segment.ClearLabels Segment.FindLabelAt
  by_cases hL : L = level
  · subst hL
    simp [StdMap.find_set_self, StdMap.find]
  · simp only [StdMap.find_set_ne _ _ _ _ hL, hL, if_false]

theorem Segment.UndefineLabel.find_loop (label : Str) (m : LabelMap) (L : Nat) :
    StdMap.find (Segment.UndefineLabel.loop label m) L =
      (StdMap.find m L).map (fun ll => StdMap.erase ll label) := by
  induction m with
  | nil => simp [Segment.UndefineLabel.loop, StdMap.find]
  | cons hd tl ih =>
    obtain ⟨lvl, ll⟩ := hd
    by_cases h : L = lvl
    · simp [Segment.UndefineLabel.loop, StdMap.find, h]
    · simp [Segment.UndefineLabel.loop, StdMap.find, h, ih]

theorem Segment.FindLabelAt_UndefineLabel (seg : Segment) (label name : Str) (L : Nat) :
    (seg.UndefineLabel label).FindLabelAt name L =
      if name = label then none else seg.FindLabelAt name L := by
  unfold Segment.UndefineLabel Segment.FindLabelAt
  simp only [Segment.UndefineLabel.find_loop]
  cases StdMap.find seg.labels L with
  | none => simp
  | some ll =>
    by_cases hn : name = label
    · subst hn
      simp [StdMap.find_erase_self]
    · simp [StdMap.find_erase_ne _ _ _ hn, hn]

theorem Object.DefineLabel_UniqueLabels (obj : Object) (label : Str) (value : Nat)
    (h : obj.UniqueLabels) : (obj.DefineLabel label value).1.UniqueLabels := by
  unfold Object.DefineLabel
  by_cases hf : obj.FindLabel (Object.DefineLabel.sigils obj.CurScope label).1 = true
  · simpa [hf] using h
  · simp only [hf, Bool.false_eq_true, if_false]
    simp only [Bool.not_eq_true] at hf
    have hnone := Object.FindLabelAt_none_of_FindLabel_false obj _ hf
    have hnew : ∀ sel name L v,
        ((obj.setSeg obj.CurSegment
          (obj.GetSeg.DefineLabel (Object.DefineLabel.sigils obj.CurScope label).2
            (Object.DefineLabel.sigils obj.CurScope label).1 value)).seg sel).FindLabelAt
              name L = some v →
        (sel = obj.CurSegment ∧ L = (Object.DefineLabel.sigils obj.CurScope label).2 ∧
          name = (Object.DefineLabel.sigils obj.CurScope label).1) ∨
        (name ≠ (Object.DefineLabel.sigils obj.CurScope label).1 ∧
          (obj.seg sel).FindLabelAt name L = some v) := by
      intro sel name L v hv
      rw [Object.seg_setSeg] at hv
      by_cases hs : sel = obj.CurSegment
      · subst hs
        simp only [if_true, Segment.FindLabelAt_DefineLabel] at hv
        by_cases hL : L = (Object.DefineLabel.sigils obj.CurScope label).2
        · by_cases hn : name = (Object.DefineLabel.sigils obj.CurScope label).1
          · exact Or.inl ⟨rfl, hL, hn⟩
          · simp only [hL, hn, if_true, if_false] at hv
            refine Or.inr ⟨hn, ?_⟩
            rw [hL]
            exact hv
        · simp only [hL, if_false] at hv
          refine Or.inr ⟨?_, hv⟩
          intro hn
          subst hn
          simp only [Object.GetSeg] at hv
          rw [hnone] at hv
          exact absurd hv (by simp)
      · simp only [hs, if_false] at hv
        refine Or.inr ⟨?_, hv⟩
        intro hn
        subst hn
        rw [hnone] at hv
        exact absurd hv (by simp)
    intro name s1 s2 l1 l2 v1 v2 h1 h2
    rcases hnew s1 name l1 v1 h1 with ⟨a1, a2, a3⟩ | ⟨a1, a2⟩ <;>
      rcases hnew s2 name l2 v2 h2 with ⟨b1, b2, b3⟩ | ⟨b1, b2⟩
    · exact ⟨a1.trans b1.symm, a2.trans b2.symm⟩
    · exact absurd a3 b1
    · exact absurd b3 a1
    · exact h name s1 s2 l1 l2 v1 v2 a2 b2

theorem Object.EndScope_UniqueLabels (MayWarn : String → Bool) (obj : Object)
    (h : obj.UniqueLabels) : (obj.EndScope MayWarn).1.UniqueLabels := by
  apply Object.UniqueLabels_of_subset obj _ h
  intro sel name L v hv
  unfold Object.EndScope at hv
  by_cases h0 : obj.CurScope > 0 <;> by_cases h1 : obj.CurScope > 1 <;>
    cases sel <;>
    simp only [h0, h1, if_true, if_false, Object.seg] at hv ⊢ <;>
    first
    | (simp only [Segment.FindLabelAt_ClearLabels] at hv
       split at hv
       · exact absurd hv (by simp)
       · refine ⟨v, ?_⟩
         simpa [Segment.FindLabelAt, Segment.CheckExterns_labels] using hv)
    | (refine ⟨v, ?_⟩
       simpa [Segment.FindLabelAt, Segment.CheckExterns_labels] using hv)

theorem Object.UndefineLabel_UniqueLabels (obj : Object) (label : Str)
    (h : obj.UniqueLabels) : (obj.UndefineLabel label).UniqueLabels := by
  apply Object.UniqueLabels_of_subset obj _ h
  intro sel name L v hv
  cases sel <;>
    simp only [Object.UndefineLabel, Object.seg, Segment.FindLabelAt_UndefineLabel] at hv ⊢ <;>
    (split at hv
     · exact absurd hv (by simp)
     · exact ⟨v, hv⟩)

theorem Segment.CloseSegment.onExtern_labels (seg : Segment) (e : Extern) :
    (Segment.CloseSegment.onExtern seg e).1.labels = seg.labels := by
  unfold Segment.CloseSegment.onExtern
  cases e.type <;> simp [Segment.SetByte]

theorem Segment.CloseSegment.onFixup_labels (ar : Bool) (seg : Segment) (f : Fixup) :
    (Segment.CloseSegment.onFixup ar seg f).1.labels = seg.labels := by
  unfold Segment.CloseSegment.onFixup
  cases f.type <;> simp [Segment.SetByte]

theorem Segment.CloseSegment.externs_labels (es : List Extern) (seg : Segment) :
    (Segment.CloseSegment.externs es seg).1.labels = seg.labels := by
  induction es generalizing seg with
  | nil => simp [Segment.CloseSegment.externs]
  | cons e rest ih =>
    simp [Segment.CloseSegment.externs, ih, Segment.CloseSegment.onExtern_labels]

theorem Segment.CloseSegment.fixups_labels (ar : Bool) (fs : List Fixup) (seg : Segment) :
    (Segment.CloseSegment.fixups ar fs seg).1.labels = seg.labels := by
  induction fs generalizing seg with
  | nil => simp [Segment.CloseSegment.fixups]
  | cons f rest ih =>
    simp [Segment.CloseSegment.fixups, ih, Segment.CloseSegment.onFixup_labels]

theorem Segment.CloseSegment_labels (ar : Bool) (seg : Segment) :
    (seg.CloseSegment ar).1.labels = seg.labels := by
  simp [Segment.CloseSegment, Segment.CloseSegment.fixups_labels,
    Segment.CloseSegment.externs_labels]

theorem Op.apply_UniqueLabels (MayWarn : String → Bool) (ar : Bool) (obj : Object) (op : Op)
    (h : obj.UniqueLabels) : (Op.apply MayWarn ar obj op).1.UniqueLabels := by
  cases op with
  | GenerateByte b =>
    exact Object.UniqueLabels_of_labels_eq obj _ h
      (Object.setSeg_labels_eq obj _ _ rfl)
  | SetPos p =>
    exact Object.UniqueLabels_of_labels_eq obj _ h
      (Object.setSeg_labels_eq obj _ _ rfl)
  | DefineLabel l => exact Object.DefineLabel_UniqueLabels obj l _ h
  | DefineLabelAt l v => exact Object.DefineLabel_UniqueLabels obj l v h
  | UndefineLabel l => exact Object.UndefineLabel_UniqueLabels obj l h
  | AddExtern k r v =>
    exact Object.UniqueLabels_of_labels_eq obj _ h
      (Object.setSeg_labels_eq obj _ _ rfl)
  | StartScope =>
    exact Object.UniqueLabels_of_labels_eq obj _ h (fun sel => by cases sel <;> rfl)
  | EndScope => exact Object.EndScope_UniqueLabels MayWarn obj h
  | SelectSegment sel' =>
    exact Object.UniqueLabels_of_labels_eq obj _ h (fun sel => by cases sel <;> rfl)
  | CloseSegments =>
    exact Object.UniqueLabels_of_labels_eq obj _ h (fun sel => by
      cases sel <;> simp [Op.apply, Object.CloseSegments, Object.seg,
        Segment.CloseSegment_labels])

theorem Op.run_UniqueLabels (MayWarn : String → Bool) (ar : Bool) (ops : List Op)
    (obj : Object) (h : obj.UniqueLabels) : (Op.run MayWarn ar ops obj).1.UniqueLabels := by
  induction ops generalizing obj with
  | nil => simpa [Op.run] using h
  | cons op rest ih =>
    simp only [Op.run]
    exact ih _ (Op.apply_UniqueLabels MayWarn ar obj op h)

/-- C10. Label uniqueness invariant: in every Object state reached from a freshly constructed
Object by any sequence of calls of the consumer API (GenerateByte, SetPos, DefineLabel with or
without a value, UndefineLabel, AddExtern, StartScope, EndScope, segment selection,
CloseSegments), each label name is present in at most one (segment, scope level) pair; in
particular a name present at one scope level in two segments is present in the same
segment. -/
theorem Object.reachable_UniqueLabels (MayWarn : String → Bool) (already_reprocessed : Bool)
    (ops : List Op) :
    (∀ (name : Str) (s1 s2 : SegmentSelection) (l1 l2 v1 v2 : Nat),
      ((Op.run MayWarn already_reprocessed ops Object.new).1.seg s1).FindLabelAt name l1 =
        some v1 →
      ((Op.run MayWarn already_reprocessed ops Object.new).1.seg s2).FindLabelAt name l2 =
        some v2 →
      s1 = s2 ∧ l1 = l2) ∧
    (∀ (name : Str) (s1 s2 : SegmentSelection) (l v1 v2 : Nat),
      ((Op.run MayWarn already_reprocessed ops Object.new).1.seg s1).FindLabelAt name l =
        some v1 →
      ((Op.run MayWarn already_reprocessed ops Object.new).1.seg s2).FindLabelAt name l =
        some v2 →
      s1 = s2) := by
  have hnew : Object.new.UniqueLabels := by
    intro name s1 s2 l1 l2 v1 v2 h1 h2
    cases s1 <;> simp [Object.new, Object.seg, Segment.new, Segment.FindLabelAt,
      StdMap.find] at h1
  have h := Op.run_UniqueLabels MayWarn already_reprocessed ops Object.new hnew
  exact ⟨h, fun name s1 s2 l v1 v2 h1 h2 => (h name s1 s2 l l v1 v2 h1 h2).1⟩

/-! ## Position advance -/

theorem Segment.AddByte_GetByte (seg : Segment) (b x : Nat) :
    (seg.AddByte b).GetByte x = if x = seg.Position then b else seg.GetByte x := by
  by_cases h : x = seg.Position
  · subst h
    simp [Segment.AddByte, Segment.GetByte, DataArea.GetByte, DataArea.WriteByte,
      StdMap.find_set_self]
  · simp [Segment.AddByte, Segment.GetByte, DataArea.GetByte, DataArea.WriteByte,
      StdMap.find_set_ne _ _ _ _ h, h]

theorem Segment.AddBytes_spec (bs : List Nat) (seg : Segment)
    (h : seg.Position + bs.length < 4294967296) :
    (bs.foldl Segment.AddByte seg).Position = seg.Position + bs.length ∧
    (∀ i b, bs[i]? = some b → (bs.foldl Segment.AddByte seg).GetByte (seg.Position + i) = b) ∧
    (∀ x, x < seg.Position → (bs.foldl Segment.AddByte seg).GetByte x = seg.GetByte x) := by
  induction bs generalizing seg with
  | nil => simp
  | cons b rest ih =>
    have hp : (seg.AddByte b).Position = seg.Position + 1 := by
      simp only [Segment.AddByte, u32]
      simp only [List.length_cons] at h
      omega
    have hlen : (seg.AddByte b).Position + rest.length < 4294967296 := by
      rw [hp]
      simp only [List.length_cons] at h
      omega
    obtain ⟨h1, h2, h3⟩ := ih (seg.AddByte b) hlen
    simp only [List.foldl_cons]
    refine ⟨?_, ?_, ?_⟩
    · rw [h1, hp, List.length_cons]
      omega
    · intro i c hic
      cases i with
      | zero =>
        simp only [List.getElem?_cons_zero, Option.some.injEq] at hic
        subst hic
        rw [Nat.add_zero, h3 seg.Position (by rw [hp]; omega), Segment.AddByte_GetByte]
        simp
      | succ j =>
        simp only [List.getElem?_cons_succ] at hic
        have := h2 j c hic
        rw [hp] at this
        rw [← this]
        congr 1
        omega
    · intro x hx
      rw [h3 x (by rw [hp]; omega), Segment.AddByte_GetByte]
      simp [Nat.ne_of_lt hx]

theorem Object.setSeg_CurSegment (obj : Object) (sel : SegmentSelection) (s : Segment) :
    (obj.setSeg sel s).CurSegment = obj.CurSegment := by
  cases sel <;> rfl

theorem Object.setSeg_CurScope (obj : Object) (sel : SegmentSelection) (s : Segment) :
    (obj.setSeg sel s).CurScope = obj.CurScope := by
  cases sel <;> rfl

theorem Object.setSeg_setSeg (obj : Object) (sel : SegmentSelection) (s1 s2 : Segment) :
    (obj.setSeg sel s1).setSeg sel s2 = obj.setSeg sel s2 := by
  cases sel <;> rfl

theorem Object.GenerateBytes_eq (bs : List Nat) (obj : Object) :
    obj.GenerateBytes bs = obj.setSeg obj.CurSegment (bs.foldl Segment.AddByte obj.GetSeg) := by
  unfold Object.GenerateBytes
  induction bs generalizing obj with
  | nil =>
    simp only [List.foldl_nil, Object.GetSeg]
    cases obj with
    | mk c d z b cs sel l => cases sel <;> rfl
  | cons b rest ih =>
    simp only [List.foldl_cons]
    rw [ih]
    have h1 : (obj.GenerateByte b).CurSegment = obj.CurSegment :=
      Object.setSeg_CurSegment _ _ _
    have h2 : (obj.GenerateByte b).GetSeg = obj.GetSeg.AddByte b := by
      unfold Object.GetSeg
      rw [h1]
      unfold Object.GenerateByte
      rw [Object.seg_setSeg]
      simp [Object.GetSeg]
    rw [h1, h2]
    unfold Object.GenerateByte
    rw [Object.setSeg_setSeg]

/-- C12. Position advance: for every Object state with current-segment position `P` and every
byte sequence `bs` of length `N` with `P + N < 2^32`, after `GenerateByte` on each element of
`bs` in order, `GetPos() = P + N`, the current segment's stored byte at `P + i` is `bs[i]` for
every `i < N`, the current segment is still selected, and the three other segments are
unchanged (positions, data and everything else). -/
theorem Object.GenerateBytes_advances (obj : Object) (bs : List Nat)
    (h : obj.GetPos + bs.length < 4294967296) :
    (obj.GenerateBytes bs).GetPos = obj.GetPos + bs.length ∧
    (∀ i b, bs[i]? = some b → (obj.GenerateBytes bs).GetSeg.GetByte (obj.GetPos + i) = b) ∧
    (obj.GenerateBytes bs).CurSegment = obj.CurSegment ∧
    (∀ sel, sel ≠ obj.CurSegment → (obj.GenerateBytes bs).seg sel = obj.seg sel) := by
  obtain ⟨h1, h2, _⟩ := Segment.AddBytes_spec bs obj.GetSeg h
  have hcur : (obj.GenerateBytes bs).CurSegment = obj.CurSegment := by
    rw [Object.GenerateBytes_eq]
    exact Object.setSeg_CurSegment _ _ _
  have hseg : (obj.GenerateBytes bs).GetSeg = bs.foldl Segment.AddByte obj.GetSeg := by
    unfold Object.GetSeg
    rw [hcur, Object.GenerateBytes_eq, Object.seg_setSeg]
    simp [Object.GetSeg]
  refine ⟨?_, ?_, hcur, ?_⟩
  · simp only [Object.GetPos, Segment.GetPos, hseg]
    exact h1
  · intro i b hib
    rw [hseg]
    exact h2 i b hib
  · intro sel hsel
    rw [Object.GenerateBytes_eq, Object.seg_setSeg]
    simp [hsel]

/-- C12, witness: three bytes generated into a fresh Object. -/
theorem Object.GenerateBytes_advances_witness :
    Object.new.GetPos + [1, 2, 3].length < 4294967296 ∧
    ((Object.new.GenerateBytes [1, 2, 3]).GetPos = Object.new.GetPos + [1, 2, 3].length ∧
    (∀ i b, [1, 2, 3][i]? = some b →
      (Object.new.GenerateBytes [1, 2, 3]).GetSeg.GetByte (Object.new.GetPos + i) = b) ∧
    (Object.new.GenerateBytes [1, 2, 3]).CurSegment = Object.new.CurSegment ∧
    (∀ sel, sel ≠ Object.new.CurSegment →
      (Object.new.GenerateBytes [1, 2, 3]).seg sel = Object.new.seg sel)) :=
  ⟨by decide, Object.GenerateBytes_advances Object.new [1, 2, 3] (by decide)⟩

/-! ## Scope exit symmetry -/

theorem Object.EndScope_CurScope (MayWarn : String → Bool) (obj : Object) :
    (obj.EndScope MayWarn).1.CurScope = u32 (obj.CurScope - 1) := by
  unfold Object.EndScope
  by_cases h0 : obj.CurScope > 0 <;> by_cases h1 : obj.CurScope > 1 <;> simp [h0, h1]

theorem Object.EndScope_FindLabelAt (MayWarn : String → Bool) (obj : Object)
    (sel : SegmentSelection) (name : Str) (L : Nat) :
    ((obj.EndScope MayWarn).1.seg sel).FindLabelAt name L =
      if 1 < obj.CurScope ∧ L = u32 (obj.CurScope - 1) then none
      else (obj.seg sel).FindLabelAt name L := by
  unfold Object.EndScope
  by_cases h1 : obj.CurScope > 1
  · have h0 : obj.CurScope > 0 := by omega
    cases sel <;>
      simp only [h0, h1, if_true, Object.seg, Segment.FindLabelAt_ClearLabels, true_and] <;>
      (split
       · rfl
       · simp [Segment.FindLabelAt, Segment.CheckExterns_labels])
  · have h1' : ¬ 1 < obj.CurScope := h1
    by_cases h0 : obj.CurScope > 0 <;> cases sel <;>
      simp [h0, h1, h1', Object.seg, Segment.FindLabelAt, Segment.CheckExterns_labels]

theorem Object.DefineLabel_CurScope (obj : Object) (label : Str) (value : Nat) :
    (obj.DefineLabel label value).1.CurScope = obj.CurScope := by
  unfold Object.DefineLabel
  by_cases h : obj.FindLabel (Object.DefineLabel.sigils obj.CurScope label).1 = true
  · simp [h]
  · simp only [h, Bool.false_eq_true, if_false]
    exact Object.setSeg_CurScope _ _ _

theorem Op.apply_CurScope (MayWarn : String → Bool) (ar : Bool) (obj : Object) (op : Op) :
    (Op.apply MayWarn ar obj op).1.CurScope =
      match op with
      | .StartScope => u32 (obj.CurScope + 1)
      | .EndScope => u32 (obj.CurScope - 1)
      | _ => obj.CurScope := by
  cases op with
  | GenerateByte b => exact Object.setSeg_CurScope _ _ _
  | SetPos p => exact Object.setSeg_CurScope _ _ _
  | DefineLabel l => exact Object.DefineLabel_CurScope _ _ _
  | DefineLabelAt l v => exact Object.DefineLabel_CurScope _ _ _
  | UndefineLabel l => rfl
  | AddExtern k r v => exact Object.setSeg_CurScope _ _ _
  | StartScope => rfl
  | EndScope => exact Object.EndScope_CurScope MayWarn obj
  | SelectSegment s => rfl
  | CloseSegments => rfl

theorem Op.run_balanced_CurScope (MayWarn : String → Bool) (ar : Bool) (ops : List Op)
    (d : Nat) (obj : Object) (hb : Op.balanced d ops = true)
    (hc : obj.CurScope < 4294967296) :
    (Op.run MayWarn ar ops obj).1.CurScope = u32 (obj.CurScope - d) := by
  induction ops generalizing d obj with
  | nil =>
    simp only [Op.balanced, beq_iff_eq] at hb
    subst hb
    simp only [Op.run, u32]
    omega
  | cons op rest ih =>
    simp only [Op.run]
    have hcs := Op.apply_CurScope MayWarn ar obj op
    cases op with
    | StartScope =>
      simp only at hcs
      simp only [Op.balanced] at hb
      rw [ih (d + 1) _ hb (by rw [hcs]; unfold u32; omega), hcs]
      unfold u32
      omega
    | EndScope =>
      simp only at hcs
      cases d with
      | zero => simp [Op.balanced] at hb
      | succ d' =>
        simp only [Op.balanced] at hb
        rw [ih d' _ hb (by rw [hcs]; unfold u32; omega), hcs]
        unfold u32
        omega
    | GenerateByte b =>
      simp only at hcs
      simp only [Op.balanced] at hb
      rw [ih d _ hb (by rw [hcs]; exact hc), hcs]
    | SetPos p =>
      simp only at hcs
      simp only [Op.balanced] at hb
      rw [ih d _ hb (by rw [hcs]; exact hc), hcs]
    | DefineLabel l =>
      simp only at hcs
      simp only [Op.balanced] at hb
      rw [ih d _ hb (by rw [hcs]; exact hc), hcs]
    | DefineLabelAt l v =>
      simp only at hcs
      simp only [Op.balanced] at hb
      rw [ih d _ hb (by rw [hcs]; exact hc), hcs]
    | UndefineLabel l =>
      simp only at hcs
      simp only [Op.balanced] at hb
      rw [ih d _ hb (by rw [hcs]; exact hc), hcs]
    | AddExtern k r v =>
      simp only at hcs
      simp only [Op.balanced] at hb
      rw [ih d _ hb (by rw [hcs]; exact hc), hcs]
    | SelectSegment s =>
      simp only at hcs
      simp only [Op.balanced] at hb
      rw [ih d _ hb (by rw [hcs]; exact hc), hcs]
    | CloseSegments =>
      simp only at hcs
      simp only [Op.balanced] at hb
      rw [ih d _ hb (by rw [hcs]; exact hc), hcs]

theorem Segment.FindLabelAt_of_labels_eq (s1 s2 : Segment) (h : s1.labels = s2.labels)
    (name : Str) (L : Nat) : s1.FindLabelAt name L = s2.FindLabelAt name L := by
  simp [Segment.FindLabelAt, h]

theorem Object.DefineLabel_FindLabelAt_present (obj : Object) (label : Str) (value : Nat)
    (x : Str) (hx : obj.FindLabel x = true) (sel : SegmentSelection) (L : Nat) :
    ((obj.DefineLabel label value).1.seg sel).FindLabelAt x L =
      (obj.seg sel).FindLabelAt x L := by
  unfold Object.DefineLabel
  by_cases hf : obj.FindLabel (Object.DefineLabel.sigils obj.CurScope label).1 = true
  · simp [hf]
  · simp only [hf, Bool.false_eq_true, if_false]
    have hne : x ≠ (Object.DefineLabel.sigils obj.CurScope label).1 := by
      intro he
      rw [← he] at hf
      exact hf hx
    rw [Object.seg_setSeg]
    by_cases hs : sel = obj.CurSegment
    · subst hs
      simp only [if_true, Segment.FindLabelAt_DefineLabel, hne, if_false, ite_self]
      rfl
    · simp [hs]

theorem Op.apply_FindLabelAt_OnlyAt (MayWarn : String → Bool) (ar : Bool) (obj : Object)
    (op : Op) (x : Str) (s0 : SegmentSelection) (L0 : Nat) (h : obj.OnlyAt x s0 L0)
    (hu : op.isUndefine = false)
    (he : op = .EndScope → ¬ (1 < obj.CurScope ∧ L0 = u32 (obj.CurScope - 1)))
    (sel : SegmentSelection) (L : Nat) :
    ((Op.apply MayWarn ar obj op).1.seg sel).FindLabelAt x L =
      (obj.seg sel).FindLabelAt x L := by
  obtain ⟨⟨v, hv⟩, hnone⟩ := h
  have hfound := Object.FindLabel_of_FindLabelAt obj x s0 L0 v hv
  cases op with
  | GenerateByte b =>
    apply Segment.FindLabelAt_of_labels_eq
    exact Object.setSeg_labels_eq obj obj.CurSegment (obj.GetSeg.AddByte b) rfl sel
  | SetPos p =>
    apply Segment.FindLabelAt_of_labels_eq
    exact Object.setSeg_labels_eq obj obj.CurSegment (obj.GetSeg.SetPos p) rfl sel
  | DefineLabel l => exact Object.DefineLabel_FindLabelAt_present obj l _ x hfound sel L
  | DefineLabelAt l v' => exact Object.DefineLabel_FindLabelAt_present obj l v' x hfound sel L
  | UndefineLabel l => simp [Op.isUndefine] at hu
  | AddExtern k r v' =>
    apply Segment.FindLabelAt_of_labels_eq
    exact Object.setSeg_labels_eq obj obj.CurSegment (obj.GetSeg.AddExtern k r v' obj.CurScope) rfl sel
  | StartScope => cases sel <;> rfl
  | EndScope =>
    simp only [Op.apply]
    rw [Object.EndScope_FindLabelAt]
    split
    · rename_i hc
      have hL : L ≠ L0 := by
        intro hLL
        exact he rfl ⟨hc.1, hLL ▸ hc.2⟩
      exact (hnone sel L (Or.inr hL)).symm
    · rfl
  | SelectSegment s' => cases sel <;> rfl
  | CloseSegments =>
    apply Segment.FindLabelAt_of_labels_eq
    cases sel <;> simp [Op.apply, Object.CloseSegments, Object.seg, Segment.CloseSegment_labels]

theorem Object.OnlyAt_of_FindLabelAt_eq (o o' : Object) (x : Str) (s0 : SegmentSelection)
    (L0 : Nat) (h : o.OnlyAt x s0 L0)
    (heq : ∀ sel L, (o'.seg sel).FindLabelAt x L = (o.seg sel).FindLabelAt x L) :
    o'.OnlyAt x s0 L0 := by
  obtain ⟨⟨v, hv⟩, hnone⟩ := h
  refine ⟨⟨v, by rw [heq]; exact hv⟩, ?_⟩
  intro sel L hsl
  rw [heq]
  exact hnone sel L hsl

theorem Op.run_nested_OnlyAt (MayWarn : String → Bool) (ar : Bool) (mid : List Op)
    (x : Str) (s0 : SegmentSelection) (c d : Nat) (obj : Object)
    (hb : Op.balanced d mid = true) (hc : 2 ≤ c) (hcur : obj.CurScope = c + d)
    (hlen : c + d + mid.length < 4294967296)
    (hu : ∀ op ∈ mid, op.isUndefine = false) (h : obj.OnlyAt x s0 (c - 1)) :
    (Op.run MayWarn ar mid obj).1.OnlyAt x s0 (c - 1) ∧
    (Op.run MayWarn ar mid obj).1.CurScope = c := by
  induction mid generalizing d obj with
  | nil =>
    simp only [Op.balanced, beq_iff_eq] at hb
    subst hb
    exact ⟨h, hcur⟩
  | cons op rest ih =>
    simp only [Op.run]
    simp only [List.length_cons] at hlen
    have hu' : ∀ op' ∈ rest, op'.isUndefine = false :=
      fun op' hop => hu op' (List.mem_cons_of_mem _ hop)
    have hcs := Op.apply_CurScope MayWarn ar obj op
    have hstep : ∀ (hnot : op = .EndScope → 0 < d),
        (Op.apply MayWarn ar obj op).1.OnlyAt x s0 (c - 1) := by
      intro hnot
      apply Object.OnlyAt_of_FindLabelAt_eq obj _ x s0 (c - 1) h
      intro sel L
      apply Op.apply_FindLabelAt_OnlyAt MayWarn ar obj op x s0 (c - 1) h
        (hu op (List.mem_cons_self _ _))
      intro hop
      have hd := hnot hop
      rw [hcur]
      unfold u32
      omega
    cases op with
    | StartScope =>
      simp only at hcs
      simp only [Op.balanced] at hb
      exact ih (d + 1) _ hb (by rw [hcs, hcur]; unfold u32; omega) (by omega)
        hu' (hstep (fun hop => by cases hop))
    | EndScope =>
      simp only at hcs
      cases d with
      | zero => simp [Op.balanced] at hb
      | succ d' =>
        simp only [Op.balanced] at hb
        exact ih d' _ hb (by rw [hcs, hcur]; unfold u32; omega) (by omega)
          hu' (hstep (fun _ => Nat.succ_pos d'))
    | GenerateByte b =>
      simp only at hcs
      simp only [Op.balanced] at hb
      exact ih d _ hb (by rw [hcs, hcur]) (by omega) hu' (hstep (fun hop => by cases hop))
    | SetPos p =>
      simp only at hcs
      simp only [Op.balanced] at hb
      exact ih d _ hb (by rw [hcs, hcur]) (by omega) hu' (hstep (fun hop => by cases hop))
    | DefineLabel l =>
      simp only at hcs
      simp only [Op.balanced] at hb
      exact ih d _ hb (by rw [hcs, hcur]) (by omega) hu' (hstep (fun hop => by cases hop))
    | DefineLabelAt l v =>
      simp only at hcs
      simp only [Op.balanced] at hb
      exact ih d _ hb (by rw [hcs, hcur]) (by omega) hu' (hstep (fun hop => by cases hop))
    | UndefineLabel l =>
      have := hu (.UndefineLabel l) (List.mem_cons_self _ _)
      simp [Op.isUndefine] at this
    | AddExtern k r v =>
      simp only at hcs
      simp only [Op.balanced] at hb
      exact ih d _ hb (by rw [hcs, hcur]) (by omega) hu' (hstep (fun hop => by cases hop))
    | SelectSegment s =>
      simp only at hcs
      simp only [Op.balanced] at hb
      exact ih d _ hb (by rw [hcs, hcur]) (by omega) hu' (hstep (fun hop => by cases hop))
    | CloseSegments =>
      simp only at hcs
      simp only [Op.balanced] at hb
      exact ih d _ hb (by rw [hcs, hcur]) (by omega) hu' (hstep (fun hop => by cases hop))

theorem Object.DefineLabel.sigils_plain (c : Nat) (x : Str) (hp : x.head? ≠ some '+')
    (ha : x.head? ≠ some '&') : Object.DefineLabel.sigils c x = (x, u32 (c - 1)) := by
  cases x with
  | nil => simp [Object.DefineLabel.sigils, Object.DefineLabel.climb]
  | cons ch rest =>
    simp only [List.head?_cons, ne_eq, Option.some.injEq] at hp ha
    rw [Object.DefineLabel.sigils]
    · rw [Object.DefineLabel.climb]
      intro rest' heq
      simp at heq
      exact ha heq.1
    · intro rest' heq
      simp at heq
      exact hp heq.1

theorem Object.DefineLabel_OnlyAt (obj : Object) (x : Str) (v : Nat)
    (hp : x.head? ≠ some '+') (ha : x.head? ≠ some '&') (hf : obj.FindLabel x = false)
    (hc : 1 ≤ obj.CurScope) (hc2 : obj.CurScope < 4294967296) :
    (obj.DefineLabel x v).1.OnlyAt x obj.CurSegment (obj.CurScope - 1) := by
  have hs := Object.DefineLabel.sigils_plain obj.CurScope x hp ha
  have hlev : u32 ((obj.CurScope : Int) - 1) = obj.CurScope - 1 := by
    unfold u32
    omega
  have hnone := Object.FindLabelAt_none_of_FindLabel_false obj x hf
  unfold Object.DefineLabel
  simp only [hs, hf, Bool.false_eq_true, if_false, hlev]
  constructor
  · refine ⟨v, ?_⟩
    rw [Object.seg_setSeg]
    simp [Segment.FindLabelAt_DefineLabel]
  · intro sel L hsl
    rw [Object.seg_setSeg]
    by_cases hsel : sel = obj.CurSegment
    · subst hsel
      have hL : L ≠ obj.CurScope - 1 := by
        rcases hsl with h | h
        · exact absurd rfl h
        · exact h
      simp only [if_true, Segment.FindLabelAt_DefineLabel, hL, if_false]
      exact hnone _ L
    · simp only [hsel, if_false]
      exact hnone sel L

theorem Op.run_append (MayWarn : String → Bool) (ar : Bool) (a b : List Op) (obj : Object) :
    (Op.run MayWarn ar (a ++ b) obj).1 =
      (Op.run MayWarn ar b (Op.run MayWarn ar a obj).1).1 := by
  induction a generalizing obj with
  | nil => simp [Op.run]
  | cons op rest ih => simp [Op.run, ih]

theorem Op.run_scope_clears (MayWarn : String → Bool) (ar : Bool) (obj : Object) (x : Str)
    (v : Nat) (mid : List Op)
    (hp : x.head? ≠ some '+') (ha : x.head? ≠ some '&') (hf : obj.FindLabel x = false)
    (hc : 2 ≤ obj.CurScope) (hlen : obj.CurScope + mid.length < 4294967296)
    (hb : Op.balanced 0 mid = true) (hu : ∀ op ∈ mid, op.isUndefine = false)
    (sel : SegmentSelection) (L : Nat) :
    ((Op.run MayWarn ar (mid ++ [.EndScope]) (obj.DefineLabel x v).1).1.seg sel).FindLabelAt
      x L = none := by
  have h0 := Object.DefineLabel_OnlyAt obj x v hp ha hf (by omega) (by omega)
  have hcs := Object.DefineLabel_CurScope obj x v
  obtain ⟨h1, h2⟩ := Op.run_nested_OnlyAt MayWarn ar mid x obj.CurSegment obj.CurScope 0
    (obj.DefineLabel x v).1 hb hc (by rw [hcs]; rfl) (by omega) hu h0
  rw [Op.run_append]
  simp only [Op.run, Op.apply]
  rw [Object.EndScope_FindLabelAt, h2]
  split
  · rfl
  · rename_i hcond
    apply h1.2 sel L
    right
    intro hL
    apply hcond
    refine ⟨by omega, ?_⟩
    rw [hL]
    unfold u32
    omega

/-- C11. Scope exit symmetry.  (1) After a balanced sequence of `StartScope`/`EndScope` calls
(interleaved with any other calls) started at `CurScope = 0`, `CurScope` is 0.  (2) A label
defined with neither `+` nor `&` while `CurScope >= 2` (and not dropped as a redefinition) is
stored at level `CurScope-1` of the current segment, and once the balanced calls of its
scope (nesting below `2^32`, no `UndefineLabel`) and the matching `EndScope` have run, no
segment holds the name at any level.  (3) A label stored at level 0 is still present with
the same value after any `EndScope`. -/
theorem Op.run_scope_exit_symmetry :
    (∀ (MayWarn : String → Bool) (ar : Bool) (ops : List Op) (obj : Object),
      obj.CurScope = 0 → Op.balanced 0 ops = true →
      (Op.run MayWarn ar ops obj).1.CurScope = 0) ∧
    (∀ (MayWarn : String → Bool) (ar : Bool) (obj : Object) (x : Str) (v : Nat)
      (mid : List Op) (defop : Op),
      defop = .DefineLabel x ∨ defop = .DefineLabelAt x v →
      x.head? ≠ some '+' → x.head? ≠ some '&' → obj.FindLabel x = false →
      2 ≤ obj.CurScope → obj.CurScope + mid.length < 4294967296 →
      Op.balanced 0 mid = true → (∀ op ∈ mid, op.isUndefine = false) →
      (∃ val, ((Op.apply MayWarn ar obj defop).1.seg obj.CurSegment).FindLabelAt x
        (obj.CurScope - 1) = some val) ∧
      ∀ sel L, ((Op.run MayWarn ar (defop :: (mid ++ [.EndScope])) obj).1.seg sel).FindLabelAt
        x L = none) ∧
    (∀ (MayWarn : String → Bool) (obj : Object) (sel : SegmentSelection) (name : Str)
      (v : Nat), obj.CurScope < 4294967296 →
      (obj.seg sel).FindLabelAt name 0 = some v →
      ((obj.EndScope MayWarn).1.seg sel).FindLabelAt name 0 = some v) := by
  refine ⟨?_, ?_, ?_⟩
  · intro MayWarn ar ops obj h0 hb
    rw [Op.run_balanced_CurScope MayWarn ar ops 0 obj hb (by omega), h0]
    rfl
  · intro MayWarn ar obj x v mid defop hdef hp ha hf hc hlen hb hu
    have key : ∀ w, (∃ val, ((obj.DefineLabel x w).1.seg obj.CurSegment).FindLabelAt x
          (obj.CurScope - 1) = some val) ∧
        ∀ sel L, ((Op.run MayWarn ar (mid ++ [.EndScope])
          (obj.DefineLabel x w).1).1.seg sel).FindLabelAt x L = none := by
      intro w
      exact ⟨(Object.DefineLabel_OnlyAt obj x w hp ha hf (by omega) (by omega)).1,
        fun sel L => Op.run_scope_clears MayWarn ar obj x w mid hp ha hf hc hlen hb hu sel L⟩
    rcases hdef with h | h
    · subst h
      simp only [Op.run, Op.apply, Object.DefineLabelHere]
      exact key obj.GetPos
    · subst h
      simp only [Op.run, Op.apply]
      exact key v
  · intro MayWarn obj sel name v hc hv
    rw [Object.EndScope_FindLabelAt, if_neg]
    · exact hv
    · intro hcond
      have := hcond.2
      unfold u32 at this
      omega

/-- C11, witness: inside two open scopes `x` is defined, an inner scope with a label `y` is
opened and closed, and the scope of `x` is closed. -/
theorem Op.run_scope_exit_symmetry_witness :
    (twoScopesOpen.FindLabel ['x'] = false ∧ 2 ≤ twoScopesOpen.CurScope ∧
      Op.balanced 0 [.StartScope, .DefineLabel ['y'], .EndScope] = true) ∧
    ((∃ val, ((Op.apply warnAll false twoScopesOpen (.DefineLabel ['x'])).1.seg
        twoScopesOpen.CurSegment).FindLabelAt ['x'] (twoScopesOpen.CurScope - 1) = some val) ∧
      ∀ sel L, ((Op.run warnAll false
        (.DefineLabel ['x'] :: ([.StartScope, .DefineLabel ['y'], .EndScope] ++ [.EndScope]))
        twoScopesOpen).1.seg sel).FindLabelAt ['x'] L = none) ∧
    (Op.run warnAll false [.StartScope, .StartScope, .EndScope, .EndScope]
      Object.new).1.CurScope = 0 :=
  ⟨⟨by decide, by decide, by decide⟩,
   Op.run_scope_exit_symmetry.2.1 warnAll false twoScopesOpen ['x'] 0
     [.StartScope, .DefineLabel ['y'], .EndScope] (.DefineLabel ['x']) (Or.inl rfl)
     (by decide) (by decide) (by decide) (by decide) (by decide) (by decide) (by decide),
   Op.run_scope_exit_symmetry.1 warnAll false [.StartScope, .StartScope, .EndScope, .EndScope]
     Object.new rfl (by decide)⟩

/-! ## Undefined symbols -/

theorem BuildReloc_eq (seg : Segment) (syms : Unresolved) :
    BuildReloc seg syms = seg.relocNames.foldl Unresolved.Add syms := by
  simp [BuildReloc, Segment.relocNames, List.foldl_append, List.foldl_map]

theorem Object.WriteO65.externs_eq (obj : Object) :
    Object.WriteO65.externs obj = obj.relocNames.foldl Unresolved.Add Unresolved.new := by
  simp [Object.WriteO65.externs, Object.relocNames, BuildReloc_eq, List.foldl_append]

theorem Unresolved.Inv_new : Unresolved.new.Inv := by
  constructor
  · exact List.nodup_nil
  · intro name i
    simp [Unresolved.new, StdMap.find]

theorem Unresolved.Add_mem (u : Unresolved) (hinv : u.Inv) (name a : Str) :
    a ∈ (u.Add name).num2str ↔ a ∈ u.num2str ∨ a = name := by
  unfold Unresolved.Add
  cases hf : StdMap.find u.str2num name with
  | some i =>
    simp only [Option.isSome_some, if_true]
    constructor
    · exact Or.inl
    · rintro (h | h)
      · exact h
      · subst h
        exact List.getElem?_mem ((hinv.2 a i).mp hf)
  | none => simp

theorem Unresolved.Add_Inv (u : Unresolved) (hinv : u.Inv) (name : Str)
    (hlen : (u.Add name).num2str.length ≤ 4294967296) : (u.Add name).Inv := by
  unfold Unresolved.Add at hlen ⊢
  cases hf : StdMap.find u.str2num name with
  | some i => simpa using hinv
  | none =>
    simp only [hf, Option.isSome_none, Bool.false_eq_true, if_false, List.length_append,
      List.length_singleton] at hlen
    simp only [Option.isSome_none, Bool.false_eq_true, if_false]
    have hnot : name ∉ u.num2str := by
      intro hmem
      obtain ⟨i, hi⟩ := List.getElem?_of_mem hmem
      rw [(hinv.2 name i).mpr hi] at hf
      exact absurd hf (by simp)
    have hu : u32 (u.num2str.length : Int) = u.num2str.length := by
      unfold u32
      omega
    constructor
    · rw [List.nodup_append]
      refine ⟨hinv.1, List.nodup_singleton _, ?_⟩
      intro a ha hb
      simp only [List.mem_singleton] at hb
      subst hb
      exact hnot ha
    · intro name' i
      simp only [hu]
      by_cases hn : name' = name
      · subst hn
        rw [StdMap.find_set_self]
        constructor
        · intro h
          simp only [Option.some.injEq] at h
          subst h
          exact List.getElem?_concat_length _ _
        · intro h
          by_cases hi : i < u.num2str.length
          · rw [List.getElem?_append_left hi] at h
            exact absurd (List.getElem?_mem h) hnot
          · rw [List.getElem?_append_right (by omega)] at h
            cases hd : i - u.num2str.length with
            | zero =>
              have : i = u.num2str.length := by omega
              rw [this]
            | succ k => simp [hd] at h
      · rw [StdMap.find_set_ne _ _ _ _ hn, hinv.2 name' i]
        by_cases hi : i < u.num2str.length
        · rw [List.getElem?_append_left hi]
        · rw [List.getElem?_append_right (by omega), List.getElem?_eq_none (by omega)]
          cases hd : i - u.num2str.length with
          | zero => simp [Ne.symm hn]
          | succ k => simp

theorem Unresolved.Add_length (u : Unresolved) (name : Str) :
    (u.Add name).num2str.length ≤ u.num2str.length + 1 := by
  unfold Unresolved.Add
  split <;> simp

theorem firstIndex_append_of_mem (a : Str) (l1 l2 : List Str) (h : a ∈ l1) :
    firstIndex a (l1 ++ l2) = firstIndex a l1 := by
  induction l1 with
  | nil => simp at h
  | cons b l ih =>
    by_cases hab : a = b
    · simp [firstIndex, hab]
    · have : a ∈ l := by
        rcases List.mem_cons.mp h with h1 | h1
        · exact absurd h1 hab
        · exact h1
      simp [firstIndex, hab, ih this]

theorem firstIndex_append_of_not_mem (a : Str) (l1 l2 : List Str) (h : a ∉ l1) :
    firstIndex a (l1 ++ l2) = l1.length + firstIndex a l2 := by
  induction l1 with
  | nil => simp
  | cons b l ih =>
    have hab : a ≠ b := fun e => h (e ▸ List.mem_cons_self _ _)
    have hl : a ∉ l := fun e => h (List.mem_cons_of_mem _ e)
    simp [firstIndex, hab, ih hl]
    omega

theorem firstIndex_lt_length (a : Str) (l : List Str) (h : a ∈ l) :
    firstIndex a l < l.length := by
  induction l with
  | nil => simp at h
  | cons b l ih =>
    by_cases hab : a = b
    · simp [firstIndex, hab]
    · have : a ∈ l := by
        rcases List.mem_cons.mp h with h1 | h1
        · exact absurd h1 hab
        · exact h1
      simp [firstIndex, hab]
      exact ih this

theorem Unresolved.Add_length_ge (u : Unresolved) (name : Str) :
    u.num2str.length ≤ (u.Add name).num2str.length := by
  unfold Unresolved.Add
  split <;> simp

theorem Unresolved.foldl_Add_spec (P : List Str)
    (hP : (P.foldl Unresolved.Add Unresolved.new).num2str.length ≤ 4294967296) :
    (P.foldl Unresolved.Add Unresolved.new).Inv ∧
    (∀ a, a ∈ (P.foldl Unresolved.Add Unresolved.new).num2str ↔ a ∈ P) ∧
    (P.foldl Unresolved.Add Unresolved.new).num2str.Pairwise
      (fun a b => firstIndex a P < firstIndex b P) ∧
    (P.foldl Unresolved.Add Unresolved.new).num2str.length ≤ P.length := by
  induction P using List.reverseRecOn with
  | nil =>
    exact ⟨Unresolved.Inv_new, by simp [Unresolved.new], by simp [Unresolved.new],
      by simp [Unresolved.new]⟩
  | append_singleton P n ih =>
    simp only [List.foldl_append, List.foldl_cons, List.foldl_nil] at hP ⊢
    have hge := Unresolved.Add_length_ge (P.foldl Unresolved.Add Unresolved.new) n
    obtain ⟨hinv, hmem, hord, hlen⟩ := ih (by omega)
    generalize P.foldl Unresolved.Add Unresolved.new = U at hinv hmem hord hlen hP hge ⊢
    refine ⟨Unresolved.Add_Inv _ hinv n hP, ?_, ?_, ?_⟩
    · intro a
      rw [Unresolved.Add_mem _ hinv, hmem]
      simp
    · unfold Unresolved.Add
      cases hf : StdMap.find U.str2num n with
      | some i =>
        simp only [Option.isSome_some, if_true]
        refine hord.imp_of_mem ?_
        intro a b ha hb hab
        rw [firstIndex_append_of_mem a P [n] ((hmem a).mp ha),
          firstIndex_append_of_mem b P [n] ((hmem b).mp hb)]
        exact hab
      | none =>
        simp only [Option.isSome_none, Bool.false_eq_true, if_false]
        have hnot : n ∉ P := by
          intro hin
          obtain ⟨i, hi⟩ := List.getElem?_of_mem ((hmem n).mpr hin)
          rw [(hinv.2 n i).mpr hi] at hf
          exact absurd hf (by simp)
        rw [List.pairwise_append]
        refine ⟨?_, List.pairwise_singleton _ _, ?_⟩
        · refine hord.imp_of_mem ?_
          intro a b ha hb hab
          rw [firstIndex_append_of_mem a P [n] ((hmem a).mp ha),
            firstIndex_append_of_mem b P [n] ((hmem b).mp hb)]
          exact hab
        · intro a ha b hb
          simp only [List.mem_singleton] at hb
          subst hb
          rw [firstIndex_append_of_mem a P [b] ((hmem a).mp ha),
            firstIndex_append_of_not_mem b P [b] hnot]
          have := firstIndex_lt_length a P ((hmem a).mp ha)
          omega
    · have := Unresolved.Add_length U n
      simp only [List.length_append, List.length_singleton]
      omega

theorem Unresolved.foldl_Add_length (P : List Str) (u : Unresolved) :
    (P.foldl Unresolved.Add u).num2str.length ≤ u.num2str.length + P.length := by
  induction P generalizing u with
  | nil => simp
  | cons n rest ih =>
    simp only [List.foldl_cons, List.length_cons]
    have h1 := ih (u.Add n)
    have h2 := Unresolved.Add_length u n
    omega

/-! ## The relocation table of `PutReloc` -/

theorem StdMap.setAll_append (m : RelocMap) (a b : List (Nat × List Nat)) :
    StdMap.setAll m (a ++ b) = StdMap.setAll (StdMap.setAll m a) b := by
  simp [StdMap.setAll, List.foldl_append]

theorem PutReloc.walkFixups_eq {α : Type} (addr : α → Nat)
    (result : SegmentSelection → α → List Nat) (l : List (SegmentSelection × α))
    (m : RelocMap) :
    PutReloc.walkFixups addr result l m =
      StdMap.setAll m (l.map (fun e => (addr e.2, result e.1 e.2))) := by
  induction l generalizing m with
  | nil => simp [PutReloc.walkFixups, StdMap.setAll]
  | cons e rest ih =>
    obtain ⟨s, d⟩ := e
    simp only [PutReloc.walkFixups, ih]
    simp [StdMap.setAll]

theorem PutReloc.walkRelocs_eq {α : Type} (syms : Unresolved) (addr : α → Nat)
    (result : Nat → α → List Nat) (l : List (α × Str)) (m : RelocMap)
    (hall : ∀ e ∈ l, (syms.Find e.2).isSome = true) :
    PutReloc.walkRelocs syms addr result l m =
      some (StdMap.setAll m
        (l.map (fun e => (addr e.1, result ((syms.Find e.2).getD 0) e.1)))) := by
  induction l generalizing m with
  | nil => simp [PutReloc.walkRelocs, StdMap.setAll]
  | cons e rest ih =>
    obtain ⟨d, name⟩ := e
    unfold PutReloc.walkRelocs
    have hd := hall (d, name) (List.mem_cons_self _ _)
    cases hf : syms.Find name with
    | none => simp [hf] at hd
    | some n =>
      simp only []
      rw [ih _ (fun e he => hall e (List.mem_cons_of_mem _ he))]
      simp [StdMap.setAll, hf]

theorem PutReloc.walkRelocs_found {α : Type} (syms : Unresolved) (addr : α → Nat)
    (result : Nat → α → List Nat) (l : List (α × Str)) (m m' : RelocMap)
    (h : PutReloc.walkRelocs syms addr result l m = some m') :
    ∀ e ∈ l, (syms.Find e.2).isSome = true := by
  induction l generalizing m with
  | nil => simp
  | cons e rest ih =>
    obtain ⟨d, name⟩ := e
    unfold PutReloc.walkRelocs at h
    cases hf : syms.Find name with
    | none => simp [hf] at h
    | some n =>
      simp only [hf] at h
      intro e he
      rcases List.mem_cons.mp he with h1 | h1
      · subst h1
        simp [hf]
      · exact ih _ h e h1

theorem PutReloc.fixupTable_eq (seg : Segment) :
    PutReloc.fixupTable seg =
      StdMap.setAll [] (seg.fixupRecords.map (fun r => (r.addr, r.payload))) := by
  simp only [PutReloc.fixupTable, PutReloc.walkFixups_eq, Segment.fixupRecords,
    List.map_append, StdMap.setAll_append, List.map_map]
  rfl

theorem PutReloc.table_eq (seg : Segment) (syms : Unresolved)
    (hall : ∀ r ∈ seg.relocRecords, (syms.Find r.name).isSome = true) :
    PutReloc.table seg syms = some (seg.relocTable syms) := by
  have h1 : ∀ e ∈ seg.R.R16lo.Relocs, (syms.Find e.2).isSome = true := fun e he =>
    hall ⟨.LOBYTE, e.1, [], e.2⟩
      (by simp only [Segment.relocRecords, List.mem_append, List.mem_map]
          exact Or.inl (Or.inl (Or.inl (Or.inl ⟨e, he, rfl⟩))))
  have h2 : ∀ e ∈ seg.R.R16.Relocs, (syms.Find e.2).isSome = true := fun e he =>
    hall ⟨.ABSWORD, e.1, [], e.2⟩
      (by simp only [Segment.relocRecords, List.mem_append, List.mem_map]
          exact Or.inl (Or.inl (Or.inl (Or.inr ⟨e, he, rfl⟩))))
  have h3 : ∀ e ∈ seg.R.R24.Relocs, (syms.Find e.2).isSome = true := fun e he =>
    hall ⟨.LONG, e.1, [], e.2⟩
      (by simp only [Segment.relocRecords, List.mem_append, List.mem_map]
          exact Or.inl (Or.inl (Or.inr ⟨e, he, rfl⟩)))
  have h4 : ∀ e ∈ seg.R.R16hi.Relocs, (syms.Find e.2).isSome = true := fun e he =>
    hall ⟨.HIBYTE, e.1.1, [e.1.2 % 256], e.2⟩
      (by simp only [Segment.relocRecords, List.mem_append, List.mem_map]
          exact Or.inl (Or.inr ⟨e, he, rfl⟩))
  have h5 : ∀ e ∈ seg.R.R24seg.Relocs, (syms.Find e.2).isSome = true := fun e he =>
    hall ⟨.SEGBYTE, e.1.1, [e.1.2 % 256, e.1.2 / 256 % 256], e.2⟩
      (by simp only [Segment.relocRecords, List.mem_append, List.mem_map]
          exact Or.inr ⟨e, he, rfl⟩)
  unfold PutReloc.table
  rw [PutReloc.walkRelocs_eq _ _ _ _ _ h1]
  simp only [Option.some_bind]
  rw [PutReloc.walkRelocs_eq _ _ _ _ _ h2]
  simp only [Option.some_bind]
  rw [PutReloc.walkRelocs_eq _ _ _ _ _ h3]
  simp only [Option.some_bind]
  rw [PutReloc.walkRelocs_eq _ _ _ _ _ h4]
  simp only [Option.some_bind]
  rw [PutReloc.walkRelocs_eq _ _ _ _ _ h5, PutReloc.fixupTable_eq]
  simp only [Segment.relocTable, Segment.relocRecords, List.map_append,
    StdMap.setAll_append, List.map_map]
  rfl

theorem PutReloc.table_found (seg : Segment) (syms : Unresolved) (T : RelocMap)
    (h : PutReloc.table seg syms = some T) :
    ∀ r ∈ seg.relocRecords, (syms.Find r.name).isSome = true := by
  unfold PutReloc.table at h
  simp only [Option.bind_eq_some] at h
  obtain ⟨m6, h6, m7, h7, m8, h8, m9, h9, h10⟩ := h
  have f1 := PutReloc.walkRelocs_found _ _ _ _ _ _ h6
  have f2 := PutReloc.walkRelocs_found _ _ _ _ _ _ h7
  have f3 := PutReloc.walkRelocs_found _ _ _ _ _ _ h8
  have f4 := PutReloc.walkRelocs_found _ _ _ _ _ _ h9
  have f5 := PutReloc.walkRelocs_found _ _ _ _ _ _ h10
  intro r hr
  simp only [Segment.relocRecords, List.mem_append, List.mem_map] at hr
  rcases hr with (((⟨i, hi, rfl⟩ | ⟨i, hi, rfl⟩) | ⟨i, hi, rfl⟩) | ⟨i, hi, rfl⟩) |
    ⟨i, hi, rfl⟩
  · exact f1 i hi
  · exact f2 i hi
  · exact f3 i hi
  · exact f4 i hi
  · exact f5 i hi

theorem PutReloc.table_some (seg : Segment) (syms : Unresolved) (T : RelocMap)
    (h : PutReloc.table seg syms = some T) : T = seg.relocTable syms := by
  have := PutReloc.table_eq seg syms (PutReloc.table_found seg syms T h)
  rw [this] at h
  exact (Option.some.inj h).symm

/-! ## The O65 writer -/

theorem Unresolved.Add_found (u : Unresolved) (n a : Str)
    (h : a = n ∨ (u.Find a).isSome = true) : ((u.Add n).Find a).isSome = true := by
  unfold Unresolved.Add Unresolved.Find at *
  by_cases hf : (StdMap.find u.str2num n).isSome = true
  · simp only [hf, if_true]
    rcases h with h | h
    · subst h
      exact hf
    · exact h
  · simp only [hf, Bool.false_eq_true, if_false]
    by_cases han : a = n
    · subst han
      simp [StdMap.find_set_self]
    · rw [StdMap.find_set_ne _ _ _ _ han]
      rcases h with h | h
      · exact absurd h han
      · exact h

theorem Unresolved.foldl_Add_found (P : List Str) (u : Unresolved) (a : Str)
    (h : a ∈ P ∨ (u.Find a).isSome = true) :
    ((P.foldl Unresolved.Add u).Find a).isSome = true := by
  induction P generalizing u with
  | nil =>
    rcases h with h | h
    · simp at h
    · exact h
  | cons n rest ih =>
    simp only [List.foldl_cons]
    apply ih
    rcases h with h | h
    · rcases List.mem_cons.mp h with h1 | h1
      · exact Or.inr (Unresolved.Add_found u n a (Or.inl h1))
      · exact Or.inl h1
    · exact Or.inr (Unresolved.Add_found u n a (Or.inr h))

theorem Segment.relocRecords_names (seg : Segment) :
    seg.relocRecords.map (fun r => r.name) = seg.relocNames := by
  simp [Segment.relocRecords, Segment.relocNames, List.map_append, List.map_map,
    Function.comp_def]

theorem Object.WriteO65.externs_found (obj : Object) (sel : SegmentSelection)
    (r : RelocRecord) (hr : r ∈ (obj.seg sel).relocRecords) :
    ((Object.WriteO65.externs obj).Find r.name).isSome = true := by
  rw [Object.WriteO65.externs_eq]
  apply Unresolved.foldl_Add_found
  left
  have h1 : r.name ∈ (obj.seg sel).relocNames := by
    rw [← Segment.relocRecords_names]
    exact List.mem_map.mpr ⟨r, hr, rfl⟩
  cases sel <;> simp only [Object.seg] at h1 <;> simp [Object.relocNames, h1]

theorem PutReloc_eq (seg : Segment) (syms : Unresolved)
    (hall : ∀ r ∈ seg.relocRecords, (syms.Find r.name).isSome = true) :
    PutReloc seg syms =
      some ((PutReloc.emit (-1) (seg.relocTable syms)).1 ++ [0],
        (PutReloc.emit (-1) (seg.relocTable syms)).2) := by
  simp [PutReloc, PutReloc.table_eq seg syms hall, PutC]

theorem Object.WriteO65_eq (MayWarn : String → Bool) (VERSION : Str) (obj : Object) :
    ∃ c d, PutReloc obj.code (Object.WriteO65.externs obj) = some c ∧
      PutReloc obj.data (Object.WriteO65.externs obj) = some d ∧
      obj.WriteO65 MayWarn VERSION =
        some (Object.WriteO65.header obj ++ Object.WriteO65.custom VERSION obj
          ++ obj.code.GetContent ++ obj.data.GetContent
          ++ (Object.WriteO65.externs obj).Put (Object.WriteO65.use32 obj)
          ++ c.1 ++ d.1
          ++ PutLabels obj.code .CODE (Object.WriteO65.use32 obj)
          ++ PutLabels obj.data .DATA (Object.WriteO65.use32 obj)
          ++ PutLabels obj.zero .ZERO (Object.WriteO65.use32 obj)
          ++ PutLabels obj.bss .BSS (Object.WriteO65.use32 obj),
          (if Object.WriteO65.use32 obj = true ∧ MayWarn "use32" = true
            then [Diag.writing32] else []) ++ c.2 ++ d.2) := by
  have hc := PutReloc_eq obj.code (Object.WriteO65.externs obj)
    (fun r hr => Object.WriteO65.externs_found obj .CODE r hr)
  have hd := PutReloc_eq obj.data (Object.WriteO65.externs obj)
    (fun r hr => Object.WriteO65.externs_found obj .DATA r hr)
  refine ⟨_, _, hc, hd, ?_⟩
  simp only [Object.WriteO65, hc, hd]

theorem Object.WriteO65.use32_iff (obj : Object) :
    Object.WriteO65.use32 obj = true ↔ obj.exceeds16 := by
  simp only [Object.WriteO65.use32, Object.exceeds16, decide_eq_true_eq, gt_iff_lt]

theorem Object.WriteO65_starts (MayWarn : String → Bool) (VERSION : Str) (obj : Object) :
    ∃ rest diags,
      (obj.exceeds16 →
        obj.WriteO65 MayWarn VERSION =
          some ([0x01, 0x00, 0x6F, 0x36, 0x35, 0x00] ++ [0x00, 0xB0]
            ++ obj.geometry.flatMap PutD ++ rest, diags)) ∧
      (¬ obj.exceeds16 →
        obj.WriteO65 MayWarn VERSION =
          some ([0x01, 0x00, 0x6F, 0x36, 0x35, 0x00] ++ [0x00, 0x90]
            ++ obj.geometry.flatMap PutW ++ rest, diags)) := by
  obtain ⟨c, d, _, _, h⟩ := Object.WriteO65_eq MayWarn VERSION obj
  refine ⟨Object.WriteO65.custom VERSION obj
      ++ obj.code.GetContent ++ obj.data.GetContent
      ++ (Object.WriteO65.externs obj).Put (Object.WriteO65.use32 obj)
      ++ c.1 ++ d.1
      ++ PutLabels obj.code .CODE (Object.WriteO65.use32 obj)
      ++ PutLabels obj.data .DATA (Object.WriteO65.use32 obj)
      ++ PutLabels obj.zero .ZERO (Object.WriteO65.use32 obj)
      ++ PutLabels obj.bss .BSS (Object.WriteO65.use32 obj),
    (if Object.WriteO65.use32 obj = true ∧ MayWarn "use32" = true
      then [Diag.writing32] else []) ++ c.2 ++ d.2, ?_, ?_⟩
  · intro hw
    have hu := (Object.WriteO65.use32_iff obj).mpr hw
    rw [h]
    simp only [Object.WriteO65.header, hu, if_true, PutWD, Object.geometry,
      List.flatMap_cons, List.flatMap_nil, List.append_assoc, List.append_nil]
    rfl
  · intro hw
    have hu : Object.WriteO65.use32 obj = false := by
      rw [← Bool.not_eq_true]
      exact fun hh => hw ((Object.WriteO65.use32_iff obj).mp hh)
    rw [h]
    simp only [Object.WriteO65.header, hu, Bool.false_eq_true, if_false, PutWD,
      Object.geometry, List.flatMap_cons, List.flatMap_nil, List.append_assoc, List.append_nil]
    rfl


/-- C13. O65 width selection: the output of `WriteO65` begins with the bytes
`01 00 6F 36 35 00`; when the base or the size of one of the code, data, bss, zero segments
exceeds `0xFFFF` or the symbol table holds more than `0xFFFF` names, the mode word that
follows is `0xB000` (bytes `00 B0`) and the nine geometry fields are written with 32 bits
(`PutD`); otherwise the mode word is `0x9000` (bytes `00 90`) and the fields are written with
16 bits (`PutW`). -/
theorem Object.WriteO65_width (MayWarn : String → Bool) (VERSION : Str) (obj : Object) :
    ∃ rest diags,
      (obj.exceeds16 →
        obj.WriteO65 MayWarn VERSION =
          some ([0x01, 0x00, 0x6F, 0x36, 0x35, 0x00] ++ [0x00, 0xB0]
            ++ obj.geometry.flatMap PutD ++ rest, diags)) ∧
      (¬ obj.exceeds16 →
        obj.WriteO65 MayWarn VERSION =
          some ([0x01, 0x00, 0x6F, 0x36, 0x35, 0x00] ++ [0x00, 0x90]
            ++ obj.geometry.flatMap PutW ++ rest, diags)) :=
  Object.WriteO65_starts MayWarn VERSION obj

theorem leValue_PutW (w : Nat) (h : w < 65536) : leValue (PutW w) = w := by
  simp only [PutW, PutC, leValue, List.cons_append, List.nil_append]
  omega

theorem leValue_PutD (w : Nat) (h : w < 4294967296) : leValue (PutD w) = w := by
  simp only [PutD, PutW, PutC, leValue, List.cons_append, List.nil_append]
  omega

theorem parseFields_PutW (ws : List Nat) (rest : List Nat) (h : ∀ w ∈ ws, w < 65536) :
    parseFields 2 ws.length (ws.flatMap PutW ++ rest) = ws := by
  induction ws with
  | nil => simp [parseFields]
  | cons w tl ih =>
    have hw := h w (List.mem_cons_self _ _)
    have e : (w :: tl).flatMap PutW ++ rest = PutW w ++ (tl.flatMap PutW ++ rest) := by
      simp [List.flatMap_cons]
    have hl : (PutW w).length = 2 := by simp [PutW, PutC]
    simp only [List.length_cons, parseFields, e]
    rw [List.take_left' hl, List.drop_left' hl, leValue_PutW w hw,
      ih (fun x hx => h x (List.mem_cons_of_mem _ hx))]

theorem parseFields_PutD (ws : List Nat) (rest : List Nat) (h : ∀ w ∈ ws, w < 4294967296) :
    parseFields 4 ws.length (ws.flatMap PutD ++ rest) = ws := by
  induction ws with
  | nil => simp [parseFields]
  | cons w tl ih =>
    have hw := h w (List.mem_cons_self _ _)
    have e : (w :: tl).flatMap PutD ++ rest = PutD w ++ (tl.flatMap PutD ++ rest) := by
      simp [List.flatMap_cons]
    have hl : (PutD w).length = 4 := by simp [PutD, PutW, PutC]
    simp only [List.length_cons, parseFields, e]
    rw [List.take_left' hl, List.drop_left' hl, leValue_PutD w hw,
      ih (fun x hx => h x (List.mem_cons_of_mem _ hx))]

theorem u32_lt (n : Int) : u32 n < 4294967296 := by
  unfold u32
  omega

theorem DataArea.GetBase_lt (d : DataArea) : d.GetBase < 4294967296 := by
  unfold DataArea.GetBase
  split
  · omega
  · exact u32_lt _

theorem DataArea.GetSize_lt (d : DataArea) : d.GetSize < 4294967296 := by
  unfold DataArea.GetSize
  split
  · omega
  · exact u32_lt _

theorem Object.geometry_lt (obj : Object) : ∀ w ∈ obj.geometry, w < 4294967296 := by
  intro w hw
  simp only [Object.geometry, List.mem_cons, List.mem_singleton, List.not_mem_nil,
    or_false] at hw
  rcases hw with h | h | h | h | h | h | h | h | h <;> subst h <;>
    first
    | exact DataArea.GetBase_lt _
    | exact DataArea.GetSize_lt _
    | decide

theorem Object.geometry_small (obj : Object) (h : ¬ obj.exceeds16) :
    ∀ w ∈ obj.geometry, w < 65536 := by
  intro w hw
  simp only [Object.exceeds16, not_or, not_lt] at h
  obtain ⟨h1, h2, h3, h4, h5, h6, h7, h8, _⟩ := h
  simp only [Object.geometry, List.mem_cons, List.mem_singleton, List.not_mem_nil,
    or_false] at hw
  rcases hw with e | e | e | e | e | e | e | e | e <;> subst e <;> omega

/-- C14. O65 header round trip: parsing the bytes emitted by `WriteO65` after the 6-byte
magic as a little-endian mode word followed by nine integers of the width indicated by the
mode word's `0x2000` bit yields the mode word (`0xB000` or `0x9000`) and exactly
`(code.base, code.size, data.base, data.size, bss.base, bss.size, zero.base, zero.size, 0)`
of the Object. -/
theorem Object.WriteO65_header_roundtrip (MayWarn : String → Bool) (VERSION : Str)
    (obj : Object) :
    ∃ out diags, obj.WriteO65 MayWarn VERSION = some (out, diags) ∧
      (parseO65Header out = (0xB000, obj.geometry) ∨
        parseO65Header out = (0x9000, obj.geometry)) ∧
      (parseO65Header out).2 =
        [obj.code.GetBase, obj.code.GetSize, obj.data.GetBase, obj.data.GetSize,
         obj.bss.GetBase, obj.bss.GetSize, obj.zero.GetBase, obj.zero.GetSize, 0] := by
  obtain ⟨rest, diags, hw, hn⟩ := Object.WriteO65_starts MayWarn VERSION obj
  have hlen : obj.geometry.length = 9 := rfl
  by_cases h : obj.exceeds16
  · refine ⟨_, _, hw h, ?_⟩
    have hp : parseO65Header ([0x01, 0x00, 0x6F, 0x36, 0x35, 0x00] ++ [0x00, 0xB0]
        ++ obj.geometry.flatMap PutD ++ rest) = (0xB000, obj.geometry) := by
      have := parseFields_PutD obj.geometry rest (Object.geometry_lt obj)
      rw [hlen] at this
      simp only [parseO65Header, List.cons_append, List.nil_append, List.drop_succ_cons,
        List.drop_zero, List.take_succ_cons, List.take_zero, leValue]
      simp [this]
    exact ⟨Or.inl hp, by rw [hp]; rfl⟩
  · refine ⟨_, _, hn h, ?_⟩
    have hp : parseO65Header ([0x01, 0x00, 0x6F, 0x36, 0x35, 0x00] ++ [0x00, 0x90]
        ++ obj.geometry.flatMap PutW ++ rest) = (0x9000, obj.geometry) := by
      have := parseFields_PutW obj.geometry rest (Object.geometry_small obj h)
      rw [hlen] at this
      simp only [parseO65Header, List.cons_append, List.nil_append, List.drop_succ_cons,
        List.drop_zero, List.take_succ_cons, List.take_zero, leValue]
      simp [this]
    exact ⟨Or.inr hp, by rw [hp]; rfl⟩

/-! ## Address-sorted maps -/

theorem StdMap.mem_set {ν : Type} (m : List (Nat × ν)) (k : Nat) (v : ν) (e : Nat × ν)
    (h : e ∈ StdMap.set m k v) : e = (k, v) ∨ e ∈ m := by
  induction m with
  | nil =>
    simp only [StdMap.set, List.mem_singleton] at h
    exact Or.inl h
  | cons hd tl ih =>
    obtain ⟨k', v'⟩ := hd
    unfold StdMap.set at h
    by_cases h1 : k = k'
    · simp only [h1, if_true, List.mem_cons] at h
      rcases h with h | h
      · exact Or.inl (by rw [h, h1])
      · exact Or.inr (List.mem_cons_of_mem _ h)
    · by_cases h2 : k < k'
      · simp only [h1, h2, if_true, if_false, List.mem_cons] at h
        rcases h with h | h | h
        · exact Or.inl h
        · exact Or.inr (by rw [h]; exact List.mem_cons_self _ _)
        · exact Or.inr (List.mem_cons_of_mem _ h)
      · simp only [h1, h2, if_false, List.mem_cons] at h
        rcases h with h | h
        · exact Or.inr (by rw [h]; exact List.mem_cons_self _ _)
        · rcases ih h with h3 | h3
          · exact Or.inl h3
          · exact Or.inr (List.mem_cons_of_mem _ h3)

theorem StdMap.set_sorted {ν : Type} (m : List (Nat × ν)) (k : Nat) (v : ν)
    (h : m.Pairwise (fun a b => a.1 < b.1)) :
    (StdMap.set m k v).Pairwise (fun a b => a.1 < b.1) := by
  induction m with
  | nil => simp [StdMap.set]
  | cons hd tl ih =>
    obtain ⟨k', v'⟩ := hd
    rw [List.pairwise_cons] at h
    obtain ⟨hhd, htl⟩ := h
    unfold StdMap.set
    by_cases h1 : k = k'
    · subst h1
      simp only [if_true]
      exact List.pairwise_cons.mpr ⟨hhd, htl⟩
    · by_cases h2 : k < k'
      · simp only [h1, h2, if_true, if_false]
        refine List.pairwise_cons.mpr ⟨?_, List.pairwise_cons.mpr ⟨hhd, htl⟩⟩
        intro e he
        rcases List.mem_cons.mp he with h3 | h3
        · rw [h3]
          exact h2
        · exact Nat.lt_trans h2 (hhd e h3)
      · simp only [h1, h2, if_false]
        refine List.pairwise_cons.mpr ⟨?_, ih htl⟩
        intro e he
        rcases StdMap.mem_set tl k v e he with h3 | h3
        · rw [h3]
          simp only
          omega
        · exact hhd e h3

theorem StdMap.setAll_sorted (es : List (Nat × List Nat)) (m : RelocMap)
    (h : m.Pairwise (fun a b => a.1 < b.1)) :
    (StdMap.setAll m es).Pairwise (fun a b => a.1 < b.1) := by
  induction es generalizing m with
  | nil => simpa [StdMap.setAll] using h
  | cons e rest ih =>
    simp only [StdMap.setAll, List.foldl_cons]
    exact ih _ (StdMap.set_sorted m e.1 e.2 h)

theorem StdMap.find_of_mem_sorted {ν : Type} (m : List (Nat × ν))
    (h : m.Pairwise (fun a b => a.1 < b.1)) (a : Nat) (p : ν) :
    StdMap.find m a = some p ↔ (a, p) ∈ m := by
  induction m with
  | nil => simp [StdMap.find]
  | cons hd tl ih =>
    obtain ⟨k', v'⟩ := hd
    rw [List.pairwise_cons] at h
    obtain ⟨hhd, htl⟩ := h
    unfold StdMap.find
    by_cases h1 : a = k'
    · subst h1
      simp only [if_true, Option.some.injEq, List.mem_cons, Prod.mk.injEq, true_and]
      constructor
      · intro h2
        exact Or.inl h2.symm
      · rintro (h2 | h2)
        · exact h2.symm
        · exact absurd (hhd _ h2) (Nat.lt_irrefl _)
    · simp only [h1, if_false, List.mem_cons, Prod.mk.injEq, false_and, false_or]
      exact ih htl

theorem StdMap.find_setAll_not_mem (es : List (Nat × List Nat)) (m : RelocMap) (a : Nat)
    (h : a ∉ es.map (fun e => e.1)) : StdMap.find (StdMap.setAll m es) a = StdMap.find m a := by
  induction es generalizing m with
  | nil => simp [StdMap.setAll]
  | cons e rest ih =>
    simp only [List.map_cons, List.mem_cons, not_or] at h
    simp only [StdMap.setAll, List.foldl_cons]
    have := ih (StdMap.set m e.1 e.2) h.2
    simp only [StdMap.setAll] at this
    rw [this, StdMap.find_set_ne _ _ _ _ h.1]

theorem StdMap.find_setAll_isSome (es : List (Nat × List Nat)) (m : RelocMap) (a : Nat) :
    (StdMap.find (StdMap.setAll m es) a).isSome = true ↔
      (StdMap.find m a).isSome = true ∨ a ∈ es.map (fun e => e.1) := by
  induction es generalizing m with
  | nil => simp [StdMap.setAll]
  | cons e rest ih =>
    simp only [StdMap.setAll, List.foldl_cons, List.map_cons, List.mem_cons]
    have := ih (StdMap.set m e.1 e.2)
    simp only [StdMap.setAll] at this
    rw [this]
    by_cases hae : a = e.1
    · subst hae
      simp [StdMap.find_set_self]
    · rw [StdMap.find_set_ne _ _ _ _ hae]
      simp [hae]

theorem StdMap.find_setAll_last (pre post : List (Nat × List Nat)) (m : RelocMap) (a : Nat)
    (p : List Nat) (h : a ∉ post.map (fun e => e.1)) :
    StdMap.find (StdMap.setAll m (pre ++ (a, p) :: post)) a = some p := by
  rw [StdMap.setAll_append]
  have e : StdMap.setAll (StdMap.setAll m pre) ((a, p) :: post) =
      StdMap.setAll (StdMap.set (StdMap.setAll m pre) a p) post := by
    simp [StdMap.setAll]
  rw [e, StdMap.find_setAll_not_mem post _ a h, StdMap.find_set_self]

/-! ## The delta law of the relocation stream -/

theorem PutReloc.extend_spec (fuel : Nat) (d : Nat) (h1 : 1 ≤ d) (h2 : d ≤ fuel)
    (h3 : d < 2147483648) :
    PutReloc.extend fuel (d : Int) =
      (List.replicate ((d - 1) / 254) 255, ((d - 254 * ((d - 1) / 254) : Nat) : Int)) := by
  induction fuel generalizing d with
  | zero => omega
  | succ f ih =>
    unfold PutReloc.extend
    by_cases hd : (d : Int) > 254
    · have hw : wrapInt ((d : Int) - 254) = ((d - 254 : Nat) : Int) := by
        unfold wrapInt
        omega
      simp only [hd, if_true, hw]
      rw [ih (d - 254) (by omega) (by omega) (by omega)]
      have hk : (d - 1) / 254 = (d - 254 - 1) / 254 + 1 := by omega
      have hv : ((d - 254 - 254 * ((d - 254 - 1) / 254) : Nat) : Int) =
          ((d - 254 * ((d - 254 - 1) / 254 + 1) : Nat) : Int) := by omega
      rw [hk, List.replicate_succ, hv]
      rfl
    · simp only [hd, if_false]
      have hk : (d - 1) / 254 = 0 := by omega
      simp [hk]

theorem PutReloc.emit_spec (T : RelocMap) (prev : Int) (hprev : -1 ≤ prev)
    (hkeys : ∀ e ∈ T, e.1 < 2147483648)
    (hhead : ∀ e, T.head? = some e → prev < e.1 ∧ (e.1 : Int) - prev < 2147483648)
    (hs : T.Pairwise (fun a b => a.1 < b.1)) :
    PutReloc.emit prev T = ((streamEntries prev T).flatMap StreamEntry.bytes, []) := by
  induction T generalizing prev with
  | nil => simp [PutReloc.emit, streamEntries]
  | cons hd tl ih =>
    obtain ⟨a, p⟩ := hd
    obtain ⟨hlt, hdist⟩ := hhead (a, p) rfl
    have ha := hkeys (a, p) (List.mem_cons_self _ _)
    rw [List.pairwise_cons] at hs
    simp only at hlt hdist ha
    have hnew : wrapInt (a : Int) = a := by
      unfold wrapInt
      omega
    obtain ⟨d, hd⟩ : ∃ d : Nat, (a : Int) - prev = d := ⟨((a : Int) - prev).toNat, by omega⟩
    have hdiff : wrapInt ((a : Int) - prev) = d := by
      unfold wrapInt
      omega
    have hrest := ih (a : Int) (by omega)
      (fun e he => hkeys e (List.mem_cons_of_mem _ he))
      (fun e he => by
        have hm : e ∈ tl := List.mem_of_mem_head? he
        have h1 := hs.1 e hm
        have h2 := hkeys e (List.mem_cons_of_mem _ hm)
        simp only at h1
        omega)
      hs.2
    simp only [PutReloc.emit, hnew, hdiff, hrest, Int.toNat_ofNat]
    rw [PutReloc.extend_spec d d (by omega) (Nat.le_refl _) (by omega)]
    have hpos : ¬ ((d : Int) ≤ 0) := by omega
    simp only [hpos, if_false, streamEntries, List.flatMap_cons, StreamEntry.bytes, PutC,
      List.append_assoc, List.nil_append, Prod.mk.injEq, and_true, hd]
    have e1 : (((d : Int) - 1) / 254).toNat = (d - 1) / 254 := by omega
    have e2 : ((d : Int) - 254 * (((d : Int) - 1) / 254)).toNat = d - 254 * ((d - 1) / 254) := by
      omega
    have e3 : (((d - 254 * ((d - 1) / 254) : Nat) : Int) % 256).toNat % 256 =
        d - 254 * ((d - 1) / 254) := by omega
    rw [e1, e2, e3]

theorem streamEntries_props (T : RelocMap) (prev : Int)
    (hhead : ∀ e, T.head? = some e → prev < e.1)
    (hs : T.Pairwise (fun a b => a.1 < b.1)) :
    (streamEntries prev T).map (fun e => (e.addr, e.payload)) = T ∧
    (∀ e ∈ streamEntries prev T, 1 ≤ e.last ∧ e.last ≤ 254) ∧
    (streamEntries prev T).map StreamEntry.delta =
      differences prev ((streamEntries prev T).map (fun e => e.addr)) := by
  induction T generalizing prev with
  | nil => simp [streamEntries, differences]
  | cons hd tl ih =>
    obtain ⟨a, p⟩ := hd
    have hlt := hhead (a, p) rfl
    rw [List.pairwise_cons] at hs
    simp only at hlt
    obtain ⟨i1, i2, i3⟩ := ih (a : Int)
      (fun e he => by
        have := hs.1 e (List.mem_of_mem_head? he)
        simp only at this
        omega)
      hs.2
    refine ⟨?_, ?_, ?_⟩
    · simp [streamEntries, i1]
    · intro e he
      simp only [streamEntries, List.mem_cons] at he
      rcases he with h | h
      · subst h
        simp only
        omega
      · exact i2 e h
    · simp only [streamEntries, List.map_cons, differences, i3, List.cons.injEq, and_true,
        StreamEntry.delta]
      omega

theorem differences_sum (l : List Nat) (prev : Int) (last : Nat)
    (h : l.getLast? = some last) : (differences prev l).sum = (last : Int) - prev := by
  induction l generalizing prev with
  | nil => simp at h
  | cons a rest ih =>
    cases rest with
    | nil =>
      simp only [List.getLast?_singleton, Option.some.injEq] at h
      subst h
      simp [differences]
    | cons b rest' =>
      rw [List.getLast?_cons_cons] at h
      simp only [differences, List.sum_cons] at ih ⊢
      rw [ih (a : Int) h]
      omega

theorem Segment.relocTable_sorted (seg : Segment) (syms : Unresolved) :
    (seg.relocTable syms).Pairwise (fun a b => a.1 < b.1) :=
  StdMap.setAll_sorted _ [] List.Pairwise.nil

theorem Segment.relocTable_keys (seg : Segment) (syms : Unresolved) (a : Nat) :
    (∃ p, (a, p) ∈ seg.relocTable syms) ↔ a ∈ seg.relocAddresses := by
  have hs := Segment.relocTable_sorted seg syms
  have hk := StdMap.find_setAll_isSome
    (seg.fixupRecords.map (fun r => (r.addr, r.payload))
      ++ seg.relocRecords.map (fun r => (r.addr, r.payload ((syms.Find r.name).getD 0))))
    [] a
  have hmap : (seg.fixupRecords.map (fun r => (r.addr, r.payload))
      ++ seg.relocRecords.map (fun r => (r.addr, r.payload ((syms.Find r.name).getD 0)))).map
        (fun e => e.1) = seg.relocAddresses := by
    simp [Segment.relocAddresses, List.map_append, List.map_map, Function.comp_def]
  rw [hmap] at hk
  simp only [StdMap.find, Option.isSome_none, Bool.false_eq_true, false_or] at hk
  rw [← hk]
  constructor
  · rintro ⟨p, hp⟩
    have := (StdMap.find_of_mem_sorted _ hs a p).mpr hp
    simp only [Segment.relocTable] at this
    simp [this]
  · intro h
    cases hf : StdMap.find (seg.relocTable syms) a with
    | none =>
      simp only [Segment.relocTable] at hf
      simp [hf] at h
    | some p => exact ⟨p, (StdMap.find_of_mem_sorted _ hs a p).mp hf⟩

theorem Segment.relocTable_head (seg : Segment) (syms : Unresolved)
    (hlt : ∀ a ∈ seg.relocAddresses, a < 2147483648)
    (hedge : ∀ a ∈ seg.relocAddresses, a = 2147483647 → ∃ b ∈ seg.relocAddresses, b < a)
    (e : Nat × List Nat) (he : (seg.relocTable syms).head? = some e) :
    (-1 : Int) < e.1 ∧ (e.1 : Int) - (-1) < 2147483648 := by
  have hs := Segment.relocTable_sorted seg syms
  have hmem : e ∈ seg.relocTable syms := List.mem_of_mem_head? he
  have hin : e.1 ∈ seg.relocAddresses :=
    (Segment.relocTable_keys seg syms e.1).mp ⟨e.2, hmem⟩
  have h1 := hlt e.1 hin
  refine ⟨by omega, ?_⟩
  by_cases h2 : e.1 = 2147483647
  · obtain ⟨b, hb, hbe⟩ := hedge e.1 hin h2
    obtain ⟨p, hp⟩ := (Segment.relocTable_keys seg syms b).mpr hb
    cases hT : seg.relocTable syms with
    | nil => rw [hT] at hmem; simp at hmem
    | cons hd tl =>
      rw [hT] at he hp hs
      simp only [List.head?_cons, Option.some.injEq] at he
      subst he
      rw [List.pairwise_cons] at hs
      rcases List.mem_cons.mp hp with h3 | h3
      · rw [← h3] at hbe
        simp only at hbe
        omega
      · have := hs.1 _ h3
        simp only at this
        omega
  · omega

theorem PutReloc_delta_spec (seg : Segment) (syms : Unresolved)
    (hfound : ∀ r ∈ seg.relocRecords, (syms.Find r.name).isSome = true)
    (hlt : ∀ a ∈ seg.relocAddresses, a < 2147483648)
    (hedge : ∀ a ∈ seg.relocAddresses, a = 2147483647 → ∃ b ∈ seg.relocAddresses, b < a) :
    PutReloc seg syms =
      some ((streamEntries (-1) (seg.relocTable syms)).flatMap StreamEntry.bytes ++ [0], []) := by
  rw [PutReloc_eq seg syms hfound]
  have hs := Segment.relocTable_sorted seg syms
  rw [PutReloc.emit_spec (seg.relocTable syms) (-1) (by omega)
    (fun e he => hlt e.1 ((Segment.relocTable_keys seg syms e.1).mp ⟨e.2, he⟩))
    (Segment.relocTable_head seg syms hlt hedge) hs]

/-- C15 (as amended). Reloc encoding delta law: for every segment whose relocation/fixup
addresses are below `2^31`, the least of them below `2^31 - 1`, the stream emitted by
`PutReloc` is the concatenation, over the entries of the address table in strictly ascending
address order, of zero or more bytes 255, one byte in 1..254 and the payload, followed by one
byte `0x00`; decoding each 255 as +254 and the final byte as its value, the decoded deltas are
the differences of successive entry addresses (starting from -1), their sum is the greatest
entry address + 1, no diagnostic is written, and the stream is exactly the byte `0x00` when
the segment has no entries. -/
theorem PutReloc_delta_law (seg : Segment) (syms : Unresolved)
    (hfound : ∀ r ∈ seg.relocRecords, (syms.Find r.name).isSome = true)
    (hlt : ∀ a ∈ seg.relocAddresses, a < 2147483648)
    (hedge : ∀ a ∈ seg.relocAddresses, a = 2147483647 → ∃ b ∈ seg.relocAddresses, b < a) :
    ∃ (T : RelocMap) (entries : List StreamEntry),
      PutReloc.table seg syms = some T ∧
      PutReloc seg syms = some (entries.flatMap StreamEntry.bytes ++ [0], []) ∧
      entries.map (fun e => (e.addr, e.payload)) = T ∧
      (entries.map (fun e => e.addr)).Pairwise (fun a b => a < b) ∧
      (∀ e ∈ entries, 1 ≤ e.last ∧ e.last ≤ 254) ∧
      entries.map StreamEntry.delta = differences (-1) (entries.map (fun e => e.addr)) ∧
      (∀ last, (entries.map (fun e => e.addr)).getLast? = some last →
        (entries.map StreamEntry.delta).sum = (last : Int) + 1) ∧
      (seg.relocAddresses = [] → PutReloc seg syms = some ([0], [])) := by
  have hs := Segment.relocTable_sorted seg syms
  have hhead := Segment.relocTable_head seg syms hlt hedge
  obtain ⟨p1, p2, p3⟩ := streamEntries_props (seg.relocTable syms) (-1)
    (fun e he => (hhead e he).1) hs
  have hspec := PutReloc_delta_spec seg syms hfound hlt hedge
  refine ⟨seg.relocTable syms, streamEntries (-1) (seg.relocTable syms),
    PutReloc.table_eq seg syms hfound, hspec, p1, ?_, p2, p3, ?_, ?_⟩
  · have : (streamEntries (-1) (seg.relocTable syms)).map (fun e => e.addr) =
        (seg.relocTable syms).map (fun e => e.1) := by
      conv_rhs => rw [← p1]
      rw [List.map_map]
      rfl
    rw [this, List.pairwise_map]
    exact hs
  · intro last hlast
    rw [p3, differences_sum _ (-1) last hlast]
    omega
  · intro hempty
    rw [hspec]
    have hT : seg.relocTable syms = [] := by
      cases hT : seg.relocTable syms with
      | nil => rfl
      | cons hd tl =>
        have := (Segment.relocTable_keys seg syms hd.1).mp ⟨hd.2, by rw [hT]; simp⟩
        rw [hempty] at this
        simp at this
    simp [hT, streamEntries]

/-- C15, witness: fixups at the addresses 0, 1000 and 1001. -/
theorem PutReloc_delta_law_witness :
    PutReloc threeFixups Unresolved.new =
      some ([1, 0x20, 255, 255, 255, 238, 0x21, 1, 0x23, 0], []) ∧
    ∃ (T : RelocMap) (entries : List StreamEntry),
      PutReloc.table threeFixups Unresolved.new = some T ∧
      PutReloc threeFixups Unresolved.new =
        some (entries.flatMap StreamEntry.bytes ++ [0], []) ∧
      entries.map (fun e => (e.addr, e.payload)) = T ∧
      (entries.map (fun e => e.addr)).Pairwise (fun a b => a < b) ∧
      (∀ e ∈ entries, 1 ≤ e.last ∧ e.last ≤ 254) ∧
      entries.map StreamEntry.delta = differences (-1) (entries.map (fun e => e.addr)) ∧
      (∀ last, (entries.map (fun e => e.addr)).getLast? = some last →
        (entries.map StreamEntry.delta).sum = (last : Int) + 1) ∧
      (threeFixups.relocAddresses = [] →
        PutReloc threeFixups Unresolved.new = some ([0], [])) :=
  ⟨by decide, PutReloc_delta_law threeFixups Unresolved.new (by decide) (by decide)
    (by decide)⟩

/-- C15, counterexample: a table whose only entry is at address `0x7FFFFFFF` (below `2^31`).
The delta `0x7FFFFFFF - (-1)` does not fit an `int`; the byte written for it is `0x00`,
which is not in 1..254 and reads as the stream terminator, and a diagnostic is written. -/
theorem PutReloc_top_address_delta :
    topAddressOnly.relocAddresses = [2147483647] ∧
    PutReloc topAddressOnly Unresolved.new =
      some ([0x00, 0x20, 0x00], [Diag.eepDiff (-2147483648)]) := by
  decide

/-! ## Same-address overwrite -/

theorem List.exists_last_occurrence {α β : Type} [DecidableEq β] (g : α → β) (l : List α)
    (a : β) (h : a ∈ l.map g) :
    ∃ pre r post, l = pre ++ r :: post ∧ g r = a ∧ a ∉ post.map g := by
  induction l using List.reverseRecOn with
  | nil => simp at h
  | append_singleton init x ih =>
    by_cases hx : g x = a
    · exact ⟨init, x, [], rfl, hx, by simp⟩
    · have hin : a ∈ init.map g := by
        simp only [List.map_append, List.map_cons, List.map_nil, List.mem_append,
          List.mem_singleton] at h
        rcases h with h | h
        · exact h
        · exact absurd h.symm hx
      obtain ⟨pre, r, post, hl, hr, hp⟩ := ih hin
      refine ⟨pre, r, post ++ [x], by rw [hl]; simp, hr, ?_⟩
      simp only [List.map_append, List.map_cons, List.map_nil, List.mem_append,
        List.mem_singleton, not_or]
      exact ⟨hp, fun e => hx e.symm⟩

theorem Segment.relocTable_reloc_wins (seg : Segment) (syms : Unresolved) (a : Nat)
    (p : List Nat) (hp : (a, p) ∈ seg.relocTable syms)
    (ha : a ∈ seg.relocRecords.map (fun r => r.addr)) :
    ∃ r ∈ seg.relocRecords, r.addr = a ∧ p = r.payload ((syms.Find r.name).getD 0) := by
  obtain ⟨pre, r, post, hl, hr, hpost⟩ :=
    List.exists_last_occurrence (fun r : RelocRecord => r.addr) seg.relocRecords a ha
  have hfind := (StdMap.find_of_mem_sorted _ (Segment.relocTable_sorted seg syms) a p).mpr hp
  refine ⟨r, by rw [hl]; simp, hr, ?_⟩
  have : StdMap.find (seg.relocTable syms) a =
      some (r.payload ((syms.Find r.name).getD 0)) := by
    unfold Segment.relocTable
    rw [hl]
    simp only [List.map_append, List.map_cons, ← List.append_assoc]
    rw [← hr]
    apply StdMap.find_setAll_last
    rw [hr]
    simpa [List.map_map, Function.comp_def] using hpost
  rw [this] at hfind
  exact (Option.some.inj hfind).symm

theorem Segment.relocTable_fixup_stays (seg : Segment) (syms : Unresolved) (a : Nat)
    (p : List Nat) (hp : (a, p) ∈ seg.relocTable syms)
    (ha : a ∉ seg.relocRecords.map (fun r => r.addr)) :
    ∃ f ∈ seg.fixupRecords, f.addr = a ∧ p = f.payload := by
  have hin := (Segment.relocTable_keys seg syms a).mp ⟨p, hp⟩
  have haf : a ∈ seg.fixupRecords.map (fun r => r.addr) := by
    simp only [Segment.relocAddresses, List.mem_append] at hin
    rcases hin with h | h
    · exact h
    · exact absurd h ha
  obtain ⟨pre, f, post, hl, hf, hpost⟩ :=
    List.exists_last_occurrence (fun r : FixupRecord => r.addr) seg.fixupRecords a haf
  have hfind := (StdMap.find_of_mem_sorted _ (Segment.relocTable_sorted seg syms) a p).mpr hp
  refine ⟨f, by rw [hl]; simp, hf, ?_⟩
  have : StdMap.find (seg.relocTable syms) a = some f.payload := by
    unfold Segment.relocTable
    rw [hl]
    simp only [List.map_append, List.map_cons, List.append_assoc, List.cons_append]
    rw [← hf]
    apply StdMap.find_setAll_last
    rw [hf]
    simp only [List.map_append, List.map_map, Function.comp_def, List.mem_append, not_or]
    exact ⟨by simpa using hpost, by simpa using ha⟩
  rw [this] at hfind
  exact (Option.some.inj hfind).symm

/-- C17. Same-address overwrite: whenever `PutReloc` finds every symbol name, its address
table `T` has strictly ascending addresses (one entry per address), an address is in `T`
exactly when it occurs in some fixup or reloc list, the stream is the emission of the entries
of `T` in this order followed by the terminator, and whenever an unresolved reloc has the
address of an entry (shared with a fixup or not), the entry's payload is that of a reloc at
this address: the kind byte without segment id followed by the two bytes of the symbol index
and the extras; an entry at an address without reloc carries a fixup's payload. -/
theorem PutReloc_same_address (seg : Segment) (syms : Unresolved)
    (hfound : ∀ r ∈ seg.relocRecords, (syms.Find r.name).isSome = true) :
    ∃ T : RelocMap,
      PutReloc.table seg syms = some T ∧
      PutReloc seg syms = some ((PutReloc.emit (-1) T).1 ++ [0], (PutReloc.emit (-1) T).2) ∧
      T.Pairwise (fun a b => a.1 < b.1) ∧
      (∀ a, (∃ p, (a, p) ∈ T) ↔
        (a ∈ seg.fixupRecords.map (fun r => r.addr) ∨
          a ∈ seg.relocRecords.map (fun r => r.addr))) ∧
      (∀ a p, (a, p) ∈ T → a ∈ seg.relocRecords.map (fun r => r.addr) →
        ∃ r ∈ seg.relocRecords, ∃ n, r.addr = a ∧ syms.Find r.name = some n ∧
          p = r.kind.kindByte :: n % 256 :: n / 256 % 256 :: r.extras) ∧
      (∀ a p, (a, p) ∈ T → a ∉ seg.relocRecords.map (fun r => r.addr) →
        ∃ f ∈ seg.fixupRecords, f.addr = a ∧
          p = (f.kind.kindByte ||| GetSegmentID f.target) % 256 :: f.extras) := by
  refine ⟨seg.relocTable syms, PutReloc.table_eq seg syms hfound,
    PutReloc_eq seg syms hfound, Segment.relocTable_sorted seg syms, ?_, ?_, ?_⟩
  · intro a
    rw [Segment.relocTable_keys, Segment.relocAddresses, List.mem_append]
  · intro a p hp ha
    obtain ⟨r, hr, hra, hpr⟩ := Segment.relocTable_reloc_wins seg syms a p hp ha
    have hf := hfound r hr
    cases hn : syms.Find r.name with
    | none => simp [hn] at hf
    | some n =>
      refine ⟨r, hr, n, hra, hn, ?_⟩
      rw [hpr, hn]
      rfl
  · intro a p hp ha
    obtain ⟨f, hf, hfa, hpf⟩ := Segment.relocTable_fixup_stays seg syms a p hp ha
    exact ⟨f, hf, hfa, hpf⟩

/-- C17, witness: a fixup and a reloc at address 4; the stream carries the reloc's payload
`C0 00 00` there and the fixup's payload `21` at address 9. -/
theorem PutReloc_same_address_witness :
    PutReloc sharedAddress extOnly = some ([5, 0xC0, 0, 0, 5, 0x21, 0], []) ∧
    ∃ T : RelocMap,
      PutReloc.table sharedAddress extOnly = some T ∧
      PutReloc sharedAddress extOnly =
        some ((PutReloc.emit (-1) T).1 ++ [0], (PutReloc.emit (-1) T).2) ∧
      T.Pairwise (fun a b => a.1 < b.1) ∧
      (∀ a, (∃ p, (a, p) ∈ T) ↔
        (a ∈ sharedAddress.fixupRecords.map (fun r => r.addr) ∨
          a ∈ sharedAddress.relocRecords.map (fun r => r.addr))) ∧
      (∀ a p, (a, p) ∈ T → a ∈ sharedAddress.relocRecords.map (fun r => r.addr) →
        ∃ r ∈ sharedAddress.relocRecords, ∃ n, r.addr = a ∧ extOnly.Find r.name = some n ∧
          p = r.kind.kindByte :: n % 256 :: n / 256 % 256 :: r.extras) ∧
      (∀ a p, (a, p) ∈ T → a ∉ sharedAddress.relocRecords.map (fun r => r.addr) →
        ∃ f ∈ sharedAddress.fixupRecords, f.addr = a ∧
          p = (f.kind.kindByte ||| GetSegmentID f.target) % 256 :: f.extras) :=
  ⟨by decide, PutReloc_same_address sharedAddress extOnly (by decide)⟩

/-! ## Contents of the symbol table -/

theorem Segment.CloseSegment_relocNames (ar : Bool) (seg : Segment)
    (hR : seg.R = Relocdata.empty) :
    (seg.CloseSegment ar).1.relocNames = seg.pendingNames := by
  obtain ⟨h1, h2, h3, h4, h5⟩ := Segment.CloseSegment.externs_Relocs seg.Externs seg
  obtain ⟨g1, g2, g3, g4, g5⟩ := Segment.CloseSegment.fixups_Relocs ar seg.Fixups
    (Segment.CloseSegment.externs seg.Externs seg).1
  simp only [Segment.relocNames, Segment.CloseSegment, g1, g2, g3, g4, g5, h1, h2, h3, h4, h5,
    hR, Relocdata.empty, List.nil_append, List.map_filterMap, Segment.pendingNames,
    Segment.namesOfKind]
  congr 1
  · congr 1
    · congr 1
      · congr 1
        · congr 1
          funext e
          split <;> simp
        · congr 1
          funext e
          split <;> simp
      · congr 1
        funext e
        split <;> simp
    · congr 1
      funext e
      split <;> simp
  · congr 1
    funext e
    split <;> simp

theorem Segment.pendingNames_mem (seg : Segment) (n : Str) :
    n ∈ seg.pendingNames ↔
      ∃ e ∈ seg.Externs, e.ref = n ∧
        (e.type = .LOBYTE ∨ e.type = .HIBYTE ∨ e.type = .ABSWORD ∨ e.type = .LONG ∨
          e.type = .SEGBYTE) := by
  simp only [Segment.pendingNames, Segment.namesOfKind, List.mem_append, List.mem_filterMap]
  constructor
  · rintro ((((⟨e, he, h⟩ | ⟨e, he, h⟩) | ⟨e, he, h⟩) | ⟨e, he, h⟩) | ⟨e, he, h⟩) <;>
      (split at h
       · rename_i hk
         simp only [Option.some.injEq] at h
         exact ⟨e, he, h, by simp [hk]⟩
       · simp at h)
  · rintro ⟨e, he, hn, hk⟩
    rcases hk with hk | hk | hk | hk | hk
    · exact Or.inl (Or.inl (Or.inl (Or.inl ⟨e, he, by simp [hk, hn]⟩)))
    · exact Or.inl (Or.inr ⟨e, he, by simp [hk, hn]⟩)
    · exact Or.inl (Or.inl (Or.inl (Or.inr ⟨e, he, by simp [hk, hn]⟩)))
    · exact Or.inl (Or.inl (Or.inr ⟨e, he, by simp [hk, hn]⟩))
    · exact Or.inr ⟨e, he, by simp [hk, hn]⟩

theorem Object.CloseSegments_relocNames (ar : Bool) (obj : Object)
    (hR : ∀ sel, (obj.seg sel).R = Relocdata.empty) :
    (obj.CloseSegments ar).1.relocNames = obj.pendingNames := by
  have hc := hR .CODE
  have hd := hR .DATA
  have hz := hR .ZERO
  have hb := hR .BSS
  simp only [Object.seg] at hc hd hz hb
  simp only [Object.relocNames, Object.CloseSegments, Object.pendingNames,
    Segment.CloseSegment_relocNames ar _ hc, Segment.CloseSegment_relocNames ar _ hd,
    Segment.CloseSegment_relocNames ar _ hz, Segment.CloseSegment_relocNames ar _ hb]

theorem Object.mem_pendingNames (obj : Object) (n : Str) :
    n ∈ obj.pendingNames ↔
      ∃ sel e, e ∈ (obj.seg sel).Externs ∧ e.ref = n ∧
        (e.type = .LOBYTE ∨ e.type = .HIBYTE ∨ e.type = .ABSWORD ∨ e.type = .LONG ∨
          e.type = .SEGBYTE) := by
  simp only [Object.pendingNames, List.mem_append, Segment.pendingNames_mem]
  constructor
  · rintro (((⟨e, he, h⟩ | ⟨e, he, h⟩) | ⟨e, he, h⟩) | ⟨e, he, h⟩)
    · exact ⟨.CODE, e, he, h⟩
    · exact ⟨.DATA, e, he, h⟩
    · exact ⟨.ZERO, e, he, h⟩
    · exact ⟨.BSS, e, he, h⟩
  · rintro ⟨sel, e, he, h⟩
    cases sel
    · exact Or.inl (Or.inl (Or.inl ⟨e, he, h⟩))
    · exact Or.inl (Or.inl (Or.inr ⟨e, he, h⟩))
    · exact Or.inl (Or.inr ⟨e, he, h⟩)
    · exact Or.inr ⟨e, he, h⟩


theorem Segment.CloseSegment.onExtern_Externs (seg : Segment) (e : Extern) :
    (Segment.CloseSegment.onExtern seg e).1.Externs = seg.Externs := by
  unfold Segment.CloseSegment.onExtern
  cases e.type <;> simp [Segment.SetByte]

theorem Segment.CloseSegment.onFixup_Externs (ar : Bool) (seg : Segment) (f : Fixup) :
    (Segment.CloseSegment.onFixup ar seg f).1.Externs = seg.Externs := by
  unfold Segment.CloseSegment.onFixup
  cases f.type <;> simp [Segment.SetByte]

theorem Segment.CloseSegment.externs_Externs (es : List Extern) (seg : Segment) :
    (Segment.CloseSegment.externs es seg).1.Externs = seg.Externs := by
  induction es generalizing seg with
  | nil => rfl
  | cons e rest ih =>
    simp only [Segment.CloseSegment.externs]
    rw [ih, Segment.CloseSegment.onExtern_Externs]

theorem Segment.CloseSegment.fixups_Externs (ar : Bool) (fs : List Fixup) (seg : Segment) :
    (Segment.CloseSegment.fixups ar fs seg).1.Externs = seg.Externs := by
  induction fs generalizing seg with
  | nil => rfl
  | cons f rest ih =>
    simp only [Segment.CloseSegment.fixups]
    rw [ih, Segment.CloseSegment.onFixup_Externs]

theorem Object.CloseSegments_Externs (ar : Bool) (obj : Object) (sel : SegmentSelection) :
    ((obj.CloseSegments ar).1.seg sel).Externs = (obj.seg sel).Externs := by
  cases sel <;>
    simp [Object.CloseSegments, Object.seg, Segment.CloseSegment,
      Segment.CloseSegment.fixups_Externs, Segment.CloseSegment.externs_Externs]

theorem Unresolved.Put_of_lt (u : Unresolved) (use32 : Bool)
    (h : u.num2str.length < 4294967296) :
    u.Put use32 = PutWD u.num2str.length use32 ++ u.num2str.flatMap PutCStr := by
  have hs : u.size = u.num2str.length := by
    unfold Unresolved.size u32
    omega
  unfold Unresolved.Put
  rw [hs, List.take_length]

/-- C19 (as amended). Let `CloseSegments` run on an Object whose relocation tables are
empty, and let the symbol table built by `WriteO65` hold fewer than 2^32 names. Then the
table holds each name once; its names are exactly the names of the externs of the five
absolute kinds (LOBYTE, HIBYTE, ABSWORD, LONG, SEGBYTE) that the four segments still hold
(`CloseSegments` leaves the extern lists alone); the names stand in the order in which the
relocation lists are first walked; `Find` returns the position of a name in `num2str`, which
is the list `Put` emits after the count; and `str2num` and `num2str` are mutually inverse
after any sequence of `Add` calls that leaves at most 2^32 names. -/
theorem Object.WriteO65_symbol_table (ar : Bool) (obj : Object)
    (hR : ∀ sel, (obj.seg sel).R = Relocdata.empty)
    (hlen : (Object.WriteO65.externs (obj.CloseSegments ar).1).num2str.length < 4294967296) :
    (Object.WriteO65.externs (obj.CloseSegments ar).1).num2str.Nodup ∧
    (∀ n, n ∈ (Object.WriteO65.externs (obj.CloseSegments ar).1).num2str ↔
      ∃ sel e, e ∈ ((obj.CloseSegments ar).1.seg sel).Externs ∧ e.ref = n ∧
        (e.type = .LOBYTE ∨ e.type = .HIBYTE ∨ e.type = .ABSWORD ∨ e.type = .LONG ∨
          e.type = .SEGBYTE)) ∧
    (Object.WriteO65.externs (obj.CloseSegments ar).1).num2str.Pairwise
      (fun a b => firstIndex a obj.pendingNames < firstIndex b obj.pendingNames) ∧
    (∀ name i, (Object.WriteO65.externs (obj.CloseSegments ar).1).Find name = some i ↔
      (Object.WriteO65.externs (obj.CloseSegments ar).1).num2str[i]? = some name) ∧
    (∀ use32, (Object.WriteO65.externs (obj.CloseSegments ar).1).Put use32 =
      PutWD (Object.WriteO65.externs (obj.CloseSegments ar).1).num2str.length use32 ++
        (Object.WriteO65.externs (obj.CloseSegments ar).1).num2str.flatMap PutCStr) ∧
    (∀ P : List Str, (P.foldl Unresolved.Add Unresolved.new).num2str.length ≤ 4294967296 →
      (P.foldl Unresolved.Add Unresolved.new).Inv) := by
  have hput := fun use32 =>
    Unresolved.Put_of_lt (Object.WriteO65.externs (obj.CloseSegments ar).1) use32 hlen
  rw [Object.WriteO65.externs_eq, Object.CloseSegments_relocNames ar obj hR] at hlen hput ⊢
  obtain ⟨hinv, hmem, hord, _⟩ := Unresolved.foldl_Add_spec obj.pendingNames (by omega)
  refine ⟨hinv.1, ?_, hord, hinv.2, hput, fun P hP => (Unresolved.foldl_Add_spec P hP).1⟩
  intro n
  rw [hmem, Object.mem_pendingNames]
  constructor
  · rintro ⟨sel, e, he, h⟩
    exact ⟨sel, e, by rw [Object.CloseSegments_Externs]; exact he, h⟩
  · rintro ⟨sel, e, he, h⟩
    exact ⟨sel, e, by rw [Object.CloseSegments_Externs] at he; exact he, h⟩

/-- C19, witness: the externs `b`, `a`, `b` give the symbol table `b`, `a`. -/
theorem Object.WriteO65_symbol_table_witness :
    (Object.WriteO65.externs (threeExterns.CloseSegments false).1).num2str = [['b'], ['a']] ∧
    (Object.WriteO65.externs (threeExterns.CloseSegments false).1).num2str.Nodup ∧
    (∀ name i, (Object.WriteO65.externs (threeExterns.CloseSegments false).1).Find name = some i ↔
      (Object.WriteO65.externs (threeExterns.CloseSegments false).1).num2str[i]? = some name) :=
  ⟨by decide,
   (Object.WriteO65_symbol_table false threeExterns (by intro sel; cases sel <;> decide)
      (by decide)).1,
   (Object.WriteO65_symbol_table false threeExterns (by intro sel; cases sel <;> decide)
      (by decide)).2.2.2.1⟩

/-- C19, counterexample: an unresolved short-relative extern `far` is still held
by the code segment after `CloseSegments`, which reports it on stderr, but the symbol table
built by `WriteO65` is empty. -/
theorem Object.WriteO65_relative_extern_missing :
    (relativeExternOnly.CloseSegments false).1.code.Externs.map (fun e => (e.ref, e.type)) =
      [(['f', 'a', 'r'], RelocKind.REL8)] ∧
    (relativeExternOnly.CloseSegments false).2 = [Diag.unresolvedShort ['f', 'a', 'r']] ∧
    (Object.WriteO65.externs (relativeExternOnly.CloseSegments false).1).num2str = [] ∧
    (Object.WriteO65.externs (relativeExternOnly.CloseSegments false).1).Find ['f', 'a', 'r'] =
      none := by
  decide

/-! ## Symbol indices of unresolved relocs -/

theorem Unresolved.foldl_Add_nodup (P : List Str) (hN : P.Nodup)
    (hlen : P.length ≤ 4294967296) :
    (P.foldl Unresolved.Add Unresolved.new).num2str = P := by
  induction P using List.reverseRecOn with
  | nil => rfl
  | append_singleton P n ih =>
    have hN2 := List.nodup_append.mp hN
    have hlenP : P.length ≤ 4294967296 := by
      simp only [List.length_append, List.length_singleton] at hlen
      omega
    have ih2 := ih hN2.1 hlenP
    have hinv := (Unresolved.foldl_Add_spec P (by rw [ih2]; exact hlenP)).1
    simp only [List.foldl_append, List.foldl_cons, List.foldl_nil]
    generalize P.foldl Unresolved.Add Unresolved.new = U at ih2 hinv ⊢
    unfold Unresolved.Add
    cases hf : StdMap.find U.str2num n with
    | some i =>
      exfalso
      have h1 := (hinv.2 n i).mp hf
      have h2 : n ∈ P := by
        rw [← ih2]
        exact List.getElem?_mem h1
      exact hN2.2.2 h2 (List.mem_singleton_self n)
    | none => simp [ih2]

theorem symbolName_injective : Function.Injective symbolName := by
  intro i j h
  have h2 := congrArg List.length h
  simp only [symbolName, List.length_replicate] at h2
  omega

theorem manySymbols_relocNames (n : Nat) :
    (manySymbols n).relocNames = (List.range n).map symbolName := by
  simp [manySymbols, Object.relocNames, Segment.relocNames, Object.new, Segment.new,
    Relocdata.empty, List.map_map, Function.comp_def]

theorem manySymbols_externs (n : Nat) (hn : n ≤ 4294967296) :
    (Object.WriteO65.externs (manySymbols n)).num2str = (List.range n).map symbolName := by
  rw [Object.WriteO65.externs_eq, manySymbols_relocNames]
  apply Unresolved.foldl_Add_nodup
  · exact (List.nodup_range n).map symbolName_injective
  · simpa using hn

theorem manySymbols_Find (n i : Nat) (hn : n ≤ 4294967296) (hi : i < n) :
    (Object.WriteO65.externs (manySymbols n)).Find (symbolName i) = some i := by
  have hnum := manySymbols_externs n hn
  have hinv : (Object.WriteO65.externs (manySymbols n)).Inv := by
    rw [Object.WriteO65.externs_eq]
    refine (Unresolved.foldl_Add_spec _ ?_).1
    rw [← Object.WriteO65.externs_eq, hnum]
    simpa using hn
  unfold Unresolved.Find
  rw [hinv.2, hnum]
  simp [List.getElem?_map, List.getElem?_range, hi]

theorem manySymbols_relocRecords (n : Nat) :
    (manySymbols n).code.relocRecords =
      (List.range n).map (fun i => ⟨.LONG, 3 * i, [], symbolName i⟩) := by
  simp [manySymbols, Segment.relocRecords, Object.new, Segment.new,
    Relocdata.empty, List.map_map, Function.comp_def]

theorem manySymbols_table (n i : Nat) (hn : n ≤ 4294967296) (hi : i < n) :
    StdMap.find ((manySymbols n).code.relocTable (Object.WriteO65.externs (manySymbols n)))
      (3 * i) = some [0xC0, i % 256, i / 256 % 256] := by
  have hmem : 3 * i ∈ (manySymbols n).code.relocRecords.map (fun r => r.addr) := by
    rw [manySymbols_relocRecords]
    simp only [List.map_map, List.mem_map, List.mem_range, Function.comp_def]
    exact ⟨i, hi, rfl⟩
  obtain ⟨p, hp⟩ := (Segment.relocTable_keys (manySymbols n).code
    (Object.WriteO65.externs (manySymbols n)) (3 * i)).mpr
      (by unfold Segment.relocAddresses; exact List.mem_append_right _ hmem)
  obtain ⟨r, hr, hra, hpe⟩ := Segment.relocTable_reloc_wins _ _ _ _ hp hmem
  rw [manySymbols_relocRecords] at hr
  obtain ⟨j, hj, rfl⟩ := List.mem_map.mp hr
  simp only at hra
  have hji : j = i := by omega
  subst hji
  simp only [manySymbols_Find n j hn (List.mem_range.mp hj), Option.getD_some,
    RelocRecord.payload, RelocKind.kindByte] at hpe
  rw [StdMap.find_of_mem_sorted _ (Segment.relocTable_sorted _ _)]
  rw [hpe] at hp
  exact hp


theorem Object.WriteO65.externs_Inv (obj : Object)
    (h : (Object.WriteO65.externs obj).num2str.length ≤ 4294967296) :
    (Object.WriteO65.externs obj).Inv := by
  rw [Object.WriteO65.externs_eq] at h ⊢
  exact (Unresolved.foldl_Add_spec _ h).1

/-- Symbol indices while the symbol table holds at most 65536 names: every reloc entry that
`PutReloc` emits for a segment carries the kind byte, then two bytes that read, least
significant first, as the position of the reloc's name in `num2str`, the list that
`Unresolved::Put` writes. -/
theorem Object.WriteO65_symbol_index_small (obj : Object) (sel : SegmentSelection)
    (hsmall : (Object.WriteO65.externs obj).num2str.length ≤ 65536) :
    ∃ T, PutReloc.table (obj.seg sel) (Object.WriteO65.externs obj) = some T ∧
      ∀ a p, (a, p) ∈ T → a ∈ (obj.seg sel).relocRecords.map (fun r => r.addr) →
        ∃ r ∈ (obj.seg sel).relocRecords, ∃ lo hi, r.addr = a ∧
          p = r.kind.kindByte :: lo :: hi :: r.extras ∧ lo < 256 ∧ hi < 256 ∧
          (Object.WriteO65.externs obj).num2str[lo + 256 * hi]? = some r.name := by
  have hfound := fun r hr => Object.WriteO65.externs_found obj sel r hr
  refine ⟨_, PutReloc.table_eq _ _ hfound, ?_⟩
  intro a p hp ha
  obtain ⟨r, hr, hra, hpe⟩ := Segment.relocTable_reloc_wins _ _ _ _ hp ha
  have hinv := Object.WriteO65.externs_Inv obj (by omega)
  have hsome := hfound r hr
  obtain ⟨i, hi⟩ := Option.isSome_iff_exists.mp hsome
  have hget := (hinv.2 r.name i).mp hi
  have hlt : i < (Object.WriteO65.externs obj).num2str.length := by
    by_contra hge
    rw [List.getElem?_eq_none (by omega)] at hget
    exact Option.noConfusion hget
  refine ⟨r, hr, i % 256, i / 256 % 256, hra, ?_, Nat.mod_lt _ (by decide),
    Nat.mod_lt _ (by decide), ?_⟩
  · rw [hpe, hi]
    rfl
  · have hi2 : i % 256 + 256 * (i / 256 % 256) = i := by omega
    rw [hi2]
    exact hget

/-- C18, the code at the failing input. With 65537 unresolved LONG relocs for distinct symbols in the
code segment, `WriteO65` builds a symbol table of 65537 names and selects the 32-bit width
on account of the symbol count, but `PutReloc` writes the index of the last symbol, 65536,
as the two bytes `00 00`: the entry at address 196608 reads as symbol 0, whose name is a
different one. -/
theorem Object.WriteO65_symbol_index_truncated :
    (Object.WriteO65.externs (manySymbols 65537)).num2str.length = 65537 ∧
    Object.WriteO65.use32 (manySymbols 65537) = true ∧
    (⟨.LONG, 196608, [], symbolName 65536⟩ : RelocRecord) ∈
      (manySymbols 65537).code.relocRecords ∧
    (Object.WriteO65.externs (manySymbols 65537)).Find (symbolName 65536) = some 65536 ∧
    (Object.WriteO65.externs (manySymbols 65537)).num2str[65536]? = some (symbolName 65536) ∧
    (Object.WriteO65.externs (manySymbols 65537)).num2str[0]? = some (symbolName 0) ∧
    symbolName 0 ≠ symbolName 65536 ∧
    ∃ T, PutReloc.table (manySymbols 65537).code (Object.WriteO65.externs (manySymbols 65537))
        = some T ∧
      StdMap.find T 196608 = some [0xC0, 0, 0] ∧ leValue [0, 0] = 0 := by
  have hnum := manySymbols_externs 65537 (by omega)
  have hinv := Object.WriteO65.externs_Inv (manySymbols 65537)
    (by rw [hnum]; simp)
  have hf1 := manySymbols_Find 65537 65536 (by omega) (by omega)
  have hf0 := manySymbols_Find 65537 0 (by omega) (by omega)
  have hlen : (Object.WriteO65.externs (manySymbols 65537)).num2str.length = 65537 := by
    rw [hnum]
    simp
  refine ⟨hlen, ?_, ?_, hf1, (hinv.2 _ _).mp hf1, (hinv.2 _ _).mp hf0, ?_, ?_⟩
  · rw [Object.WriteO65.use32_iff]
    refine Or.inr (Or.inr (Or.inr (Or.inr (Or.inr (Or.inr (Or.inr (Or.inr ?_)))))))
    unfold Unresolved.size u32
    rw [hlen]
    decide
  · rw [manySymbols_relocRecords]
    exact List.mem_map.mpr ⟨65536, List.mem_range.mpr (by omega), rfl⟩
  · intro h
    have h2 := symbolName_injective h
    omega
  · refine ⟨_, PutReloc.table_eq _ _
      (fun r hr => Object.WriteO65.externs_found (manySymbols 65537) .CODE r hr), ?_, rfl⟩
    exact manySymbols_table 65537 65536 (by omega) (by omega)


/-- Scenario S3: the symbol table is `ext` alone and the code reloc stream is
`01 C0 00 00 00`. -/
theorem Object.WriteO65_scenario_S3 :
    (Object.WriteO65.externs scenarioS3Object).num2str = [['e', 'x', 't']] ∧
    (Object.WriteO65.externs scenarioS3Object).Put false =
      [1, 0, 0x65, 0x78, 0x74, 0] ∧
    PutReloc scenarioS3Object.code (Object.WriteO65.externs scenarioS3Object) =
      some ([0x01, 0xC0, 0x00, 0x00, 0x00], []) := by
  decide

/-! ## Label export -/

theorem leValue_PutWD_narrow (v : Nat) : leValue (PutWD v false) = v % 65536 := by
  simp only [PutWD, PutW, PutC, leValue, List.cons_append, List.nil_append]
  omega

/-- C20, the code at the failing input. The code segment holds two bytes, at `0xFFFF` and `0x10000`,
and the label `e` at `0x10000`. Base `0xFFFF` and size 2 pass the test "whether 32bitness is
needed", so `WriteO65` writes 16-bit fields, and `PutLabels` emits the address of `e` as
`00 00`: the record decodes to address 0, not to the label value 65536. -/
theorem Object.WriteO65_label_truncated :
    labelAtTop.code.labels = [(0, [(['e'], 65536)])] ∧
    labelAtTop.code.GetBase = 0xFFFF ∧ labelAtTop.code.GetSize = 2 ∧
    labelAtTop.code.GetContent = [1, 2] ∧
    Object.WriteO65.use32 labelAtTop = false ∧
    PutLabels labelAtTop.code .CODE (Object.WriteO65.use32 labelAtTop) =
      [1, 0] ++ [0x65, 0] ++ [0] ++ [0, 0] ∧
    leValue [0, 0] ≠ 65536 ∧
    labelAtTop.WriteO65 warnAll scenarioVersion =
      some ([0x01, 0x00, 0x6F, 0x36, 0x35, 0x00, 0x00, 0x90,
             0xFF, 0xFF, 2, 0, 0, 0, 0, 0, 0, 0, 0, 0, 0, 0, 0, 0, 0, 0,
             14, 2, 115, 110, 101, 115, 99, 111, 109, 32, 49, 46, 48, 0, 0,
             1, 2,
             0, 0,
             0, 0,
             1, 0, 0x65, 0, 0, 0, 0,
             0, 0, 0, 0, 0, 0], []) := by
  decide

/-! ## Reading a relocation stream back -/

theorem readReloc.go_ext (n fuel : Nat) (addr : Int) (bs : List Nat) :
    readReloc.go (fuel + n) addr (List.replicate n 255 ++ bs) =
      readReloc.go fuel (addr + 254 * n) bs := by
  induction n generalizing addr with
  | zero => simp
  | succ n ih =>
    have e1 : fuel + (n + 1) = (fuel + n) + 1 := by omega
    rw [e1, List.replicate_succ, List.cons_append]
    simp only [readReloc.go]
    rw [if_pos True.intro, ih]
    have e2 : addr + 254 + 254 * (n : Int) = addr + 254 * ((n + 1 : Nat) : Int) := by
      push_cast
      ring
    rw [e2]
    simp

theorem readReloc.go_entry (fuel : Nat) (addr : Int) (b t : Nat) (tail bs : List Nat)
    (hb0 : b ≠ 0) (hb255 : b ≠ 255) (ht : tail.length = relocTail t) :
    readReloc.go (fuel + 1) addr (b :: t :: (tail ++ bs)) =
      (readReloc.go fuel (addr + b) bs).map fun r =>
        (((addr + b).toNat, t :: tail) :: r.1, r.2) := by
  simp only [readReloc.go, hb0, hb255, if_false]
  rw [if_neg (by rw [List.length_append]; omega)]
  rw [← ht, List.drop_left, List.take_left]

theorem readReloc.go_stream (T : RelocMap) :
    ∀ (prev : Int) (fuel : Nat) (rest : List Nat),
      T.Pairwise (fun a b => a.1 < b.1) →
      (∀ e, T.head? = some e → prev < e.1) →
      (∀ e ∈ T, ∃ t tail, e.2 = t :: tail ∧ tail.length = relocTail t) →
      ((streamEntries prev T).flatMap StreamEntry.bytes ++ 0 :: rest).length ≤ fuel →
      readReloc.go fuel prev ((streamEntries prev T).flatMap StreamEntry.bytes ++ 0 :: rest)
        = some (T, rest) := by
  induction T with
  | nil =>
    intro prev fuel rest _ _ _ hfuel
    simp only [streamEntries, List.flatMap_nil, List.nil_append, List.length_cons] at hfuel ⊢
    obtain ⟨f, rfl⟩ : ∃ f, fuel = f + 1 := ⟨fuel - 1, by omega⟩
    simp [readReloc.go]
  | cons e T ih =>
    intro prev fuel rest hs hhead hwf hfuel
    obtain ⟨a, p⟩ := e
    obtain ⟨t, tail, hp, ht⟩ := hwf (a, p) (List.mem_cons_self _ _)
    simp only at hp
    subst hp
    have hpa : prev < (a : Int) := hhead (a, t :: tail) rfl
    rw [List.pairwise_cons] at hs
    simp only [streamEntries, List.flatMap_cons, StreamEntry.bytes, List.append_assoc,
      List.length_append, List.length_replicate, List.length_cons, List.length_nil,
      List.singleton_append, List.cons_append, List.nil_append] at hfuel ⊢
    generalize hq : (((a : Int) - prev - 1) / 254).toNat = q at hfuel ⊢
    generalize hl : ((a : Int) - prev - 254 * (((a : Int) - prev - 1) / 254)).toNat = l
      at hfuel ⊢
    have hq2 : (q : Int) = ((a : Int) - prev - 1) / 254 := by omega
    have hl1 : 1 ≤ l ∧ l ≤ 254 := by omega
    have hsum : prev + 254 * (q : Int) + (l : Int) = a := by omega
    obtain ⟨f, rfl⟩ : ∃ f, fuel = (f + 1) + q := ⟨fuel - q - 1, by omega⟩
    rw [readReloc.go_ext]
    have e3 : (fun e : StreamEntry => List.replicate e.ext 255 ++ ([e.last] ++ e.payload)) =
        StreamEntry.bytes := by
      funext e
      simp [StreamEntry.bytes]
    rw [readReloc.go_entry f _ l t tail _ (by omega) (by omega) ht, hsum]
    rw [ih (a : Int) f rest hs.2 ?_ (fun e he => hwf e (List.mem_cons_of_mem _ he)) ?_]
    · simp
    · intro e he
      have hmem : e ∈ T := List.mem_of_mem_head? he
      exact_mod_cast hs.1 e hmem
    · simp only [List.length_append, List.length_cons]
      omega


theorem Segment.fixupRecords_shape (seg : Segment) (f : FixupRecord)
    (hf : f ∈ seg.fixupRecords) :
    f.kind.kindByte ≠ 0 ∧ f.extras.length = f.kind.extraBytes := by
  simp only [Segment.fixupRecords, List.mem_append, List.mem_map] at hf
  rcases hf with (((⟨i, _, rfl⟩ | ⟨i, _, rfl⟩) | ⟨i, _, rfl⟩) | ⟨i, _, rfl⟩) | ⟨i, _, rfl⟩ <;>
    exact ⟨by simp [RelocKind.kindByte], rfl⟩

theorem Segment.relocRecords_shape (seg : Segment) (r : RelocRecord)
    (hr : r ∈ seg.relocRecords) :
    r.kind.kindByte ≠ 0 ∧ r.extras.length = r.kind.extraBytes := by
  simp only [Segment.relocRecords, List.mem_append, List.mem_map] at hr
  rcases hr with (((⟨i, _, rfl⟩ | ⟨i, _, rfl⟩) | ⟨i, _, rfl⟩) | ⟨i, _, rfl⟩) | ⟨i, _, rfl⟩ <;>
    exact ⟨by simp [RelocKind.kindByte], rfl⟩

theorem FixupRecord.payload_tail (f : FixupRecord) (hk : f.kind.kindByte ≠ 0)
    (he : f.extras.length = f.kind.extraBytes) (hid : GetSegmentID f.target ≠ 0) :
    ∃ t tail, f.payload = t :: tail ∧ tail.length = relocTail t := by
  refine ⟨_, _, rfl, ?_⟩
  rw [he]
  obtain ⟨k, a, x, s⟩ := f
  simp only at hk hid ⊢
  cases k <;> cases s <;> first | exact absurd rfl hk | exact absurd rfl hid | rfl

theorem RelocRecord.payload_index_tail (r : RelocRecord) (n : Nat) (hk : r.kind.kindByte ≠ 0)
    (he : r.extras.length = r.kind.extraBytes) :
    ∃ t tail, r.payload n = t :: tail ∧ tail.length = relocTail t := by
  refine ⟨_, _, rfl, ?_⟩
  simp only [List.length_cons]
  rw [he]
  obtain ⟨k, a, x, s⟩ := r
  simp only at hk ⊢
  cases k <;> first | exact absurd rfl hk | rfl

theorem Segment.relocTable_tails (seg : Segment) (syms : Unresolved)
    (hid : ∀ f ∈ seg.fixupRecords, GetSegmentID f.target ≠ 0) :
    ∀ e ∈ seg.relocTable syms, ∃ t tail, e.2 = t :: tail ∧ tail.length = relocTail t := by
  rintro ⟨a, p⟩ hp
  by_cases ha : a ∈ seg.relocRecords.map (fun r => r.addr)
  · obtain ⟨r, hr, _, hpe⟩ := Segment.relocTable_reloc_wins seg syms a p hp ha
    obtain ⟨hk, he⟩ := Segment.relocRecords_shape seg r hr
    rw [hpe]
    exact RelocRecord.payload_index_tail r _ hk he
  · obtain ⟨f, hf, _, hpe⟩ := Segment.relocTable_fixup_stays seg syms a p hp ha
    obtain ⟨hk, he⟩ := Segment.fixupRecords_shape seg f hf
    rw [hpe]
    exact FixupRecord.payload_tail f hk he (hid f hf)


theorem PutReloc_read_back (seg : Segment) (syms : Unresolved)
    (hfound : ∀ r ∈ seg.relocRecords, (syms.Find r.name).isSome = true)
    (hlt : ∀ a ∈ seg.relocAddresses, a < 2147483648)
    (hedge : ∀ a ∈ seg.relocAddresses, a = 2147483647 → ∃ b ∈ seg.relocAddresses, b < a)
    (hid : ∀ f ∈ seg.fixupRecords, GetSegmentID f.target ≠ 0) :
    ∃ out, PutReloc seg syms = some (out, []) ∧
      ∀ rest, readReloc (out ++ rest) = some (seg.relocTable syms, rest) := by
  refine ⟨_, PutReloc_delta_spec seg syms hfound hlt hedge, ?_⟩
  intro rest
  unfold readReloc
  rw [List.append_assoc, List.singleton_append]
  apply readReloc.go_stream _ _ _ _ (Segment.relocTable_sorted seg syms)
  · intro e _
    have h0 : (0 : Int) ≤ (e.1 : Int) := Int.ofNat_nonneg _
    omega
  · exact Segment.relocTable_tails seg syms hid
  · exact Nat.le_refl _

/-- The payload of a fixup entry determines its kind, target segment and extras. -/
theorem FixupRecord.payload_determines (f g : FixupRecord) (hf : f.kind.kindByte ≠ 0)
    (hg : g.kind.kindByte ≠ 0) (h : f.payload = g.payload) :
    f.kind = g.kind ∧ f.target = g.target ∧ f.extras = g.extras := by
  obtain ⟨k1, a1, x1, t1⟩ := f
  obtain ⟨k2, a2, x2, t2⟩ := g
  simp only [FixupRecord.payload, List.cons.injEq] at h
  simp only at hf hg ⊢
  obtain ⟨h1, h2⟩ := h
  refine ⟨?_, ?_, h2⟩
  · cases k1 <;> cases k2 <;> cases t1 <;> cases t2 <;>
      first | rfl | exact absurd rfl hf | exact absurd rfl hg | exact absurd h1 (by decide)
  · cases k1 <;> cases k2 <;> cases t1 <;> cases t2 <;>
      first | rfl | exact absurd rfl hf | exact absurd rfl hg | exact absurd h1 (by decide)

/-- Over one symbol table of at most 65536 names, the payload of a reloc entry determines
its kind, symbol name and extras. -/
theorem RelocRecord.payload_determines_name (syms : Unresolved) (hinv : syms.Inv)
    (hsmall : syms.num2str.length ≤ 65536) (r q : RelocRecord) (n m : Nat)
    (hr : r.kind.kindByte ≠ 0) (hq : q.kind.kindByte ≠ 0)
    (hn : syms.Find r.name = some n) (hm : syms.Find q.name = some m)
    (h : r.payload n = q.payload m) :
    r.kind = q.kind ∧ r.name = q.name ∧ r.extras = q.extras := by
  have hgn := (hinv.2 r.name n).mp hn
  have hgm := (hinv.2 q.name m).mp hm
  have hnlt : n < syms.num2str.length := by
    by_contra hge
    rw [List.getElem?_eq_none (by omega)] at hgn
    exact Option.noConfusion hgn
  have hmlt : m < syms.num2str.length := by
    by_contra hge
    rw [List.getElem?_eq_none (by omega)] at hgm
    exact Option.noConfusion hgm
  obtain ⟨k1, a1, x1, s1⟩ := r
  obtain ⟨k2, a2, x2, s2⟩ := q
  simp only [RelocRecord.payload, List.cons.injEq] at h
  simp only at hr hq hn hm hgn hgm ⊢
  obtain ⟨h1, h2, h3, h4⟩ := h
  have hnm : n = m := by omega
  subst hnm
  refine ⟨?_, ?_, h4⟩
  · cases k1 <;> cases k2 <;>
      first | rfl | exact absurd rfl hr | exact absurd rfl hq | exact absurd h1 (by decide)
  · rw [hgn] at hgm
    exact Option.some.inj hgm

/-- Two relocation streams are equal only if the address-keyed tables are, for segments
without a fixup into the segment of wire id 0 and with addresses in range. -/
theorem PutReloc_injective (seg1 seg2 : Segment) (syms1 syms2 : Unresolved)
    (hfound1 : ∀ r ∈ seg1.relocRecords, (syms1.Find r.name).isSome = true)
    (hlt1 : ∀ a ∈ seg1.relocAddresses, a < 2147483648)
    (hedge1 : ∀ a ∈ seg1.relocAddresses, a = 2147483647 → ∃ b ∈ seg1.relocAddresses, b < a)
    (hid1 : ∀ f ∈ seg1.fixupRecords, GetSegmentID f.target ≠ 0)
    (hfound2 : ∀ r ∈ seg2.relocRecords, (syms2.Find r.name).isSome = true)
    (hlt2 : ∀ a ∈ seg2.relocAddresses, a < 2147483648)
    (hedge2 : ∀ a ∈ seg2.relocAddresses, a = 2147483647 → ∃ b ∈ seg2.relocAddresses, b < a)
    (hid2 : ∀ f ∈ seg2.fixupRecords, GetSegmentID f.target ≠ 0)
    (heq : PutReloc seg1 syms1 = PutReloc seg2 syms2) :
    PutReloc.table seg1 syms1 = PutReloc.table seg2 syms2 := by
  obtain ⟨o1, h1, r1⟩ := PutReloc_read_back seg1 syms1 hfound1 hlt1 hedge1 hid1
  obtain ⟨o2, h2, r2⟩ := PutReloc_read_back seg2 syms2 hfound2 hlt2 hedge2 hid2
  rw [h1, h2] at heq
  have ho : o1 = o2 := by
    simpa using heq
  have e1 := r1 []
  have e2 := r2 []
  rw [ho, e2] at e1
  rw [PutReloc.table_eq seg1 syms1 hfound1, PutReloc.table_eq seg2 syms2 hfound2]
  simpa using e1.symm

/-- With the wire ids that the spec gives (the code segment has id 0), an unresolved SEGBYTE
reloc at address 0 on one side, a SEGBYTE fixup at address 0 and a LOBYTE fixup at address 1
into the code segment on the other, give the same stream `01 A0 00 00 01 20 00`. -/
theorem PutReloc_fixup_reloc_collision :
    collidingReloc.fixupRecords = [] ∧
    collidingReloc.relocRecords = [⟨.SEGBYTE, 0, [0x01, 0x20], ['e', 'x', 't']⟩] ∧
    collidingFixups.fixupRecords = [⟨.LOBYTE, 1, [], .CODE⟩, ⟨.SEGBYTE, 0, [0, 0], .CODE⟩] ∧
    collidingFixups.relocRecords = [] ∧
    PutReloc.table collidingReloc extOnly = some [(0, [0xA0, 0, 0, 0x01, 0x20])] ∧
    PutReloc.table collidingFixups extOnly = some [(0, [0xA0, 0, 0]), (1, [0x20])] ∧
    PutReloc collidingReloc extOnly = some ([0x01, 0xA0, 0, 0, 0x01, 0x20, 0], []) ∧
    PutReloc collidingFixups extOnly = some ([0x01, 0xA0, 0, 0, 0x01, 0x20, 0], []) := by
  decide


theorem PutLabels_count (labels : LabelMap) (c : Nat) (hc : c < 4294967296) :
    labels.foldl (fun c i => u32 (c + i.2.length)) c =
      (c + (labels.map (fun i => i.2.length)).sum) % 4294967296 := by
  induction labels generalizing c with
  | nil =>
    simp only [List.foldl_nil, List.map_nil, List.sum_nil, Nat.add_zero]
    omega
  | cons i rest ih =>
    simp only [List.foldl_cons, List.map_cons, List.sum_cons]
    have h1 : u32 (c + i.2.length) = (c + i.2.length) % 4294967296 := by
      unfold u32
      omega
    rw [h1, ih _ (Nat.mod_lt _ (by decide))]
    omega

/-- The layout of the label export: the count field holds the number of labels modulo 2^32,
the records follow scope level by scope level, and a count or address field reads back as
the value reduced to the width; it reads back exactly if the value fits the width. -/
theorem PutLabels_layout (seg : Segment) (segtype : SegmentSelection) (use32 : Bool) :
    PutLabels seg segtype use32 =
      PutWD ((seg.labels.map (fun i => i.2.length)).sum % 4294967296) use32 ++
        (seg.labels.flatMap (fun i => i.2)).flatMap (fun j =>
          PutCStr j.1 ++ [GetSegmentID segtype] ++ PutWD j.2 use32) ∧
    (∀ v, leValue (PutWD v false) = v % 65536) ∧
    (∀ v, leValue (PutWD v true) = v % 4294967296) := by
  refine ⟨?_, leValue_PutWD_narrow, ?_⟩
  · unfold PutLabels
    simp only [PutLabels_count seg.labels 0 (by decide), Nat.zero_add, List.flatMap_assoc]
    congr 1
    congr 1
    funext i
    congr 1
    funext j
    cases segtype <;> rfl
  · intro v
    simp only [PutWD, PutD, PutW, PutC, leValue, List.cons_append, List.nil_append, if_true]
    omega

/-! ## Reset -/

/-- C25 (as amended). For every Object state, the state after `ClearMost()` is that of a
freshly constructed Object except for `Linkage`, which `ClearMost` leaves as it is; it is
equal to the fresh state exactly when the linkage wish is the default one. -/
theorem Object.ClearMost_resets_all_but_Linkage (obj : Object) :
    obj.ClearMost = { Object.new with Linkage := obj.Linkage } ∧
    (obj.ClearMost).code = Segment.new ∧ (obj.ClearMost).data = Segment.new ∧
    (obj.ClearMost).zero = Segment.new ∧ (obj.ClearMost).bss = Segment.new ∧
    (obj.ClearMost).CurScope = 0 ∧ (obj.ClearMost).CurSegment = .CODE ∧
    (obj.ClearMost).Linkage = obj.Linkage ∧
    (obj.ClearMost = Object.new ↔ obj.Linkage = .LinkAnywhere) := by
  refine ⟨rfl, rfl, rfl, rfl, rfl, rfl, rfl, rfl, ?_⟩
  constructor
  · intro h
    have h2 := congrArg Object.Linkage h
    exact h2
  · intro h
    simp only [Object.ClearMost, Segment.ClearMost, Object.new, h]

/-- C25, counterexample: an Object whose linkage wish is group 1 keeps that wish through
`ClearMost()`, so the state differs from a freshly constructed Object. -/
theorem Object.ClearMost_keeps_Linkage :
    linkedObject.Linkage = .LinkInGroup 1 ∧
    linkedObject.ClearMost.Linkage = .LinkInGroup 1 ∧
    Object.new.Linkage = .LinkAnywhere ∧
    linkedObject.ClearMost ≠ Object.new := by
  decide

/-! ## The resolver as a partition -/

theorem Segment.CheckExterns_frame (seg : Segment) (CurScope : Nat) (obj : Object) :
    (seg.CheckExterns CurScope obj).labels = seg.labels ∧
    (seg.CheckExterns CurScope obj).Data = seg.Data ∧
    (seg.CheckExterns CurScope obj).Position = seg.Position ∧
    (seg.CheckExterns CurScope obj).R = seg.R := by
  obtain ⟨h1, h2, h3, h4⟩ := Segment.CheckExterns.loop_frame CurScope obj seg.Externs seg
  simp only [Segment.CheckExterns]
  exact ⟨h1, h2, h3, h4⟩

theorem List.length_filter_add_filterMap {α β γ : Type} (t : α → Option β) (f : α → β → γ)
    (l : List α) :
    (l.filter (fun e => (t e).isNone)).length + (l.filterMap (fun e => (t e).map (f e))).length
      = l.length := by
  induction l with
  | nil => rfl
  | cons a l ih =>
    cases h : t a <;> simp [List.filter_cons, List.filterMap_cons, h] <;> omega

theorem List.filterMap_map_eq_filter_map {α β γ δ : Type} (t : α → Option β) (f : α → β → γ)
    (g : γ → δ) (k : α → δ) (hk : ∀ a b, g (f a b) = k a) (l : List α) :
    (l.filterMap (fun e => (t e).map (f e))).map g =
      (l.filter (fun e => (t e).isSome)).map k := by
  induction l with
  | nil => rfl
  | cons a l ih =>
    cases h : t a <;> simp [List.filter_cons, List.filterMap_cons, h, ih, hk]

/-- C26. `CheckExterns` is a stable partition that preserves records: with `bound e` telling
whether the resolver binds the extern `e`, the extern list afterwards is the sublist of the
externs that are not bound, in their order and unchanged; the fixup list is the old fixup
list followed by one new fixup per bound extern, in the order of the extern list, with the
patch address, relocation kind and added value of that extern; the number of externs plus
fixups is unchanged; labels, data, Position and the RelocTable are not modified. -/
theorem Segment.CheckExterns_stable_partition (seg : Segment) (CurScope : Nat) (obj : Object) :
    ∃ (bound : Extern → Bool) (fresh : List Fixup),
      (seg.CheckExterns CurScope obj).Externs = seg.Externs.filter (fun e => !bound e) ∧
      (seg.CheckExterns CurScope obj).Externs.Sublist seg.Externs ∧
      (seg.CheckExterns CurScope obj).Fixups = seg.Fixups ++ fresh ∧
      fresh.map (fun f => (f.pos, f.type, f.value)) =
        (seg.Externs.filter bound).map (fun e => (e.pos, e.type, e.value)) ∧
      (seg.CheckExterns CurScope obj).Externs.length +
          (seg.CheckExterns CurScope obj).Fixups.length =
        seg.Externs.length + seg.Fixups.length ∧
      (seg.CheckExterns CurScope obj).labels = seg.labels ∧
      (seg.CheckExterns CurScope obj).Data = seg.Data ∧
      (seg.CheckExterns CurScope obj).Position = seg.Position ∧
      (seg.CheckExterns CurScope obj).R = seg.R := by
  obtain ⟨f1, f2, f3, f4⟩ := Segment.CheckExterns_frame seg CurScope obj
  have hE := Segment.CheckExterns_Externs seg CurScope obj
  have hF := Segment.CheckExterns_Fixups seg CurScope obj
  refine ⟨fun e => (Segment.CheckExterns.target CurScope obj e).isSome,
    seg.Externs.filterMap (fun e =>
      (Segment.CheckExterns.target CurScope obj e).map (Fixup.ofExtern e)),
    ?_, ?_, hF, ?_, ?_, f1, f2, f3, f4⟩
  · rw [hE]
    congr 1
    funext e
    cases h : Segment.CheckExterns.target CurScope obj e <;> simp [h]
  · rw [hE]
    exact List.filter_sublist _
  · exact List.filterMap_map_eq_filter_map _ Fixup.ofExtern _ _ (fun _ _ => rfl) _
  · rw [hE, hF, List.length_append]
    have := List.length_filter_add_filterMap (Segment.CheckExterns.target CurScope obj)
      Fixup.ofExtern seg.Externs
    omega

/-! ## Used labels -/

theorem Segment.CheckExterns.loop_unused_mono (CurScope : Nat) (obj : Object)
    (es : List Extern) (seg : Segment) (x : Str) (hx : x ∉ seg.UnusedLabels) :
    x ∉ (Segment.CheckExterns.loop CurScope obj es seg).2.UnusedLabels := by
  induction es generalizing seg with
  | nil => simpa [Segment.CheckExterns.loop] using hx
  | cons e rest ih =>
    unfold Segment.CheckExterns.loop
    by_cases hl : e.level < CurScope
    · simpa [hl] using ih seg hx
    · cases hs : Segment.CheckExterns.scan obj e.ref CurScope with
      | none => simpa [hl, hs] using ih seg hx
      | some t =>
        obtain ⟨a, b⟩ := t
        simp only [hl, if_false]
        apply ih
        simp only [Segment.MarkLabelUsed, StdSet.erase, List.mem_filter, not_and]
        intro h
        exact absurd h hx

theorem Segment.CheckExterns.loop_marks (CurScope : Nat) (obj : Object)
    (es : List Extern) (seg : Segment) (e : Extern) (he : e ∈ es)
    (ht : (Segment.CheckExterns.target CurScope obj e).isSome = true) :
    e.ref ∉ (Segment.CheckExterns.loop CurScope obj es seg).2.UnusedLabels := by
  induction es generalizing seg with
  | nil => simp at he
  | cons i rest ih =>
    unfold Segment.CheckExterns.loop
    rcases List.mem_cons.mp he with rfl | hmem
    · have hl : ¬ e.level < CurScope := by
        intro hl
        simp [Segment.CheckExterns.target, hl] at ht
      simp only [Segment.CheckExterns.target, hl, if_false] at ht
      obtain ⟨t, hs⟩ := Option.isSome_iff_exists.mp ht
      obtain ⟨a, b⟩ := t
      simp only [hl, if_false, hs]
      apply Segment.CheckExterns.loop_unused_mono
      simp [Segment.MarkLabelUsed, StdSet.erase]
    · by_cases hl : i.level < CurScope
      · simpa [hl] using ih seg hmem
      · cases hs : Segment.CheckExterns.scan obj i.ref CurScope with
        | none => simpa [hl, hs] using ih seg hmem
        | some t =>
          obtain ⟨a, b⟩ := t
          simp only [hl, if_false]
          exact ih _ hmem

/-- The name of every extern that `CheckExterns` binds is erased from the unused-label set
of the segment that holds the extern, and no name enters that set. -/
theorem Segment.CheckExterns_marks_own (seg : Segment) (CurScope : Nat) (obj : Object) :
    (∀ e ∈ seg.Externs, (Segment.CheckExterns.target CurScope obj e).isSome = true →
      e.ref ∉ (seg.CheckExterns CurScope obj).UnusedLabels) ∧
    (∀ x, x ∉ seg.UnusedLabels → x ∉ (seg.CheckExterns CurScope obj).UnusedLabels) := by
  constructor
  · intro e he ht
    simpa [Segment.CheckExterns] using
      Segment.CheckExterns.loop_marks CurScope obj seg.Externs seg e he ht
  · intro x hx
    simpa [Segment.CheckExterns] using
      Segment.CheckExterns.loop_unused_mono CurScope obj seg.Externs seg x hx

/-- C27, the code at the failing input. The data segment defines `x` at level 1 and the code
segment refers to it from the inner scope. `CheckExterns` binds the reference to the label
in the data segment, but calls `MarkLabelUsed` on the code segment: `x` stays in the
unused-label set of the data segment and `EndScope` warns about it. With label and
reference both in the code segment no warning is written. -/
theorem Object.EndScope_cross_segment_unused :
    crossSegmentReference.data.labels = [(1, [(['x'], 0)])] ∧
    crossSegmentReference.data.UnusedLabels = [['x']] ∧
    crossSegmentReference.code.Externs = [⟨0, .ABSWORD, 0, ['x'], 2⟩] ∧
    (crossSegmentReference.code.CheckExterns 2 crossSegmentReference).Externs = [] ∧
    (crossSegmentReference.code.CheckExterns 2 crossSegmentReference).Fixups =
      [⟨0, .ABSWORD, 0, .DATA, 0⟩] ∧
    (crossSegmentReference.data.CheckExterns 2 crossSegmentReference).UnusedLabels =
      [['x']] ∧
    (crossSegmentReference.EndScope warnAll).2 = [Diag.unusedLabel ['x']] ∧
    (sameSegmentReference.EndScope warnAll).1.code.Fixups = [⟨0, .ABSWORD, 0, .CODE, 0⟩] ∧
    (sameSegmentReference.EndScope warnAll).2 = [] := by
  decide

/-! ## The non-positive delta -/

theorem differences_pos (l : List Nat) (prev : Int)
    (hhead : ∀ a, l.head? = some a → prev < (a : Int))
    (hs : l.Pairwise (fun a b => a < b)) :
    ∀ d ∈ differences prev l, 1 ≤ d := by
  induction l generalizing prev with
  | nil => simp [differences]
  | cons a rest ih =>
    rw [List.pairwise_cons] at hs
    intro d hd
    simp only [differences, List.mem_cons] at hd
    rcases hd with rfl | hd
    · have := hhead a rfl
      omega
    · refine ih (a : Int) ?_ hs.2 d hd
      intro b hb
      exact_mod_cast hs.1 b (List.mem_of_mem_head? hb)

/-- C28 (as amended). For every segment RelocTable all of whose relocation and fixup
addresses are below `2^31`, the least of them below `2^31 - 1`, every delta of the emission
loop of `PutReloc` (entry address minus previous entry address, starting from -1) is at
least 1, no `Eep, diff` line is written, and the delta byte written after the bytes 255 of
every entry is in 1..254. -/
theorem PutReloc_delta_positive (seg : Segment) (syms : Unresolved)
    (hfound : ∀ r ∈ seg.relocRecords, (syms.Find r.name).isSome = true)
    (hlt : ∀ a ∈ seg.relocAddresses, a < 2147483648)
    (hedge : ∀ a ∈ seg.relocAddresses, a = 2147483647 → ∃ b ∈ seg.relocAddresses, b < a) :
    ∃ T : RelocMap,
      PutReloc.table seg syms = some T ∧
      (∀ d ∈ differences (-1) (T.map (fun e => e.1)), 1 ≤ d) ∧
      (PutReloc.emit (-1) T).2 = [] ∧
      (PutReloc seg syms).map (fun r => r.2) = some [] ∧
      (PutReloc.emit (-1) T).1 = (streamEntries (-1) T).flatMap StreamEntry.bytes ∧
      (∀ e ∈ streamEntries (-1) T, 1 ≤ e.last ∧ e.last ≤ 254) := by
  have hs := Segment.relocTable_sorted seg syms
  have hhead := Segment.relocTable_head seg syms hlt hedge
  have hemit := PutReloc.emit_spec (seg.relocTable syms) (-1) (by omega)
    (fun e he => hlt e.1 ((Segment.relocTable_keys seg syms e.1).mp ⟨e.2, he⟩)) hhead hs
  obtain ⟨_, p2, _⟩ := streamEntries_props (seg.relocTable syms) (-1)
    (fun e he => (hhead e he).1) hs
  refine ⟨seg.relocTable syms, PutReloc.table_eq seg syms hfound, ?_, ?_, ?_, ?_, p2⟩
  · apply differences_pos
    · intro a ha
      have h0 : (0 : Int) ≤ (a : Int) := Int.ofNat_nonneg _
      omega
    · rw [List.pairwise_map]
      exact hs
  · rw [hemit]
  · rw [PutReloc_delta_spec seg syms hfound hlt hedge]
    rfl
  · rw [hemit]

/-- C28, witness: fixups at the addresses 0, 1000 and 1001. -/
theorem PutReloc_delta_positive_witness :
    differences (-1) [0, 1000, 1001] = [1, 1000, 1] ∧
    ∃ T : RelocMap,
      PutReloc.table threeFixups Unresolved.new = some T ∧
      (∀ d ∈ differences (-1) (T.map (fun e => e.1)), 1 ≤ d) ∧
      (PutReloc.emit (-1) T).2 = [] :=
  ⟨by decide,
   (PutReloc_delta_positive threeFixups Unresolved.new (by decide) (by decide)
      (by decide)).imp fun _ h => ⟨h.1, h.2.1, h.2.2.1⟩⟩

/-- C28, counterexample: the only entry is an unresolved LONG reloc at `0x7FFFFFFF`, an
address below `2^31`. The delta computed from -1 is `-2^31`, the `Eep, diff` line is written
and the delta byte is `0x00`. -/
theorem PutReloc_top_reloc_eep :
    topRelocOnly.relocAddresses = [2147483647] ∧
    PutReloc.table topRelocOnly extOnly = some [(2147483647, [0xC0, 0, 0])] ∧
    PutReloc.emit (-1) [(2147483647, [0xC0, 0, 0])] =
      ([0x00, 0xC0, 0, 0], [Diag.eepDiff (-2147483648)]) ∧
    PutReloc topRelocOnly extOnly =
      some ([0x00, 0xC0, 0, 0, 0x00], [Diag.eepDiff (-2147483648)]) := by
  decide

/-! ## IPS payload chunks -/

theorem IPSwriteSeg.chunks_zero (K : IPSAddresses) (seg : Segment) (fuel addr : Nat) :
    IPSwriteSeg.chunks K seg fuel addr 0 = ([], addr) := by
  cases fuel <;> simp [IPSwriteSeg.chunks]

theorem IPSwriteSeg.chunks_eq (K : IPSAddresses) (seg : Segment) (fuel : Nat) :
    ∀ addr left, left ≤ fuel → addr + left ≤ 4294967296 →
      IPSwriteSeg.chunks K seg fuel addr left =
        ((List.range ((left + 19999) / 20000)).map (fun k =>
            IPSwriteSeg.pass K seg (addr + 20000 * k) (min 20000 (left - 20000 * k))),
          if left = 0 then addr else u32 (addr + left)) := by
  induction fuel with
  | zero =>
    intro addr left hfuel _
    have h0 : left = 0 := by omega
    subst h0
    simp [IPSwriteSeg.chunks]
  | succ fuel ih =>
    intro addr left hfuel hwrap
    by_cases h0 : left = 0
    · subst h0
      simp [IPSwriteSeg.chunks]
    · have hpos : left > 0 := Nat.pos_of_ne_zero h0
      simp only [IPSwriteSeg.chunks, hpos, if_true, h0, if_false]
      by_cases hbig : 20000 < left
      · have hc : ¬ (20000 > left) := by omega
        simp only [hc, if_false]
        have hu : u32 ((addr : Int) + ((20000 : Nat) : Int)) = addr + 20000 := by
          unfold u32
          omega
        have hn : (left + 19999) / 20000 = (left - 20000 + 19999) / 20000 + 1 := by omega
        rw [hu, ih (addr + 20000) (left - 20000) (by omega) (by omega), hn,
          List.range_succ_eq_map, List.map_cons, List.map_map]
        have hne : ¬ (left - 20000 = 0) := by omega
        simp only [hne, if_false, Nat.mul_zero, Nat.add_zero, Nat.sub_zero]
        have hmin : min 20000 left = 20000 := by omega
        have hadd : u32 (((addr + 20000 : Nat) : Int) + ((left - 20000 : Nat) : Int)) =
            u32 ((addr : Int) + (left : Int)) := by
          unfold u32
          omega
        rw [hadd]
        refine Prod.ext ?_ rfl
        simp only [List.cons.injEq]
        refine ⟨congrArg _ hmin.symm, ?_⟩
        apply List.map_congr_left
        intro k _
        simp only [Function.comp_apply, Nat.succ_eq_add_one]
        have e1 : addr + 20000 + 20000 * k = addr + 20000 * (k + 1) := by omega
        have e2 : left - 20000 - 20000 * k = left - 20000 * (k + 1) := by omega
        rw [e1, e2]
      · have hcount : (if 20000 > left then left else 20000) = left := by
          split <;> omega
        have hn : (left + 19999) / 20000 = 1 := by omega
        have hmin : min 20000 left = left := by omega
        rw [hcount, Nat.sub_self, IPSwriteSeg.chunks_zero, hn,
          show List.range 1 = [0] from rfl]
        simp [hmin]

theorem DataArea.GetContentAt_append (d : DataArea) (a l1 l2 : Nat) :
    d.GetContentAt a (l1 + l2) = d.GetContentAt a l1 ++ d.GetContentAt (a + l1) l2 := by
  simp only [DataArea.GetContentAt, List.range_add, List.map_append, List.map_map]
  congr 1
  apply List.map_congr_left
  intro i _
  simp [Nat.add_assoc]

theorem IPSwriteSeg.chunks_data (K : IPSAddresses) (seg : Segment) (fuel : Nat) :
    ∀ addr left, left ≤ fuel → addr + left ≤ 4294967296 →
      (IPSwriteSeg.chunks K seg fuel addr left).1.flatMap (fun c => c.record.data) =
        seg.GetContentAt addr left := by
  induction fuel with
  | zero =>
    intro addr left hfuel _
    have h0 : left = 0 := by omega
    subst h0
    simp [IPSwriteSeg.chunks, Segment.GetContentAt, DataArea.GetContentAt]
  | succ fuel ih =>
    intro addr left hfuel hwrap
    by_cases h0 : left = 0
    · subst h0
      simp [IPSwriteSeg.chunks, Segment.GetContentAt, DataArea.GetContentAt]
    · have hpos : left > 0 := Nat.pos_of_ne_zero h0
      simp only [IPSwriteSeg.chunks, hpos, if_true, List.flatMap_cons, IPSwriteSeg.pass]
      generalize hcount : (if 20000 > left then left else 20000) = count
      have hc : count ≤ left ∧ 0 < count := by
        subst hcount
        split <;> omega
      by_cases hlast : count = left
      · rw [hlast, Nat.sub_self, IPSwriteSeg.chunks_zero]
        simp
      · have hu : u32 ((addr : Int) + (count : Int)) = addr + count := by
          unfold u32
          omega
        rw [hu, ih (addr + count) (left - count) (by omega) (by omega)]
        have hsplit : left = count + (left - count) := by omega
        conv_rhs => rw [hsplit]
        simp only [Segment.GetContentAt]
        rw [DataArea.GetContentAt_append]


/-! ## Blobs -/

theorem List.foldl_min_mem (l : List Nat) (a : Nat) : l.foldl min a ∈ a :: l := by
  induction l generalizing a with
  | nil => simp
  | cons b rest ih =>
    simp only [List.foldl_cons]
    have h := ih (min a b)
    rcases List.mem_cons.mp h with h1 | h1
    · rw [h1]
      by_cases hab : a ≤ b
      · simp [Nat.min_eq_left hab]
      · simp [Nat.min_eq_right (Nat.le_of_not_le hab)]
    · exact List.mem_cons_of_mem _ (List.mem_cons_of_mem _ h1)

theorem StdMap.mem_keys_of_find_isSome {ν : Type} (m : List (Nat × ν)) (k : Nat)
    (h : (StdMap.find m k).isSome = true) : k ∈ m.map (fun e => e.1) := by
  induction m with
  | nil => simp [StdMap.find] at h
  | cons e rest ih =>
    obtain ⟨k', v'⟩ := e
    simp only [StdMap.find] at h
    by_cases hk : k = k'
    · simp [hk]
    · simp only [hk, if_false] at h
      exact List.mem_cons_of_mem _ (ih h)

theorem DataArea.runLength_set (d : DataArea) (fuel : Nat) :
    ∀ a i, i < d.runLength fuel a → (StdMap.find d.bytes (a + i)).isSome = true := by
  induction fuel with
  | zero =>
    intro a i hi
    simp [DataArea.runLength] at hi
  | succ fuel ih =>
    intro a i hi
    simp only [DataArea.runLength] at hi
    by_cases hs : (StdMap.find d.bytes a).isSome = true
    · simp only [hs, if_true] at hi
      cases i with
      | zero => simpa using hs
      | succ i =>
        have := ih (a + 1) i (by omega)
        have e : a + (i + 1) = a + 1 + i := by omega
        rw [e]
        exact this
    · simp [hs] at hi

theorem DataArea.FindNextBlob_start (d : DataArea) (pos : Nat)
    (h : (d.FindNextBlob pos).2 ≠ 0) :
    pos ≤ (d.FindNextBlob pos).1 ∧ (d.FindNextBlob pos).1 ∈ d.bytes.map (fun e => e.1) := by
  unfold DataArea.FindNextBlob at h ⊢
  cases hf : (d.bytes.map (fun e => e.1)).filter (fun a => decide (pos ≤ a)) with
  | nil => simp [hf] at h
  | cons a rest =>
    simp only
    have hmem : rest.foldl min a ∈
        (d.bytes.map (fun e => e.1)).filter (fun a => decide (pos ≤ a)) := by
      rw [hf]
      exact List.foldl_min_mem rest a
    rw [List.mem_filter] at hmem
    exact ⟨by simpa using hmem.2, hmem.1⟩

theorem DataArea.FindNextBlob_bound (d : DataArea) (pos B : Nat)
    (hkeys : ∀ e ∈ d.bytes, e.1 < B) (h : (d.FindNextBlob pos).2 ≠ 0) :
    (d.FindNextBlob pos).1 + (d.FindNextBlob pos).2 ≤ B := by
  unfold DataArea.FindNextBlob at h ⊢
  cases hf : (d.bytes.map (fun e => e.1)).filter (fun a => decide (pos ≤ a)) with
  | nil => simp [hf] at h
  | cons a rest =>
    simp only [hf] at h ⊢
    generalize rest.foldl min a = start at h ⊢
    generalize hR : d.runLength d.bytes.length start = R at h ⊢
    have hRpos : 0 < R := by
      rcases Nat.eq_zero_or_pos R with h0 | h0
      · subst h0
        exact absurd rfl h
      · exact h0
    have hlast := DataArea.runLength_set d d.bytes.length start (R - 1) (by omega)
    have hkey := StdMap.mem_keys_of_find_isSome d.bytes _ hlast
    obtain ⟨e, he, hek⟩ := List.mem_map.mp hkey
    have := hkeys e he
    have hu : u32 (R : Int) ≤ R := by
      unfold u32
      omega
    omega


theorem IPSwriteSeg.chunks_pass (K : IPSAddresses) (seg : Segment) (fuel : Nat) :
    ∀ addr left, ∀ c ∈ (IPSwriteSeg.chunks K seg fuel addr left).1,
      c = IPSwriteSeg.pass K seg c.addr c.count ∧ 1 ≤ c.count ∧ c.count ≤ 20000 := by
  induction fuel with
  | zero =>
    intro addr left c hc
    simp [IPSwriteSeg.chunks] at hc
  | succ fuel ih =>
    intro addr left c hc
    simp only [IPSwriteSeg.chunks] at hc
    by_cases hpos : left > 0
    · simp only [hpos, if_true, List.mem_cons] at hc
      rcases hc with rfl | hc
      · refine ⟨rfl, ?_, ?_⟩ <;> simp only [IPSwriteSeg.pass] <;> split <;> omega
      · exact ih _ _ c hc
    · simp [hpos] at hc

theorem IPSwriteSeg.blobs_pass (K : IPSAddresses) (seg : Segment) (fuel : Nat) :
    ∀ addr, ∀ c ∈ (IPSwriteSeg.blobs K seg fuel addr).1,
      c = IPSwriteSeg.pass K seg c.addr c.count ∧ 1 ≤ c.count ∧ c.count ≤ 20000 := by
  induction fuel with
  | zero =>
    intro addr c hc
    simp [IPSwriteSeg.blobs] at hc
  | succ fuel ih =>
    intro addr c hc
    simp only [IPSwriteSeg.blobs] at hc
    by_cases hz : (seg.FindNextBlob addr).2 = 0
    · simp [hz] at hc
    · simp only [hz, if_false, List.mem_append] at hc
      rcases hc with hc | hc
      · exact IPSwriteSeg.chunks_pass K seg _ _ _ c hc
      · exact ih _ c hc

theorem List.length_filter_le_of_imp {α : Type} (p q : α → Bool) (l : List α)
    (himp : ∀ x, p x = true → q x = true) :
    (l.filter p).length ≤ (l.filter q).length := by
  induction l with
  | nil => simp
  | cons a rest ih =>
    cases hpa : p a
    · cases hqa : q a
      · simpa [List.filter_cons, hpa, hqa] using ih
      · simp only [List.filter_cons, hpa, hqa, if_true, List.length_cons]
        simp only [Bool.false_eq_true, if_false]
        omega
    · simp only [List.filter_cons, hpa, himp a hpa, if_true, List.length_cons]
      omega

theorem List.length_filter_lt_of_imp {α : Type} (p q : α → Bool) (l : List α)
    (himp : ∀ x, p x = true → q x = true) (x : α) (hx : x ∈ l) (hq : q x = true)
    (hp : p x = false) : (l.filter p).length < (l.filter q).length := by
  induction l with
  | nil => simp at hx
  | cons a rest ih =>
    have hle := List.length_filter_le_of_imp p q rest himp
    rcases List.mem_cons.mp hx with rfl | hmem
    · simp only [List.filter_cons, hp, hq, if_true, List.length_cons]
      simp only [Bool.false_eq_true, if_false]
      omega
    · have hlt := ih hmem
      cases hpa : p a
      · cases hqa : q a
        · simpa [List.filter_cons, hpa, hqa] using hlt
        · simp only [List.filter_cons, hpa, hqa, if_true, List.length_cons]
          simp only [Bool.false_eq_true, if_false]
          omega
      · simp only [List.filter_cons, hpa, himp a hpa, if_true, List.length_cons]
        omega

theorem IPSwriteSeg.blobs_finished (K : IPSAddresses) (seg : Segment)
    (hkeys : ∀ e ∈ seg.Data.bytes, e.1 < 4294967295) (fuel : Nat) :
    ∀ addr,
      ((seg.Data.bytes.map (fun e => e.1)).filter (fun a => decide (addr ≤ a))).length < fuel →
      (IPSwriteSeg.blobs K seg fuel addr).2 = true := by
  induction fuel with
  | zero =>
    intro addr h
    omega
  | succ fuel ih =>
    intro addr hm
    simp only [IPSwriteSeg.blobs]
    by_cases hz : (seg.FindNextBlob addr).2 = 0
    · simp [hz]
    · simp only [hz, if_false]
      obtain ⟨hge, hkey⟩ := DataArea.FindNextBlob_start seg.Data addr hz
      have hb := DataArea.FindNextBlob_bound seg.Data addr 4294967295 hkeys hz
      have hpos : 0 < (seg.FindNextBlob addr).2 := Nat.pos_of_ne_zero hz
      simp only [Segment.FindNextBlob] at hpos hz ⊢
      rw [IPSwriteSeg.chunks_eq K seg _ _ _ (Nat.le_refl _) (by omega)]
      simp only [hz, if_false]
      have hu : u32 (((seg.Data.FindNextBlob addr).1 : Int) + ((seg.Data.FindNextBlob addr).2 : Int))
          = (seg.Data.FindNextBlob addr).1 + (seg.Data.FindNextBlob addr).2 := by
        unfold u32
        omega
      rw [hu]
      apply ih
      have hlt := List.length_filter_lt_of_imp
        (fun a => decide ((seg.Data.FindNextBlob addr).1 + (seg.Data.FindNextBlob addr).2 ≤ a))
        (fun a => decide (addr ≤ a)) (seg.Data.bytes.map (fun e => e.1))
        (by
          intro x hx
          simp only [decide_eq_true_eq] at hx ⊢
          omega)
        (seg.Data.FindNextBlob addr).1 hkey (by simpa using hge)
        (by
          simp only [decide_eq_false_iff_not]
          omega)
      omega

theorem IPSwriteSeg.payload_total (K : IPSAddresses) (seg : Segment)
    (hkeys : ∀ e ∈ seg.Data.bytes, e.1 < 4294967295) :
    IPSwriteSeg.payload K seg =
      some (IPSwriteSeg.blobs K seg (seg.Data.bytes.length + 1) 0).1 := by
  unfold IPSwriteSeg.payload
  have h := IPSwriteSeg.blobs_finished K seg hkeys (seg.Data.bytes.length + 1) 0
    (by
      have := List.length_filter_le (fun a => decide (0 ≤ a))
        (seg.Data.bytes.map (fun e => e.1))
      simp only [List.length_map] at this
      omega)
  simp [h]


/-! ## IPS address and length fields -/

theorem PutL_of_lt (w : Nat) (h : w < 16777216) :
    PutL w = [w / 65536, w / 256 % 256, w % 256] ∧ beValue (PutL w) = w := by
  have e : PutL w = [w / 65536, w / 256 % 256, w % 256] := by
    simp only [PutL, PutC, List.cons_append, List.nil_append, List.cons.injEq, and_true]
    omega
  refine ⟨e, ?_⟩
  rw [e]
  simp only [beValue, List.foldl_cons, List.foldl_nil]
  omega

theorem PutMW_of_lt (w : Nat) (h : w < 65536) :
    PutMW w = [w / 256, w % 256] ∧ beValue (PutMW w) = w := by
  have e : PutMW w = [w / 256, w % 256] := by
    simp only [PutMW, PutC, List.cons_append, List.nil_append, List.cons.injEq, and_true]
    omega
  refine ⟨e, ?_⟩
  rw [e]
  simp only [beValue, List.foldl_cons, List.foldl_nil]
  omega

theorem IPSwriteSeg.check_ne_nil (K : IPSAddresses) (addr : Nat) :
    IPSwriteSeg.check K addr ≠ [] ↔
      (addr = K.IPS_EOF_MARKER ∨ addr = K.IPS_ADDRESS_EXTERN ∨ addr = K.IPS_ADDRESS_GLOBAL
        ∨ 0xFFFFFF < addr) := by
  unfold IPSwriteSeg.check
  split_ifs with h1 h2 h3 h4
  · simp [h1]
  · simp [h2]
  · simp [h3]
  · simp only [ne_eq, List.cons_ne_nil, not_false_eq_true, true_iff]
    exact Or.inr (Or.inr (Or.inr h4))
  · simp only [ne_eq, not_true_eq_false, false_iff]
    rintro (h | h | h | h)
    · exact h1 h
    · exact h2 h
    · exact h3 h
    · exact h4 h

theorem IPSwriteSeg_eq (K : IPSAddresses) (seg : Segment)
    (hkeys : ∀ e ∈ seg.Data.bytes, e.1 < 4294967295) :
    IPSwriteSeg K seg =
      some ((IPSwriteSeg.symbols K seg).1 ++
          (IPSwriteSeg.blobs K seg (seg.Data.bytes.length + 1) 0).1.map (fun c => c.record),
        (IPSwriteSeg.symbols K seg).2 ++
          (IPSwriteSeg.blobs K seg (seg.Data.bytes.length + 1) 0).1.flatMap
            (fun c => c.errors)) := by
  unfold IPSwriteSeg
  rw [IPSwriteSeg.payload_total K seg hkeys]
  rfl

/-- C21. IPS address non-collision, for pseudo-address constants above `0x3FFFFF` (as the
values of the spec are): in every pass of the chunk loops of `IPSwriteSeg`, however far the
blob loop has run, the 24-bit address field of the record written is the address masked to
22 bits and equals none of `IPS_ADDRESS_GLOBAL`, `IPS_ADDRESS_EXTERN` and `IPS_EOF_MARKER`;
whenever the target address of the pass equals one of the three or exceeds `0xFFFFFF`, an
error is written in that pass. If the stored addresses are below `2^32 - 1` the blob loop
ends, and the records and errors of its passes are the payload part of the output. -/
theorem IPSwriteSeg_address_non_collision (K : IPSAddresses) (seg : Segment)
    (hE : 0x3FFFFF < K.IPS_EOF_MARKER) (hX : 0x3FFFFF < K.IPS_ADDRESS_EXTERN)
    (hG : 0x3FFFFF < K.IPS_ADDRESS_GLOBAL) :
    (∀ fuel addr, ∀ c ∈ (IPSwriteSeg.blobs K seg fuel addr).1,
      c.record.address = c.addr % 4194304 ∧
      beValue (PutL c.record.address) = c.record.address ∧
      c.record.address ≠ K.IPS_ADDRESS_GLOBAL ∧
      c.record.address ≠ K.IPS_ADDRESS_EXTERN ∧
      c.record.address ≠ K.IPS_EOF_MARKER ∧
      ((c.addr = K.IPS_EOF_MARKER ∨ c.addr = K.IPS_ADDRESS_EXTERN ∨
          c.addr = K.IPS_ADDRESS_GLOBAL ∨ 0xFFFFFF < c.addr) → c.errors ≠ [])) ∧
    ((∀ e ∈ seg.Data.bytes, e.1 < 4294967295) →
      ∃ cs, IPSwriteSeg.payload K seg = some cs ∧
        IPSwriteSeg K seg =
          some ((IPSwriteSeg.symbols K seg).1 ++ cs.map (fun c => c.record),
            (IPSwriteSeg.symbols K seg).2 ++ cs.flatMap (fun c => c.errors))) := by
  constructor
  · intro fuel addr c hc
    obtain ⟨hpass, _, _⟩ := IPSwriteSeg.blobs_pass K seg fuel addr c hc
    have ha : c.record.address = c.addr % 4194304 := by
      rw [hpass]
      rfl
    have he : c.errors = IPSwriteSeg.check K c.addr := by
      rw [hpass]
      rfl
    have hlt : c.record.address < 4194304 := by
      rw [ha]
      exact Nat.mod_lt _ (by decide)
    refine ⟨ha, (PutL_of_lt _ (by omega)).2, by omega, by omega, by omega, ?_⟩
    intro h
    rw [he]
    exact (IPSwriteSeg.check_ne_nil K c.addr).mpr h
  · intro hkeys
    exact ⟨_, IPSwriteSeg.payload_total K seg hkeys, IPSwriteSeg_eq K seg hkeys⟩

/-- C21, witness: the constants of the spec and a segment with one byte at the address of
`IPS_EOF_MARKER`; the record goes to `0x054F46` and the error is written. -/
theorem IPSwriteSeg_address_non_collision_witness :
    IPSwriteSeg IPSAddresses.ofSpec markerByte =
      some ([⟨0x054F46, 1, [0x99]⟩], [Diag.ipsNotAllowed 0x454F46]) ∧
    ∀ fuel addr, ∀ c ∈ (IPSwriteSeg.blobs IPSAddresses.ofSpec markerByte fuel addr).1,
      c.record.address ≠ IPSAddresses.ofSpec.IPS_ADDRESS_GLOBAL ∧
      c.record.address ≠ IPSAddresses.ofSpec.IPS_ADDRESS_EXTERN ∧
      c.record.address ≠ IPSAddresses.ofSpec.IPS_EOF_MARKER :=
  ⟨by decide, fun fuel addr c hc =>
    have h := ((IPSwriteSeg_address_non_collision IPSAddresses.ofSpec markerByte (by decide)
      (by decide) (by decide)).1 fuel addr c hc).2.2
    ⟨h.1, h.2.1, h.2.2.1⟩⟩


/-- C22. IPS payload chunking: for every blob `(addr, len)` with `len > 0` that
`FindNextBlob` returns for a data area of 32-bit addresses, the chunk loop of `IPSwriteSeg`
makes `ceil(len / 20000)` passes and ends (more fuel changes nothing); the pass `k` has the
target address `addr + 20000*k` and writes the address field `(addr + 20000*k) & 0x3FFFFF`
as three bytes, most significant first, a count between 1 and 20000 as two bytes, most
significant first, which is 20000 except in the last pass, and the `count` bytes of
`GetContent` from its target address; the data of all passes together is
`GetContent(addr, len)`. These passes are what the blob loop contributes for the blob before
it goes on from `addr + len`. -/
theorem IPSwriteSeg_chunking (K : IPSAddresses) (seg : Segment) (pos addr len : Nat)
    (hkeys : ∀ e ∈ seg.Data.bytes, e.1 < 4294967296)
    (hblob : seg.FindNextBlob pos = (addr, len)) (hlen : 0 < len) :
    (IPSwriteSeg.chunks K seg len addr len).1.length = (len + 19999) / 20000 ∧
    (∀ k c, (IPSwriteSeg.chunks K seg len addr len).1[k]? = some c →
      c.addr = addr + 20000 * k ∧
      c.record.address = (addr + 20000 * k) % 4194304 ∧
      PutL c.record.address =
        [c.record.address / 65536, c.record.address / 256 % 256, c.record.address % 256] ∧
      1 ≤ c.count ∧ c.count ≤ 20000 ∧
      (k + 1 < (len + 19999) / 20000 → c.count = 20000) ∧
      c.record.length = c.count ∧
      PutMW c.record.length = [c.count / 256, c.count % 256] ∧
      c.record.data = seg.GetContentAt (addr + 20000 * k) c.count ∧
      c.record.data.length = c.count) ∧
    (IPSwriteSeg.chunks K seg len addr len).1.flatMap (fun c => c.record.data) =
      seg.GetContentAt addr len ∧
    (∀ fuel, len ≤ fuel →
      IPSwriteSeg.chunks K seg fuel addr len = IPSwriteSeg.chunks K seg len addr len) ∧
    (∀ fuel, (IPSwriteSeg.blobs K seg (fuel + 1) pos).1 =
      (IPSwriteSeg.chunks K seg len addr len).1 ++
        (IPSwriteSeg.blobs K seg fuel (u32 (addr + len))).1) := by
  have h1 : (seg.Data.FindNextBlob pos).1 = addr := congrArg Prod.fst hblob
  have h2 : (seg.Data.FindNextBlob pos).2 = len := congrArg Prod.snd hblob
  have hbound : addr + len ≤ 4294967296 := by
    have := DataArea.FindNextBlob_bound seg.Data pos 4294967296 hkeys (by omega)
    omega
  have hE := IPSwriteSeg.chunks_eq K seg len addr len (Nat.le_refl _) hbound
  refine ⟨?_, ?_, IPSwriteSeg.chunks_data K seg len addr len (Nat.le_refl _) hbound, ?_, ?_⟩
  · rw [hE]
    simp
  · intro k c hc
    rw [hE] at hc
    simp only at hc
    have hk : k < (len + 19999) / 20000 := by
      by_contra hge
      rw [List.getElem?_eq_none (by simpa using Nat.le_of_not_lt hge)] at hc
      cases hc
    rw [List.getElem?_eq_getElem (by simpa using hk)] at hc
    simp only [List.getElem_map, List.getElem_range, Option.some.injEq] at hc
    subst hc
    have hc1 : 1 ≤ min 20000 (len - 20000 * k) := by omega
    have hc2 : min 20000 (len - 20000 * k) ≤ 20000 := by omega
    refine ⟨rfl, rfl, (PutL_of_lt _ ?_).1, hc1, hc2, ?_, rfl,
      (PutMW_of_lt (min 20000 (len - 20000 * k)) (by omega)).1, rfl, ?_⟩
    · have := Nat.mod_lt (addr + 20000 * k) (show 0 < 4194304 by decide)
      show (addr + 20000 * k) % 4194304 < 16777216
      omega
    · intro hnext
      show min 20000 (len - 20000 * k) = 20000
      omega
    · simp [IPSwriteSeg.pass, Segment.GetContentAt, DataArea.GetContentAt]
  · intro fuel hfuel
    rw [hE, IPSwriteSeg.chunks_eq K seg fuel addr len hfuel hbound]
  · intro fuel
    have hne : ¬ (len = 0) := by omega
    simp only [IPSwriteSeg.blobs, hblob, hne, if_false]
    rw [hE]
    simp only [hne, if_false]

/-- C22, witness: scenario S5. The blob found from address 0 is the byte `0x42` at `0x100`;
the payload of the code segment is `00 01 00 00 01 42` and `00 02 00 00 01 43`. -/
theorem IPSwriteSeg_chunking_witness :
    (IPSwriteSeg IPSAddresses.ofSpec scenarioS5Object.code).map
        (fun r => r.1.map IPSRecord.bytes) =
      some [[0x00, 0x01, 0x00, 0x00, 0x01, 0x42], [0x00, 0x02, 0x00, 0x00, 0x01, 0x43]] ∧
    scenarioS5Object.WriteIPS IPSAddresses.ofSpec =
      some ([0x50, 0x41, 0x54, 0x43, 0x48, 0x00, 0x01, 0x00, 0x00, 0x01, 0x42,
             0x00, 0x02, 0x00, 0x00, 0x01, 0x43, 0x45, 0x4F, 0x46], []) ∧
    (IPSwriteSeg.chunks IPSAddresses.ofSpec scenarioS5Object.code 1 0x100 1).1.length = 1 ∧
    (IPSwriteSeg.chunks IPSAddresses.ofSpec scenarioS5Object.code 1 0x100 1).1.flatMap
        (fun c => c.record.data) = scenarioS5Object.code.GetContentAt 0x100 1 :=
  ⟨by decide, by decide,
   (IPSwriteSeg_chunking IPSAddresses.ofSpec scenarioS5Object.code 0 0x100 1 (by decide)
      (by decide) (by decide)).1,
   (IPSwriteSeg_chunking IPSAddresses.ofSpec scenarioS5Object.code 0 0x100 1 (by decide)
      (by decide) (by decide)).2.2.1⟩

/-- C24 (as amended). For every segment content and every pass of the chunk loops of
`IPSwriteSeg`: an error is written in the pass exactly when the target address equals
`IPS_EOF_MARKER`, `IPS_ADDRESS_EXTERN` or `IPS_ADDRESS_GLOBAL` or exceeds `0xFFFFFF`, and in
every pass, with or without error, the record is written, with the target address masked to
22 bits, the count and the `count` bytes of `GetContent`. If the stored addresses are below
`2^32 - 1` the blob loop ends and the output holds one payload record per pass. -/
theorem IPSwriteSeg_error_keeps_record (K : IPSAddresses) (seg : Segment) :
    (∀ fuel addr, ∀ c ∈ (IPSwriteSeg.blobs K seg fuel addr).1,
      c.record = ⟨c.addr % 4194304, c.count, seg.GetContentAt c.addr c.count⟩ ∧
      1 ≤ c.count ∧ c.count ≤ 20000 ∧
      c.errors = IPSwriteSeg.check K c.addr ∧
      (c.errors ≠ [] ↔
        (c.addr = K.IPS_EOF_MARKER ∨ c.addr = K.IPS_ADDRESS_EXTERN ∨
          c.addr = K.IPS_ADDRESS_GLOBAL ∨ 0xFFFFFF < c.addr))) ∧
    ((∀ e ∈ seg.Data.bytes, e.1 < 4294967295) →
      ∃ cs recs diags, IPSwriteSeg.payload K seg = some cs ∧
        IPSwriteSeg K seg = some (recs, diags) ∧
        recs = (IPSwriteSeg.symbols K seg).1 ++ cs.map (fun c => c.record) ∧
        recs.length = (IPSwriteSeg.symbols K seg).1.length + cs.length ∧
        diags = (IPSwriteSeg.symbols K seg).2 ++ cs.flatMap (fun c => c.errors)) := by
  constructor
  · intro fuel addr c hc
    obtain ⟨hpass, h1, h2⟩ := IPSwriteSeg.blobs_pass K seg fuel addr c hc
    have hr : c.record = ⟨c.addr % 4194304, c.count, seg.GetContentAt c.addr c.count⟩ := by
      conv_lhs => rw [hpass]
      rfl
    have he : c.errors = IPSwriteSeg.check K c.addr := by
      conv_lhs => rw [hpass]
      rfl
    refine ⟨hr, h1, h2, he, ?_⟩
    rw [he]
    exact IPSwriteSeg.check_ne_nil K c.addr
  · intro hkeys
    exact ⟨_, _, _, IPSwriteSeg.payload_total K seg hkeys, IPSwriteSeg_eq K seg hkeys, rfl,
      by simp, rfl⟩

/-- C24, counterexample: the only byte of the segment lies at `0x1000000`, above `0xFFFFFF`.
`IPSwriteSeg` writes the error and also the payload record, to the address 0. -/
theorem IPSwriteSeg_too_big_still_written :
    farByte.Data.bytes = [(0x1000000, 0x99)] ∧
    IPSwriteSeg.payload IPSAddresses.ofSpec farByte =
      some [⟨0x1000000, 1, [Diag.ipsTooBig 0x1000000], ⟨0, 1, [0x99]⟩⟩] ∧
    IPSwriteSeg IPSAddresses.ofSpec farByte =
      some ([⟨0, 1, [0x99]⟩], [Diag.ipsTooBig 0x1000000]) ∧
    (⟨0, 1, [0x99]⟩ : IPSRecord).bytes = [0x00, 0x00, 0x00, 0x00, 0x01, 0x99] := by
  decide


/-! ## IPS symbol patches -/

theorem IPSwriteSeg.symbols_records (K : IPSAddresses) (seg : Segment) :
    (IPSwriteSeg.symbols K seg).1 =
      (seg.labels.flatMap (fun i => i.2)).map (IPSwriteSeg.labelRecord K)
        ++ seg.R.R16lo.Relocs.map (IPSwriteSeg.externRecord K 1)
        ++ seg.R.R16.Relocs.map (IPSwriteSeg.externRecord K 2)
        ++ seg.R.R24.Relocs.map (IPSwriteSeg.externRecord K 3) := by
  simp only [IPSwriteSeg.symbols, IPSwriteSeg.patches, List.map_append, List.map_map,
    List.map_flatMap]
  congr 1
  · congr 1
    · congr 1
      · rw [List.flatMap_def, List.flatMap_def]
        congr 1
        apply List.map_congr_left
        intro i _
        apply List.map_congr_left
        intro j _
        simp [BuildGlobalPatch, IPSwriteSeg.labelRecord, strBytes]
      · apply List.map_congr_left
        intro i _
        simp [BuildExternPatch, IPSwriteSeg.externRecord, strBytes]
    · apply List.map_congr_left
      intro i _
      simp [BuildExternPatch, IPSwriteSeg.externRecord, strBytes]
  · apply List.map_congr_left
    intro i _
    simp [BuildExternPatch, IPSwriteSeg.externRecord, strBytes]

theorem Object.WriteIPS_eq (K : IPSAddresses) (obj : Object)
    (c d b z : List IPSRecord × List Diag)
    (hc : IPSwriteSeg K obj.code = some c) (hd : IPSwriteSeg K obj.data = some d)
    (hb : IPSwriteSeg K obj.bss = some b) (hz : IPSwriteSeg K obj.zero = some z) :
    obj.WriteIPS K =
      some ([0x50, 0x41, 0x54, 0x43, 0x48]
        ++ c.1.flatMap IPSRecord.bytes ++ d.1.flatMap IPSRecord.bytes
        ++ b.1.flatMap IPSRecord.bytes ++ z.1.flatMap IPSRecord.bytes
        ++ [0x45, 0x4F, 0x46],
        (if obj.Linkage ≠ .LinkAnywhere then [Diag.ipsLinkIgnored] else [])
          ++ c.2 ++ d.2 ++ b.2 ++ z.2) := by
  simp [Object.WriteIPS, hc, hd, hb, hz]


theorem IPSwriteSeg.symbols_data_length (K : IPSAddresses) (seg : Segment) :
    ∀ r ∈ (IPSwriteSeg.symbols K seg).1, r.data.length = r.length := by
  intro r hr
  simp only [IPSwriteSeg.symbols, List.mem_map] at hr
  obtain ⟨i, _, rfl⟩ := hr
  rfl

theorem IPSwriteSeg_some (K : IPSAddresses) (seg : Segment) (recs : List IPSRecord)
    (diags : List Diag) (h : IPSwriteSeg K seg = some (recs, diags)) :
    ∃ cs, IPSwriteSeg.payload K seg = some cs ∧
      recs = (IPSwriteSeg.symbols K seg).1 ++ cs.map (fun c => c.record) ∧
      diags = (IPSwriteSeg.symbols K seg).2 ++ cs.flatMap (fun c => c.errors) := by
  unfold IPSwriteSeg at h
  cases hp : IPSwriteSeg.payload K seg with
  | none => simp [hp] at h
  | some cs =>
    simp only [hp, Option.map_some', Option.some.injEq, Prod.mk.injEq] at h
    exact ⟨cs, rfl, h.1.symm, h.2.symm⟩

/-- C23 (as amended). IPS symbol patches, for label names shorter than 65532 characters and
reloc names shorter than 65531 characters. For every segment, the records that
`IPSwriteSeg` writes before any payload record are one per label (`IPS_ADDRESS_GLOBAL`,
length `|name| + 4`, then name, `0x00` and the three address bytes with the top one masked
by `0x3F`) for all labels first, then one per unresolved LOBYTE, ABSWORD and LONG reloc
(`IPS_ADDRESS_EXTERN`, length `|name| + 5`, then name, `0x00`, the three address bytes and a
size byte 1, 2 or 3); each is written as the three address bytes, the two length bytes, most
significant first, and the data. HIBYTE and SEGBYTE relocs give no record but one error
each kind. `WriteIPS` writes `PATCH`, the segments in the order CODE, DATA, BSS, ZERO, and
`EOF`. -/
theorem IPSwriteSeg_symbol_patches (K : IPSAddresses) (obj : Object)
    (hlab : ∀ sel, ∀ i ∈ (obj.seg sel).labels, ∀ j ∈ i.2, j.1.length + 4 < 65536)
    (hrel : ∀ sel, ∀ i ∈ (obj.seg sel).R.R16lo.Relocs ++ (obj.seg sel).R.R16.Relocs
      ++ (obj.seg sel).R.R24.Relocs, i.2.length + 5 < 65536) :
    (∀ sel,
      (IPSwriteSeg.symbols K (obj.seg sel)).1 =
        ((obj.seg sel).labels.flatMap (fun i => i.2)).map (IPSwriteSeg.labelRecord K)
          ++ (obj.seg sel).R.R16lo.Relocs.map (IPSwriteSeg.externRecord K 1)
          ++ (obj.seg sel).R.R16.Relocs.map (IPSwriteSeg.externRecord K 2)
          ++ (obj.seg sel).R.R24.Relocs.map (IPSwriteSeg.externRecord K 3) ∧
      (∀ r ∈ (IPSwriteSeg.symbols K (obj.seg sel)).1,
        r.data.length = r.length ∧
        r.bytes = PutL r.address ++ [r.length / 256, r.length % 256] ++ r.data) ∧
      (IPSwriteSeg.symbols K (obj.seg sel)).2 =
        (if (obj.seg sel).R.R16hi.Relocs ≠ [] then [Diag.ipsHiByteExterns] else [])
          ++ (if (obj.seg sel).R.R24seg.Relocs ≠ [] then [Diag.ipsSegmentExterns] else []) ∧
      (∀ recs diags, IPSwriteSeg K (obj.seg sel) = some (recs, diags) →
        ∃ cs, IPSwriteSeg.payload K (obj.seg sel) = some cs ∧
          recs = (IPSwriteSeg.symbols K (obj.seg sel)).1 ++ cs.map (fun c => c.record) ∧
          diags = (IPSwriteSeg.symbols K (obj.seg sel)).2
            ++ cs.flatMap (fun c => c.errors))) ∧
    ((∀ sel, ∀ e ∈ (obj.seg sel).Data.bytes, e.1 < 4294967295) →
      ∃ c d b z, IPSwriteSeg K obj.code = some c ∧ IPSwriteSeg K obj.data = some d ∧
        IPSwriteSeg K obj.bss = some b ∧ IPSwriteSeg K obj.zero = some z ∧
        obj.WriteIPS K =
          some ([0x50, 0x41, 0x54, 0x43, 0x48]
            ++ c.1.flatMap IPSRecord.bytes ++ d.1.flatMap IPSRecord.bytes
            ++ b.1.flatMap IPSRecord.bytes ++ z.1.flatMap IPSRecord.bytes
            ++ [0x45, 0x4F, 0x46],
            (if obj.Linkage ≠ .LinkAnywhere then [Diag.ipsLinkIgnored] else [])
              ++ c.2 ++ d.2 ++ b.2 ++ z.2)) := by
  constructor
  · intro sel
    refine ⟨IPSwriteSeg.symbols_records K (obj.seg sel), ?_, rfl,
      IPSwriteSeg_some K (obj.seg sel)⟩
    intro r hr
    have hlen : r.length < 65536 := by
      rw [IPSwriteSeg.symbols_records] at hr
      simp only [List.mem_append, List.mem_map, List.mem_flatMap] at hr
      rcases hr with ((⟨j, ⟨i, hi, hj⟩, rfl⟩ | ⟨i, hi, rfl⟩) | ⟨i, hi, rfl⟩) | ⟨i, hi, rfl⟩
      · exact hlab sel i hi j hj
      · exact hrel sel i (by simp [hi])
      · exact hrel sel i (by simp [hi])
      · exact hrel sel i (by simp [hi])
    refine ⟨IPSwriteSeg.symbols_data_length K _ r hr, ?_⟩
    rw [IPSRecord.bytes, (PutMW_of_lt r.length hlen).1]
  · intro hkeys
    have hc := IPSwriteSeg_eq K obj.code (hkeys .CODE)
    have hd := IPSwriteSeg_eq K obj.data (hkeys .DATA)
    have hb := IPSwriteSeg_eq K obj.bss (hkeys .BSS)
    have hz := IPSwriteSeg_eq K obj.zero (hkeys .ZERO)
    exact ⟨_, _, _, _, hc, hd, hb, hz, Object.WriteIPS_eq K obj _ _ _ _ hc hd hb hz⟩

/-- C23, witness: the label `e`, an unresolved LONG reference to `ext` and an unresolved
HIBYTE reference in the code segment. -/
theorem IPSwriteSeg_symbol_patches_witness :
    IPSwriteSeg IPSAddresses.ofSpec ipsSymbolsObject.code =
      some ([⟨0x454F46, 5, [0x65, 0, 1, 0, 0]⟩,
             ⟨0x454F45, 8, [0x65, 0x78, 0x74, 0, 1, 0, 0, 3]⟩,
             ⟨0, 5, [1, 0, 0, 0, 0]⟩], [Diag.ipsHiByteExterns]) ∧
    (IPSwriteSeg.symbols IPSAddresses.ofSpec (ipsSymbolsObject.seg .CODE)).1 =
      ((ipsSymbolsObject.seg .CODE).labels.flatMap (fun i => i.2)).map
          (IPSwriteSeg.labelRecord IPSAddresses.ofSpec)
        ++ (ipsSymbolsObject.seg .CODE).R.R16lo.Relocs.map
          (IPSwriteSeg.externRecord IPSAddresses.ofSpec 1)
        ++ (ipsSymbolsObject.seg .CODE).R.R16.Relocs.map
          (IPSwriteSeg.externRecord IPSAddresses.ofSpec 2)
        ++ (ipsSymbolsObject.seg .CODE).R.R24.Relocs.map
          (IPSwriteSeg.externRecord IPSAddresses.ofSpec 3) :=
  ⟨by decide,
   ((IPSwriteSeg_symbol_patches IPSAddresses.ofSpec ipsSymbolsObject
      (by intro sel; cases sel <;> decide) (by intro sel; cases sel <;> decide)).1 .CODE).1⟩

theorem longName_length (n : Nat) : (longName n).length = n := by
  simp [longName]

theorem longLabel_symbols (K : IPSAddresses) (n : Nat) :
    (IPSwriteSeg.symbols K (longLabel n)).1 = [IPSwriteSeg.labelRecord K (longName n, 0)] := by
  rw [IPSwriteSeg.symbols_records]
  simp [longLabel, Segment.new, Relocdata.empty]

theorem IPSwriteSeg.labelRecord_length (K : IPSAddresses) (name : Str) (addr : Nat) :
    (IPSwriteSeg.labelRecord K (name, addr)).length = name.length + 4 ∧
    (IPSwriteSeg.labelRecord K (name, addr)).data.length = name.length + 4 := by
  simp [IPSwriteSeg.labelRecord, strBytes]

/-- C23, counterexample: a label whose name has 65532 characters. The data of its record
has `|name| + 4 = 65536` bytes, and the two length bytes written are `00 00`. -/
theorem IPSwriteSeg_long_name_length :
    (IPSwriteSeg.symbols IPSAddresses.ofSpec (longLabel 65532)).1 =
      [IPSwriteSeg.labelRecord IPSAddresses.ofSpec (longName 65532, 0)] ∧
    (longName 65532).length + 4 = 65536 ∧
    (IPSwriteSeg.labelRecord IPSAddresses.ofSpec (longName 65532, 0)).data.length = 65536 ∧
    PutMW (IPSwriteSeg.labelRecord IPSAddresses.ofSpec (longName 65532, 0)).length = [0, 0] ∧
    beValue [0, 0] = 0 := by
  refine ⟨longLabel_symbols _ _, ?_, ?_, ?_, by decide⟩
  · rw [longName_length]
  · rw [(IPSwriteSeg.labelRecord_length _ _ _).2, longName_length]
  · rw [(IPSwriteSeg.labelRecord_length _ _ _).1, longName_length]
    decide

end Nescom
